import Mathlib

/-
Verification development for the vscode-cmantic symbol-refinement and
code-synthesis engine.  Documents are modelled as lists of characters and
positions as byte offsets into the document (the editor's Position/offsetAt
conversions are order-preserving bijections, so offsets are a faithful
abstraction of line/character positions).  JavaScript regular-expression
scans are translated into explicit structural scanners over `List Char`.
Functions of the repository's `parsing`/`utility`/`configuration` modules
that are not part of the provided sources are modelled from the spec and
marked as such in their doc comments.
-/

set_option maxRecDepth 10000

abbrev Str := List Char

def quoteChar : Char := Char.ofNat 34

def squoteChar : Char := Char.ofNat 39

def bslashChar : Char := Char.ofNat 92

/-- JavaScript word character, as used by the `\w` character class. -/
def isWordChar (c : Char) : Bool :=
  (('a' ≤ c ∧ c ≤ 'z') ∨ ('A' ≤ c ∧ c ≤ 'Z') ∨ ('0' ≤ c ∧ c ≤ '9') ∨ c = '_')

/-- JavaScript whitespace, as used by the `\s` character class (ASCII part). -/
def isSpaceJs (c : Char) : Bool :=
  (c = ' ' ∨ c = '\t' ∨ c = '\n' ∨ c = '\r')

/-- Number of leading JS-whitespace characters (what a greedy leading `\s*` consumes). -/
def leadingSpaces : Str → Nat
  | [] => 0
  | c :: cs => if isSpaceJs c then 1 + leadingSpaces cs else 0

/-- Character at an offset, if in bounds. -/
def charAt (s : Str) (i : Nat) : Option Char :=
  s[i]?

/-- First index of a character. -/
def indexOfC (c : Char) : Str → Option Nat
  | [] => none
  | a :: as =>
    if a = c then some 0
    else match indexOfC c as with
         | some i => some (i + 1)
         | none => none

/-- Last index of a character. -/
def lastIndexOfC (c : Char) : Str → Option Nat
  | [] => none
  | a :: as =>
    match lastIndexOfC c as with
    | some i => some (i + 1)
    | none => if a = c then some 0 else none

/-- JavaScript `split(sep)` on a single-character separator. -/
def splitOnC (sep : Char) : Str → List Str
  | [] => [[]]
  | c :: cs =>
    if c = sep then [] :: splitOnC sep cs
    else match splitOnC sep cs with
         | p :: ps => (c :: p) :: ps
         | [] => [[c]]

/-- Does `pat` occur as a contiguous substring? -/
def containsSub (pat : Str) : Str → Bool
  | [] => pat.isEmpty
  | s@(_ :: rest) => if pat.isPrefixOf s then true else containsSub pat rest

/-- No word character at the given boundary-context position. -/
def nonWordOpt : Option Char → Bool
  | some p => ¬ isWordChar p
  | none => true

/-- A word-boundary occurrence of `w` (the JS test `/\bw\b/`), scanning with
the character preceding the current suffix as boundary context. -/
def containsWordFrom (w : Str) (prev : Option Char) : Str → Bool
  | [] => false
  | s@(c :: rest) =>
    if w.isPrefixOf s ∧ nonWordOpt prev ∧ nonWordOpt (charAt s w.length) then
      true
    else containsWordFrom w (some c) rest

def containsWord (w : Str) (s : Str) : Bool :=
  containsWordFrom w none s

/-- Remove trailing JS whitespace (the behavior of `trimEnd`). -/
def trimEndL (s : Str) : Str :=
  (s.reverse.dropWhile isSpaceJs).reverse

/-- Remove leading JS whitespace (the behavior of `trimStart`). -/
def trimStartL (s : Str) : Str :=
  s.dropWhile isSpaceJs

/-- Erase every whitespace character; two strings equal after `stripWs` are
in particular equivalent modulo whitespace. -/
def stripWs (s : Str) : Str :=
  s.filter (fun c => ¬ isSpaceJs c)

/-- Number of lines of a text buffer (one more than the newline count). -/
def lineCountOf (s : Str) : Nat :=
  (s.filter (fun c => c = '\n')).length + 1

/-- Depth-tracked bracket-content masking.  `keep = true` keeps the outermost
pair of delimiters visible; masked characters become a space, newlines are
preserved so that line structure survives (spec section 4.1). -/
def maskDelimGo (keep : Bool) ( openC closeC : Char) : Str → Nat → Str
  | [], _ => []
  | c :: cs, d =>
    if c = openC then
      (if d = 0 ∧ keep then c else if c = '\n' then c else ' ') :: maskDelimGo keep openC closeC cs (d + 1)
    else if c = closeC then
      (if d ≤ 1 ∧ keep then c else if c = '\n' then c else ' ') :: maskDelimGo keep openC closeC cs (d - 1)
    else
      (if d = 0 ∨ c = '\n' then c else ' ') :: maskDelimGo keep openC closeC cs d

/-- Modelled from the spec: `parse.maskParentheses` (the `parsing` module is
not among the provided sources) — blanks parenthesis contents, tracking
nesting, keeping the outer delimiters, preserving length and newlines. -/
def maskParentheses (s : Str) : Str :=
  maskDelimGo true '(' ')' s 0

/-- Modelled from the spec: `parse.maskBraces` — blanks brace contents. -/
def maskBraces (s : Str) : Str :=
  maskDelimGo true '\x7b' '\x7d' s 0

/-- Modelled from the spec: `parse.maskAngleBrackets` — blanks the contents
of angle brackets (template parameter lists). -/
def maskAngleBrackets (s : Str) : Str :=
  maskDelimGo true '<' '>' s 0

/-- Modelled from the spec: `parse.maskAngleBrackets(text, false)` — as above
but the delimiters themselves are blanked too. -/
def maskAngleBracketsAll (s : Str) : Str :=
  maskDelimGo false '<' '>' s 0

inductive CMode where
  | normal
  | line
  | blok
deriving DecidableEq

/-- Modelled from the spec: comment masking with mask character `mc`.
`keep = true` keeps the `//`, `/*`, `*/` delimiters visible (the default of
`parse.maskComments`); newlines always survive so line structure is kept. -/
def maskCommentsGo (keep : Bool) (mc : Char) : Str → CMode → Str
  | [], _ => []
  | '/' :: '/' :: rest, CMode.normal =>
    (if keep then '/' else mc) :: (if keep then '/' else mc) :: maskCommentsGo keep mc rest CMode.line
  | '/' :: '*' :: rest, CMode.normal =>
    (if keep then '/' else mc) :: (if keep then '*' else mc) :: maskCommentsGo keep mc rest CMode.blok
  | c :: rest, CMode.normal => c :: maskCommentsGo keep mc rest CMode.normal
  | '\n' :: rest, CMode.line => '\n' :: maskCommentsGo keep mc rest CMode.normal
  | _ :: rest, CMode.line => mc :: maskCommentsGo keep mc rest CMode.line
  | '*' :: '/' :: rest, CMode.blok =>
    (if keep then '*' else mc) :: (if keep then '/' else mc) :: maskCommentsGo keep mc rest CMode.normal
  | '\n' :: rest, CMode.blok => '\n' :: maskCommentsGo keep mc rest CMode.blok
  | _ :: rest, CMode.blok => mc :: maskCommentsGo keep mc rest CMode.blok

/-- `parse.maskComments(text)` (delimiters kept). -/
def maskCommentsKeep (s : Str) : Str :=
  maskCommentsGo true ' ' s CMode.normal

/-- `parse.maskComments(text, false)` (delimiters masked as well). -/
def maskCommentsFull (s : Str) : Str :=
  maskCommentsGo false ' ' s CMode.normal

/-- `util.maskComments(text, maskChar)` of the header/source module. -/
def maskCommentsU (mc : Char) (s : Str) : Str :=
  maskCommentsGo false mc s CMode.normal

inductive SMode where
  | normal
  | dq
  | sq
deriving DecidableEq

/-- Modelled from the spec: string/character-literal masking with mask
character `mc`; delimiters and contents are blanked, escapes are honoured,
newlines survive. -/
def maskStringsGo (mc : Char) : Str → SMode → Str
  | [], _ => []
  | c :: rest, SMode.normal =>
    if c = quoteChar then mc :: maskStringsGo mc rest SMode.dq
    else if c = squoteChar then mc :: maskStringsGo mc rest SMode.sq
    else c :: maskStringsGo mc rest SMode.normal
  | [c], SMode.dq =>
    if c = bslashChar then [mc]
    else if c = quoteChar then [mc]
    else if c = '\n' then ['\n']
    else [mc]
  | c :: d :: rest, SMode.dq =>
    if c = bslashChar then mc :: mc :: maskStringsGo mc rest SMode.dq
    else if c = quoteChar then mc :: maskStringsGo mc (d :: rest) SMode.normal
    else if c = '\n' then '\n' :: maskStringsGo mc (d :: rest) SMode.normal
    else mc :: maskStringsGo mc (d :: rest) SMode.dq
  | [c], SMode.sq =>
    if c = bslashChar then [mc]
    else if c = squoteChar then [mc]
    else if c = '\n' then ['\n']
    else [mc]
  | c :: d :: rest, SMode.sq =>
    if c = bslashChar then mc :: mc :: maskStringsGo mc rest SMode.sq
    else if c = squoteChar then mc :: maskStringsGo mc (d :: rest) SMode.normal
    else if c = '\n' then '\n' :: maskStringsGo mc (d :: rest) SMode.normal
    else mc :: maskStringsGo mc (d :: rest) SMode.sq

/-- `util.maskStringLiterals(text, maskChar)` of the header/source module. -/
def maskStringLiteralsU (mc : Char) (s : Str) : Str :=
  maskStringsGo mc s SMode.normal

/-- Modelled from the spec: attribute masking (`[[...]]` regions blanked). -/
def maskAttributesGo : Str → Bool → Str
  | [], _ => []
  | '[' :: '[' :: rest, false => ' ' :: ' ' :: maskAttributesGo rest true
  | c :: rest, false => c :: maskAttributesGo rest false
  | ']' :: ']' :: rest, true => ' ' :: ' ' :: maskAttributesGo rest false
  | '\n' :: rest, true => '\n' :: maskAttributesGo rest true
  | _ :: rest, true => ' ' :: maskAttributesGo rest true

def maskAttributes (s : Str) : Str :=
  maskAttributesGo s false

/-- Modelled from the spec: `parse.maskNonSourceText` — masks comments,
string/character literals and attributes, preserving length and lines. -/
def maskNonSourceText (s : Str) : Str :=
  maskAttributes (maskStringLiteralsU ' ' (maskCommentsFull s))

/-- Greedy length consumed by the repetition `(>(?=>)|[^>])*` of the
template-parameter mask of `CSymbol.maskUnimportantText`: consumes any
non-`>` character, or a `>` that is immediately followed by another `>`. -/
def tplGreedyLen : Str → Nat
  | [] => 0
  | c :: cs =>
    if c ≠ '>' then 1 + tplGreedyLen cs
    else match cs with
         | '>' :: _ => 1 + tplGreedyLen cs
         | _ => 0

/-- Length of the match of `(>(?=>)|[^>])*(?=>)` at the head of `cs`
(greedy with backtracking), or `none` when there is no match. -/
def tplMatchLen (cs : Str) : Option Nat :=
  let g := tplGreedyLen cs
  match charAt cs g with
  | some _ => some g
  | none => lastIndexOfC '>' (cs.take g)

/-- The replacement `/(?<=<)(>(?=>)|[^>])*(?=>)/g` → `maskChar.repeat(len)`
performed by `CSymbol.maskUnimportantText` (header/source module, line 351):
every match is found on the original text, scanning left to right, with the
JS empty-match position bump. -/
def maskTplGo (mc : Char) (prev : Option Char) : Str → Nat → Str
  | s, 0 => s
  | [], _ => []
  | c :: cs, fuel + 1 =>
    if prev = some '<' then
      match tplMatchLen (c :: cs) with
      | some (n + 1) =>
        List.replicate (n + 1) mc ++
          maskTplGo mc (charAt (c :: cs) n) ((c :: cs).drop (n + 1)) fuel
      | _ => c :: maskTplGo mc (some c) cs fuel
    else c :: maskTplGo mc (some c) cs fuel

def maskTemplateContents (mc : Char) (s : Str) : Str :=
  maskTplGo mc none s (s.length + 1)

/-- `CSymbol.maskUnimportantText` (header/source module, lines 346-354):
masks comments, then string/character literals, then template parameter
contents, using mask character `mc`. -/
def maskUnimportantText (mc : Char) (sourceText : Str) : Str :=
  maskTemplateContents mc (maskStringLiteralsU mc (maskCommentsU mc sourceText))

/-- The replacement `/[^\w\s]=/g` → `''` (first step of
`CSymbol.stripDefaultValues`). -/
def replNonWordEqGo : Str → Nat → Str
  | s, 0 => s
  | [], _ => []
  | c :: '=' :: rest, fuel + 1 =>
    if ¬ isWordChar c ∧ ¬ isSpaceJs c then replNonWordEqGo rest fuel
    else c :: replNonWordEqGo ('=' :: rest) fuel
  | c :: cs, fuel + 1 => c :: replNonWordEqGo cs fuel

def replNonWordEq (s : Str) : Str :=
  replNonWordEqGo s (s.length + 1)

/-- Word character at the given position (used for a closing `\b` test). -/
def wordAtOpt : Option Char → Bool
  | some c => isWordChar c
  | none => false

/-- The replacement `/\b\s*=\s*\b/g` → `'='` (second step of
`CSymbol.stripDefaultValues`); `prevWord` records whether the character just
before the current suffix is a word character (the `\b` context). -/
def replSpacedEqGo (prevWord : Bool) : Str → Nat → Str
  | s, 0 => s
  | [], _ => []
  | c :: cs, fuel + 1 =>
    let s := c :: cs
    let k := leadingSpaces s
    if prevWord ∧ charAt s k = some '=' ∧
        wordAtOpt (charAt s (k + 1 + leadingSpaces (s.drop (k + 1)))) then
      '=' :: replSpacedEqGo false (s.drop (k + 1 + leadingSpaces (s.drop (k + 1)))) fuel
    else
      c :: replSpacedEqGo (isWordChar c) cs fuel

def replSpacedEq (s : Str) : Str :=
  replSpacedEqGo false s (s.length + 1)

/-- The replacement `/\(\)/g` → `''` (third step of
`CSymbol.stripDefaultValues`). -/
def replEmptyParens : Str → Str
  | [] => []
  | '(' :: ')' :: rest => replEmptyParens rest
  | c :: cs => c :: replEmptyParens cs

/-- The reconstruction loop of `CSymbol.stripDefaultValues`: walk the pieces
of the masked text split on `','`, copying from the unmasked parameters text
at the running character position, cutting each piece at its first `=`. -/
def stripValuesGo (orig : Str) : List Str → Nat → Str
  | [], _ => []
  | p :: ps, charPos =>
    (match indexOfC '=' p with
     | some k => ((orig.drop charPos).take k)
     | none => ((orig.drop charPos).take p.length)) ++
      ',' :: stripValuesGo orig ps (charPos + p.length + 1)

/-- `CSymbol.stripDefaultValues` (header/source module, lines 356-375). -/
def stripDefaultValues (parameters : Str) : Str :=
  let p1 := replEmptyParens (replSpacedEq (replNonWordEq parameters))
  let masked := maskUnimportantText ' ' p1
  (stripValuesGo p1 (splitOnC ',' masked) 0).dropLast

def toL (s : String) : Str := s.data

/-- First index of a substring. -/
def indexOfSub (pat : Str) : Str → Option Nat
  | [] => if pat.isEmpty then some 0 else none
  | s@(_ :: rest) =>
    if pat.isPrefixOf s then some 0
    else match indexOfSub pat rest with
         | some i => some (i + 1)
         | none => none

/-- Last index of a substring. -/
def lastIndexOfSub (pat : Str) : Str → Option Nat
  | [] => if pat.isEmpty then some 0 else none
  | s@(_ :: rest) =>
    match lastIndexOfSub pat rest with
    | some i => some (i + 1)
    | none => if pat.isPrefixOf s then some 0 else none

def endsWithStr (pat : Str) (s : Str) : Bool :=
  pat.reverse.isPrefixOf s.reverse

def startsWithStr (pat : Str) (s : Str) : Bool :=
  pat.isPrefixOf s

/-- Length of the leading run of word characters. -/
def wordRunLen : Str → Nat
  | [] => 0
  | c :: cs => if isWordChar c then 1 + wordRunLen cs else 0

/-- The document is a list of characters; lines are the `'\n'`-separated
pieces, mirroring the editor's line/offset conversions. -/
def linesOf (doc : Str) : List Str :=
  splitOnC '\n' doc

def lineOfOffset (doc : Str) (off : Nat) : Nat :=
  ((doc.take off).filter (fun c => c = '\n')).length

def lineText (doc : Str) (ln : Nat) : Str :=
  (((linesOf doc).drop ln).head?).getD []

def lineStartOffset (doc : Str) (ln : Nat) : Nat :=
  ((linesOf doc).take ln).foldl (fun a l => a + l.length + 1) 0

/-- End of a line as a position (excludes the end-of-line sequence). -/
def lineEndOffset (doc : Str) (ln : Nat) : Nat :=
  lineStartOffset doc ln + (lineText doc ln).length

/-- `firstNonWhitespaceCharacterIndex` of a line. -/
def firstNonWsIndex (l : Str) : Nat :=
  leadingSpaces l

inductive SymbolKind where
  | namespaceKind
  | classKind
  | structKind
  | unionKind
  | enumKind
  | functionKind
  | methodKind
  | constructorKind
  | variableKind
  | fieldKind
  | typedefKind
  | otherKind
deriving DecidableEq

/-- A symbol bound to its document: the analyzer-reported spans (after the
`CSymbol` constructor's adjustments), the symbol kind and name, and the full
document text.  Positions are byte offsets. -/
structure CSymCore where
  doc : Str
  rangeStart : Nat
  rangeEnd : Nat
  selStart : Nat
  selEnd : Nat
  kind : SymbolKind
  name : Str

/-- Modelled from the spec: the kind classification predicates of
`SourceSymbol` (file not among the provided sources). -/
def isNamespace (s : CSymCore) : Bool := s.kind = SymbolKind.namespaceKind

def isClass (s : CSymCore) : Bool := s.kind = SymbolKind.classKind

def isStruct (s : CSymCore) : Bool := s.kind = SymbolKind.structKind

/-- Modelled from the spec: a class or a struct (section 4.5). -/
def isClassType (s : CSymCore) : Bool := isClass s ∨ isStruct s

def isEnum (s : CSymCore) : Bool := s.kind = SymbolKind.enumKind

def isFunction (s : CSymCore) : Bool :=
  (s.kind = SymbolKind.functionKind ∨ s.kind = SymbolKind.methodKind
    ∨ s.kind = SymbolKind.constructorKind)

def isConstructor (s : CSymCore) : Bool := s.kind = SymbolKind.constructorKind

def isVariable (s : CSymCore) : Bool :=
  (s.kind = SymbolKind.variableKind ∨ s.kind = SymbolKind.fieldKind)

/-- Modelled from the spec: a member variable is a field symbol. -/
def isMemberVariable (s : CSymCore) : Bool := s.kind = SymbolKind.fieldKind

def mightBeTypedefOrTypeAlias (s : CSymCore) : Bool :=
  s.kind = SymbolKind.typedefKind

def textOf (s : CSymCore) : Str :=
  (s.doc.drop s.rangeStart).take (s.rangeEnd - s.rangeStart)

/-- `CSymbol.parsableText`: the symbol's text with comments, strings and
attributes masked. -/
def parsableText (s : CSymCore) : Str :=
  maskNonSourceText (textOf s)

def parsableLeadingText (s : CSymCore) : Str :=
  (parsableText s).take (s.selStart - s.rangeStart)

def parsableTrailingText (s : CSymCore) : Str :=
  (parsableText s).drop (s.selEnd - s.rangeStart)

/-- Modelled from the spec: `parse.getEndOfStatement` — extends a position
past directly following semicolons ("up to and including the final
semi-colon"); `fuel` is an upper bound on the scan. -/
def endOfStatementGo (doc : Str) (e : Nat) : Nat → Nat
  | 0 => e
  | fuel + 1 =>
    let k := e + leadingSpaces (doc.drop e)
    if charAt doc k = some ';' then endOfStatementGo doc (k + 1) fuel else e

def getEndOfStatement (doc : Str) (e : Nat) : Nat :=
  endOfStatementGo doc e (doc.length + 1)

/-- The `CSymbol` constructor binds a child `DocumentSymbol` by extending its
range to the end of its statement. -/
def extendCore (c : CSymCore) : CSymCore :=
  { c with rangeEnd := getEndOfStatement c.doc c.rangeEnd }

/-- One `\s*::\s*(inline\s*)?[\w_][\w\d_]*`-repetition walk for the
qualified-namespace-name regex of `CSymbol.trueStart`; the suffix `s` is
positioned just after an identifier and the whole suffix must be consumed
(the regex is end-anchored). -/
def nsChainLoop (s : Str) : Nat → Bool
  | 0 => false
  | fuel + 1 =>
    if s.isEmpty then true
    else
      let k := leadingSpaces s
      let s1 := s.drop k
      if (toL "::").isPrefixOf s1 then
        let s2 := s1.drop 2
        let m := leadingSpaces s2
        let s3 := s2.drop m
        let r := wordRunLen s3
        if r = 0 then s3.isEmpty
        else
          let first := s3.take r
          if first = toL "inline" ∧ r = 6 then
            let k2 := leadingSpaces (s3.drop r)
            let r2 := wordRunLen (s3.drop (r + k2))
            if r2 = 0 then nsChainLoop (s3.drop r) fuel
            else nsChainLoop (s3.drop (r + k2 + r2)) fuel
          else nsChainLoop (s3.drop r) fuel
      else false

/-- Does `/(inline\s*)?namespace\s*[\w_][\w\d_]*(\s*::\s*(inline\s*)?[\w_][\w\d_]*)*(\s*::\s*)?$/`
match the whole of `s`? -/
def nsTailMatch (s : Str) : Bool :=
  let core : Str → Bool := fun t =>
    if (toL "namespace").isPrefixOf t then
      let a := t.drop 9
      let k := leadingSpaces a
      let b := a.drop k
      let r := wordRunLen b
      if r = 0 then false else nsChainLoop (b.drop r) (b.length + 1)
    else false
  if (toL "inline").isPrefixOf s ∧ nonWordOpt (charAt s 6) then
    core ((s.drop 6).drop (leadingSpaces (s.drop 6))) ∨ core s
  else core s

/-- Leftmost word-boundary start of a qualified-namespace-name tail
(the `trueStart` namespace scan). -/
def nsSearchGo (prev : Option Char) : Str → Nat → Option Nat
  | [], _ => none
  | s@(c :: rest), i =>
    if nonWordOpt prev ∧ isWordChar c ∧ nsTailMatch s then some i
    else nsSearchGo (some c) rest (i + 1)

def nsSearch (s : Str) : Option Nat :=
  nsSearchGo none s 0

/-- Leftmost word-boundary start of a trailing `template\s*<\s*>\s*$` clause
(the `trueStart` template scan on angle-masked text). -/
def tplTailMatch (s : Str) : Bool :=
  if (toL "template").isPrefixOf s then
    let a := s.drop 8
    let k := leadingSpaces a
    match a.drop k with
    | '<' :: r2 =>
      let m := leadingSpaces r2
      match r2.drop m with
      | '>' :: r3 => r3.all isSpaceJs
      | _ => false
    | _ => false
  else false

def tplSearchGo (prev : Option Char) : Str → Nat → Option Nat
  | [], _ => none
  | s@(c :: rest), i =>
    if nonWordOpt prev ∧ isWordChar c ∧ tplTailMatch s then some i
    else tplSearchGo (some c) rest (i + 1)

def tplSearch (s : Str) : Option Nat :=
  tplSearchGo none s 0

/-- `CSymbol.trueStart` (lines 915-945): scan backward over the masked text
preceding the symbol for a qualified-namespace prefix (namespaces) or a
trailing template clause (other symbols). -/
def trueStart (s : CSymCore) : Nat :=
  let before := s.doc.take s.rangeStart
  let maskedText := maskCommentsFull before
  if isNamespace s then
    match nsSearch maskedText with
    | some i => i
    | none => s.rangeStart
  else
    let masked2 := trimEndL (maskAngleBrackets maskedText)
    if masked2.getLast? = some '>' then
      match tplSearch masked2 with
      | some i => i
      | none => s.rangeStart
    else s.rangeStart

/-- `CSymbol.parsableTemplateSnippet` (lines 84-95). -/
def parsableTemplateSnippet (s : CSymCore) : Str :=
  let snip := (s.doc.drop (trueStart s)).take (s.rangeStart - trueStart s)
  if snip.isEmpty then [] else maskNonSourceText snip

def parsableFullText (s : CSymCore) : Str :=
  parsableTemplateSnippet s ++ parsableText s

def parsableFullLeadingText (s : CSymCore) : Str :=
  parsableTemplateSnippet s ++ parsableLeadingText s

/-- Tail check of `/}\s*(\s*;)*$/` after the closing brace: the remaining
characters are spaces and semicolons, and are either all spaces or end in a
semicolon. -/
def semiSpaceTail (t : Str) : Bool :=
  t.all (fun c => isSpaceJs c ∨ c = ';') ∧ (t.all isSpaceJs ∨ t.getLast? = some ';')

/-- The test `/}\s*(\s*;)*$/` on the symbol's parsable text. -/
def endsWithBodyBrace (s : Str) : Bool :=
  match lastIndexOfC '\x7d' s with
  | some i => semiSpaceTail (s.drop (i + 1))
  | none => false

/-- The test `/\s*=\s*(delete|default)\s*(\s*;)*$/` at one start position. -/
def delDefHere (cs : Str) : Bool :=
  let k := leadingSpaces cs
  match cs.drop k with
  | '=' :: r =>
    let m := leadingSpaces r
    let r2 := r.drop m
    (((toL "delete").isPrefixOf r2 ∧ semiSpaceTail (r2.drop 6)) ∨
      ((toL "default").isPrefixOf r2 ∧ semiSpaceTail (r2.drop 7)))
  | _ => false

def delDefTest : Str → Bool
  | [] => false
  | s@(_ :: rest) => if delDefHere s then true else delDefTest rest

/-- The test `/\s*=\s*0\s*(\s*;)*$/` at one start position. -/
def pureZeroHere (cs : Str) : Bool :=
  let k := leadingSpaces cs
  match cs.drop k with
  | '=' :: r =>
    let m := leadingSpaces r
    (match r.drop m with
     | '0' :: r2 => semiSpaceTail r2
     | _ => false)
  | _ => false

def pureZeroTest : Str → Bool
  | [] => false
  | s@(_ :: rest) => if pureZeroHere s then true else pureZeroTest rest

/-- Length of the match of `/^(template(\s*<\s*>)?\s*)*/` (used by
`CSymbol.declarationStart` on angle-masked leading text). -/
def templateClauseLen : Str → Nat → Nat
  | _, 0 => 0
  | cs, fuel + 1 =>
    if (toL "template").isPrefixOf cs then
      let a := cs.drop 8
      let k := leadingSpaces a
      let b := a.drop k
      match b with
      | '<' :: r2 =>
        let m := leadingSpaces r2
        (match r2.drop m with
         | '>' :: r3 =>
           let k3 := leadingSpaces r3
           8 + k + 1 + m + 1 + k3 + templateClauseLen (r3.drop k3) fuel
         | _ => 8 + k)
      | _ => 8 + k + templateClauseLen b fuel
    else 0

/-- `CSymbol.declarationStart` (lines 973-985). -/
def declarationStart (s : CSymCore) : Nat :=
  if ¬ (toL "template").isPrefixOf (parsableLeadingText s) then s.rangeStart
  else
    let maskedLeadingText := maskAngleBrackets (parsableLeadingText s)
    s.rangeStart + templateClauseLen maskedLeadingText (maskedLeadingText.length + 1)

/-- One position of the search `/\s*{|\s*;$/`. -/
def bodyStartHere (cs : Str) : Bool :=
  let k := leadingSpaces cs
  match cs.drop k with
  | '\x7b' :: _ => true
  | [';'] => true
  | _ => false

/-- Leftmost match position of `/\s*{|\s*;$/`. -/
def bodyStartSearchGo : Str → Nat → Option Nat
  | [], _ => none
  | s@(_ :: rest), i => if bodyStartHere s then some i else bodyStartSearchGo rest (i + 1)

def bodyStartSearch (s : Str) : Option Nat :=
  bodyStartSearchGo s 0

/-- One position of the member-initializer search `/\s*:(?!:)/`. -/
def initListHere (cs : Str) : Bool :=
  let k := leadingSpaces cs
  match cs.drop k with
  | ':' :: r => ¬ (r.head? = some ':')
  | _ => false

def initListSearchGo : Str → Nat → Option Nat
  | [], _ => none
  | s@(_ :: rest), i => if initListHere s then some i else initListSearchGo rest (i + 1)

def initListSearch (s : Str) : Option Nat :=
  initListSearchGo s 0

/-- `CSymbol.declarationEnd` (lines 987-1006). -/
def declarationEnd (s : CSymCore) : Nat :=
  let maskedText := maskParentheses (parsableText s)
  let nameEndIndex := s.selEnd - s.rangeStart
  match bodyStartSearch (maskedText.drop nameEndIndex) with
  | none => s.rangeEnd
  | some bodyStartIndex =>
    if ¬ isConstructor s then s.rangeStart + nameEndIndex + bodyStartIndex
    else
      match initListSearch ((maskedText.drop nameEndIndex).take bodyStartIndex) with
      | none => s.rangeStart + nameEndIndex + bodyStartIndex
      | some initializerIndex => s.rangeStart + nameEndIndex + initializerIndex

/-- `CSymbol.bodyStart` (lines 1008-1016). -/
def bodyStart (s : CSymCore) : Nat :=
  match lastIndexOfC '\x7b' (maskBraces (maskParentheses (parsableText s))) with
  | none => s.rangeEnd
  | some i => s.rangeStart + i + 1

/-- `CSymbol.bodyEnd` (lines 1018-1025). -/
def bodyEnd (s : CSymCore) : Nat :=
  match lastIndexOfC '\x7d' (parsableText s) with
  | none => s.rangeEnd
  | some i => s.rangeStart + i

def isDeletedOrDefaulted (s : CSymCore) : Bool :=
  delDefTest (parsableText s)

/-- `CSymbol.isVirtual` (lines 602-610). -/
def isVirtual (s : CSymCore) : Bool :=
  if containsWord (toL "virtual") (parsableLeadingText s) then true
  else
    let endIndex := declarationEnd s - s.selEnd
    let maskedTrailingText := maskParentheses ((parsableTrailingText s).take endIndex)
    (containsWord (toL "override") maskedTrailingText ∨
      containsWord (toL "final") maskedTrailingText)

def isPureVirtual (s : CSymCore) : Bool :=
  pureZeroTest (parsableText s) ∧ isVirtual s

/-- `CSymbol.isFunctionDeclaration` (lines 592-595). -/
def isFunctionDeclaration (s : CSymCore) : Bool :=
  isFunction s ∧ ¬ endsWithBodyBrace (parsableText s)
    ∧ ¬ isDeletedOrDefaulted s ∧ ¬ isPureVirtual s

/-- `CSymbol.isFunctionDefinition` (lines 597-600). -/
def isFunctionDefinition (s : CSymCore) : Bool :=
  isFunction s ∧ endsWithBodyBrace (parsableText s)
    ∧ ¬ isDeletedOrDefaulted s ∧ ¬ isPureVirtual s

def isInline (s : CSymCore) : Bool :=
  containsWord (toL "inline") (parsableLeadingText s)

def isConstexpr (s : CSymCore) : Bool :=
  containsWord (toL "constexpr") (parsableLeadingText s)

def isConsteval (s : CSymCore) : Bool :=
  containsWord (toL "consteval") (parsableLeadingText s)

def isPointer (s : CSymCore) : Bool :=
  (maskAngleBrackets (parsableLeadingText s)).contains '*'

def isReference (s : CSymCore) : Bool :=
  (maskAngleBrackets (parsableLeadingText s)).contains '&'

def isConst (s : CSymCore) : Bool :=
  containsWord (toL "const") (maskAngleBrackets (parsableLeadingText s))

def isStatic (s : CSymCore) : Bool :=
  containsWord (toL "static") (parsableLeadingText s)

def isTemplate (s : CSymCore) : Bool :=
  (toL "template").isPrefixOf (parsableFullText s)

/-- One position of `/\btemplate\s*<\s*[^\s>]/`. -/
def unspecTplHere (prev : Option Char) (cs : Str) : Bool :=
  if nonWordOpt prev ∧ (toL "template").isPrefixOf cs then
    let a := cs.drop 8
    let k := leadingSpaces a
    (match a.drop k with
     | '<' :: r2 =>
       let m := leadingSpaces r2
       (match r2.drop m with
        | c :: _ => ¬ isSpaceJs c ∧ c ≠ '>'
        | [] => false)
     | _ => false)
  else false

def unspecTplTest (prev : Option Char) : Str → Bool
  | [] => false
  | s@(c :: rest) => if unspecTplHere prev s then true else unspecTplTest (some c) rest

def isUnspecializedTemplate (s : CSymCore) : Bool :=
  unspecTplTest none (parsableFullLeadingText s)

def isSpecializedTemplate (s : CSymCore) : Bool :=
  isTemplate s ∧ ¬ isUnspecializedTemplate s

/-- `CSymbol.trueEnd` (lines 952-971). -/
def trueEnd (s : CSymCore) : Nat :=
  if (parsableText s).getLast? = some ';' ∨ isNamespace s ∨ isFunctionDefinition s then
    s.rangeEnd
  else if isClassType s ∨ isEnum s then
    match indexOfC ';' (maskNonSourceText (s.doc.drop s.rangeEnd)) with
    | some i => s.rangeEnd + i + 1
    | none => s.rangeEnd
  else s.rangeEnd

/-- Lookbehind test of `re_beginningOfScopeString`: position `i` of `t` is
rejected when preceded by a word character or by `::` plus optional spaces. -/
def scopeStartBlocked (t : Str) (i : Nat) : Bool :=
  decide ((i ≠ 0 ∧ wordAtOpt (charAt t (i - 1))) ∨
    (let sp := leadingSpaces ((t.take i).reverse)
     i ≥ sp + 2 ∧ charAt t (i - sp - 1) = some ':' ∧ charAt t (i - sp - 2) = some ':'))

/-- One position of `/(?<!::\s*|[\w\d_])[\w_][\w\d_]*(?=\s*::)/g`: an
identifier run followed (after spaces) by `::`. -/
def beginScopeHere (t : Str) (i : Nat) (cs : Str) : Option Nat :=
  match cs with
  | [] => none
  | c :: _ =>
    if isWordChar c ∧ ¬ scopeStartBlocked t i then
      let r := wordRunLen cs
      let k := leadingSpaces (cs.drop r)
      if (toL "::").isPrefixOf ((cs.drop r).drop k) then some r else none
    else none

/-- All match indices of `re_beginningOfScopeString`, scanning left to right. -/
def beginScopeMatchesGo (t : Str) : Str → Nat → Nat → List Nat
  | _, _, 0 => []
  | cs, i, fuel + 1 =>
    match cs with
    | [] => []
    | _ :: rest =>
      match beginScopeHere t i cs with
      | some r => i :: beginScopeMatchesGo t (cs.drop r) (i + r) fuel
      | none => beginScopeMatchesGo t rest (i + 1) fuel

def beginScopeMatches (t : Str) : List Nat :=
  beginScopeMatchesGo t t 0 (t.length + 1)

/-- `CSymbol.scopeStringStart` (lines 1027-1043). -/
def scopeStringStart (s : CSymCore) : Nat :=
  let trimmedLeadingText := maskAngleBracketsAll (trimEndL (parsableLeadingText s))
  if ¬ endsWithStr (toL "::") trimmedLeadingText then s.selStart
  else
    match (beginScopeMatches trimmedLeadingText).getLast? with
    | none => s.selStart
    | some i => s.rangeStart + i

/-- The single (non-global) replacement of
`` `[ \t]*${eol}?[ \t]*$` `` with the empty string (the `re_trimEnd` of
`CSymbol.leadingCommentStart`, end-of-line fixed to `'\n'`). -/
def trimEndRe (s : Str) : Str :=
  let q1 := s.length - (s.reverse.takeWhile (fun c => c = ' ' ∨ c = '\t')).length
  let q2 := if charAt s (q1 - 1) = some '\n' ∧ q1 ≥ 1 then q1 - 1 else q1
  let s2 := s.take q2
  s2.take (q2 - (s2.reverse.takeWhile (fun c => c = ' ' ∨ c = '\t')).length)

/-- Backwards line walk of `CSymbol.leadingCommentStart` (lines 1069-1078). -/
def lineCommentLoop (doc : Str) : Nat → Option Nat
  | 0 =>
    if ¬ startsWithStr (toL "//") (trimStartL (lineText doc 0)) then
      match indexOfSub (toL "//") (lineText doc 1) with
      | none => none
      | some idx => some (lineStartOffset doc 1 + idx)
    else none
  | n + 1 =>
    if ¬ startsWithStr (toL "//") (trimStartL (lineText doc (n + 1))) then
      match indexOfSub (toL "//") (lineText doc (n + 2)) with
      | none => none
      | some idx => some (lineStartOffset doc (n + 2) + idx)
    else lineCommentLoop doc n

/-- `CSymbol.leadingCommentStart` (lines 1049-1081). -/
def leadingCommentStart (s : CSymCore) : Nat :=
  let ts := trueStart s
  let before := s.doc.take ts
  let maskedText := trimEndRe (maskCommentsKeep before)
  if endsWithStr (toL "*/") maskedText then
    match lastIndexOfSub (toL "/*") maskedText with
    | some i => i
    | none => ts
  else if endsWithStr (toL "//") maskedText then
    let ln := lineOfOffset s.doc ts
    if ln = 0 then ts
    else
      match lineCommentLoop s.doc (ln - 1) with
      | some o => o
      | none => ts
  else ts

/-- `CSymbol.trailingCommentEnd` (lines 1083-1100). -/
def trailingCommentEnd (s : CSymCore) : Nat :=
  let te := trueEnd s
  let documentTrailingText := s.doc.drop te
  if containsSub (toL "//") documentTrailingText then
    lineEndOffset s.doc (lineOfOffset s.doc te)
  else if containsSub (toL "/*") documentTrailingText then
    match indexOfSub (toL "*/") (maskCommentsKeep documentTrailingText) with
    | some i => te + i + 2
    | none => te
  else te

/-- Modelled from the spec: `parse.removeComments` — deletes comments. -/
def removeCommentsGo : Str → CMode → Str
  | [], _ => []
  | '/' :: '/' :: rest, CMode.normal => removeCommentsGo rest CMode.line
  | '/' :: '*' :: rest, CMode.normal => removeCommentsGo rest CMode.blok
  | c :: rest, CMode.normal => c :: removeCommentsGo rest CMode.normal
  | '\n' :: rest, CMode.line => '\n' :: removeCommentsGo rest CMode.normal
  | _ :: rest, CMode.line => removeCommentsGo rest CMode.line
  | '*' :: '/' :: rest, CMode.blok => removeCommentsGo rest CMode.normal
  | _ :: rest, CMode.blok => removeCommentsGo rest CMode.blok

def removeComments (s : Str) : Str :=
  removeCommentsGo s CMode.normal

def joinWithC (sep : Char) : List Str → Str
  | [] => []
  | [x] => x
  | x :: xs => x ++ sep :: joinWithC sep xs

/-- The leading indentation of the symbol's first line. -/
def symbolIndent (s : CSymCore) : Str :=
  let l := lineText s.doc (lineOfOffset s.doc s.rangeStart)
  l.take (firstNonWsIndex l)

/-- Modelled from the spec: the replacement with `parse.getIndentationRegExp`
— strips the symbol's leading indentation from every line start. -/
def stripLineIndent (ind : Str) (s : Str) : Str :=
  if ind.isEmpty then s
  else joinWithC '\n' ((linesOf s).map (fun l => if ind.isPrefixOf l then l.drop ind.length else l))

/-- Matches of `/\btemplate(\s*<\s*>)?/g` as (index, length) pairs. -/
def tplStmtMatchesGo (prev : Option Char) : Str → Nat → Nat → List (Nat × Nat)
  | _, _, 0 => []
  | [], _, _ => []
  | s@(c :: rest), i, fuel + 1 =>
    if nonWordOpt prev ∧ (toL "template").isPrefixOf s then
      let a := s.drop 8
      let k := leadingSpaces a
      let len :=
        match a.drop k with
        | '<' :: r2 =>
          let m := leadingSpaces r2
          (match r2.drop m with
           | '>' :: _ => 8 + k + 1 + m + 1
           | _ => 8)
        | _ => 8
      (i, len) :: tplStmtMatchesGo (charAt s (len - 1)) (s.drop len) (i + len) fuel
    else tplStmtMatchesGo (some c) rest (i + 1) fuel

def tplStmtMatches (s : Str) : List (Nat × Nat) :=
  tplStmtMatchesGo none s 0 (s.length + 1)

/-- The replacement `/\s*=[^,>]+(?=[,>])/g` → `''` (template default-argument
removal in `CSymbol.templateStatements`). -/
def replTplDefaultsGo : Str → Nat → Str
  | [], _ => []
  | s, 0 => s
  | s@(c :: rest), fuel + 1 =>
    let k := leadingSpaces s
    let matched : Option Nat :=
      match (s.drop k) with
      | '=' :: r =>
        let run := (r.takeWhile (fun d => d ≠ ',' ∧ d ≠ '>')).length
        if run ≥ 1 ∧ (charAt r run = some ',' ∨ charAt r run = some '>') then
          some (k + 1 + run)
        else none
      | _ => none
    match matched with
    | some n => replTplDefaultsGo (s.drop n) fuel
    | none => c :: replTplDefaultsGo rest fuel

def replTplDefaults (s : Str) : Str :=
  replTplDefaultsGo s (s.length + 1)

/-- `CSymbol.templateStatements` (lines 483-509). -/
def templateStatements (s : CSymCore) (removeDefaultArgs : Bool) : List Str :=
  if ¬ isTemplate s then []
  else
    let raw := (s.doc.drop (trueStart s)).take (declarationStart s - trueStart s)
    let fullTemplateStatement := stripLineIndent (symbolIndent s) (removeComments raw)
    let maskedTemplateStatement := maskAngleBrackets fullTemplateStatement
    (tplStmtMatches maskedTemplateStatement).map (fun p =>
      let templateStatement := (fullTemplateStatement.drop p.1).take p.2
      if ¬ (templateStatement.getLast? = some '>') then templateStatement ++ toL "<>"
      else if removeDefaultArgs then replTplDefaults templateStatement
      else templateStatement)

/-- Lookbehind feasibility for the template-parameter-name regex
`/(?<=[\w_][\w\d_]*\b\s*)(\.\.\.)?\s*\b([\w_][\w\d_]*)/g`. -/
def tplParamBehindOk (t : Str) (i : Nat) : Bool :=
  let sp := leadingSpaces ((t.take i).reverse)
  decide ((sp ≥ 1 ∧ i ≥ sp + 1 ∧ wordAtOpt (charAt t (i - sp - 1))) ∨
    (sp = 0 ∧ i ≥ 1 ∧ wordAtOpt (charAt t (i - 1)) ∧ ¬ wordAtOpt (charAt t i)))

/-- Match attempt for the template-parameter-name regex at one position:
returns (consumed length, parameter name, was a pack). -/
def tplParamHere (cs : Str) : Option (Nat × Str × Bool) :=
  let dots := (toL "...").isPrefixOf cs
  let afterDots := if dots then cs.drop 3 else cs
  let k := leadingSpaces afterDots
  let r := wordRunLen (afterDots.drop k)
  if r ≥ 1 then
    some ((if dots then 3 else 0) + k + r, (afterDots.drop k).take r, dots)
  else none

def tplParamScanGo (t : Str) : Str → Nat → Nat → List (Str × Bool)
  | _, _, 0 => []
  | [], _, _ => []
  | s@(_ :: rest), i, fuel + 1 =>
    if tplParamBehindOk t i then
      match tplParamHere s with
      | some (len, nm, dots) => (nm, dots) :: tplParamScanGo t (s.drop len) (i + len) fuel
      | none => tplParamScanGo t rest (i + 1) fuel
    else tplParamScanGo t rest (i + 1) fuel

def tplParamScan (t : Str) : List (Str × Bool) :=
  tplParamScanGo t t 0 (t.length + 1)

def joinWithStr (sep : Str) : List Str → Str
  | [] => []
  | [x] => x
  | x :: xs => x ++ sep ++ joinWithStr sep xs

/-- `CSymbol.templateParameters` (lines 537-574). -/
def templateParameters (s : CSymCore) : Str :=
  if isSpecializedTemplate s then
    let startIndex := s.selEnd - s.rangeStart
    let maskedTrailingText := maskAngleBrackets ((parsableText s).drop startIndex)
    match indexOfC '<' maskedTrailingText, indexOfC '>' maskedTrailingText with
    | some a, some b => ((s.doc.drop (s.selEnd + a)).take (b + 1 - a))
    | _, _ => []
  else
    match (templateStatements s true).getLast? with
    | none => []
    | some templateStatement =>
      match indexOfC '<' templateStatement with
      | none => []
      | some tps =>
        let parameterList := maskAngleBrackets ((templateStatement.drop (tps + 1)).dropLast)
        let parameters := (tplParamScan parameterList).map
          (fun p => p.1 ++ (if p.2 then toL "..." else []))
        '<' :: (joinWithStr (toL ", ") parameters) ++ ['>']

def templatedName (s : CSymCore) : Str :=
  s.name ++ templateParameters s

/-- A range of positions (offsets) in a document. -/
structure Rng where
  start : Nat
  stop : Nat
deriving DecidableEq

/-- `vscode.Range.contains` (both ends inclusive). -/
def containsIncl (r : Rng) (p : Nat) : Bool :=
  decide (r.start ≤ p ∧ p ≤ r.stop)

/-- Modelled from the spec: `util.containsExclusive` — strictly inside. -/
def containsExclusive (r : Rng) (p : Nat) : Bool :=
  decide (r.start < p ∧ p < r.stop)

def rangeOf (s : CSymCore) : Rng :=
  Rng.mk s.rangeStart s.rangeEnd

/-- A symbol together with its tree context: immediate parent, enclosing
scope chain (outermost first) and direct children. -/
structure CSym where
  core : CSymCore
  parentCore : Option CSymCore
  ancestorScopes : List CSymCore
  children : List CSymCore

inductive AccessLevel where
  | publicAccess
  | protectedAccess
  | privateAccess
deriving DecidableEq

/-- Modelled from the spec: `util.accessSpecifierRegexp` — a word test for
the requested access keyword. -/
def accessSpecifierMatches (a : AccessLevel) (nm : Str) : Bool :=
  match a with
  | AccessLevel.publicAccess => containsWord (toL "public") nm
  | AccessLevel.protectedAccess => containsWord (toL "protected") nm
  | AccessLevel.privateAccess => containsWord (toL "private") nm

/-- Blank the half-open index interval `[a, b)` of `t` with spaces. -/
def blankRange (t : Str) (a b : Nat) : Str :=
  t.take a ++ List.replicate (min b t.length - a) ' ' ++ t.drop b

/-- Matches of `/\b[\w_][\w\d_]*\s*:(?!:)/g` as (index, length) pairs. -/
def accessScanGo (prev : Option Char) : Str → Nat → Nat → List (Nat × Nat)
  | _, _, 0 => []
  | [], _, _ => []
  | s@(c :: rest), i, fuel + 1 =>
    if nonWordOpt prev ∧ isWordChar c then
      let r := wordRunLen s
      let k := leadingSpaces (s.drop r)
      match (s.drop r).drop k with
      | ':' :: tail =>
        if tail.head? = some ':' then accessScanGo (some c) rest (i + 1) fuel
        else
          let len := r + k + 1
          (i, len) :: accessScanGo (charAt s (len - 1)) (s.drop len) (i + len) fuel
      | _ => accessScanGo (some c) rest (i + 1) fuel
    else accessScanGo (some c) rest (i + 1) fuel

def accessScan (s : Str) : List (Nat × Nat) :=
  accessScanGo none s 0 (s.length + 1)

/-- `CSymbol.accessSpecifiers` (lines 114-151): the class text with each
child's (statement-extended) range blanked, parentheses masked, scanned for
identifier-colon patterns; results are ranges in document offsets. -/
def accessSpecifiers (s : CSym) : List Rng :=
  if ¬ isClassType s.core then []
  else
    let startOffset := s.core.rangeStart
    let masked := s.children.foldl
      (fun t child =>
        let c := extendCore child
        blankRange t (c.rangeStart - startOffset) (c.rangeEnd - startOffset))
      (parsableText s.core)
    let masked2 := maskParentheses masked
    (accessScan masked2).map (fun p => Rng.mk (startOffset + p.1) (startOffset + p.1 + p.2))

/-- The text of an access-specifier sub-symbol (its `name`). -/
def subSymName (doc : Str) (r : Rng) : Str :=
  (doc.drop r.start).take (r.stop - r.start)

/-- The accumulation loop of `CSymbol.rangesOfAccess` (lines 164-179). -/
def rangesOfAccessGo (doc : Str) (re : Str → Bool) (bodyEndPos : Nat) :
    List Rng → Option Nat → List Rng
  | [], some st => [Rng.mk st bodyEndPos]
  | [], none => []
  | sp :: rest, start =>
    if re (subSymName doc sp) then
      (match start with
       | some st => [Rng.mk st sp.start]
       | none => []) ++ rangesOfAccessGo doc re bodyEndPos rest (some sp.stop)
    else
      match start with
      | some st => Rng.mk st sp.start :: rangesOfAccessGo doc re bodyEndPos rest none
      | none => rangesOfAccessGo doc re bodyEndPos rest none

/-- `CSymbol.rangesOfAccess` (lines 153-181). -/
def rangesOfAccess (s : CSym) (access : AccessLevel) : List Rng :=
  let start : Option Nat :=
    if access = AccessLevel.privateAccess ∧ isClass s.core then some (bodyStart s.core)
    else if access = AccessLevel.publicAccess ∧ isStruct s.core then some (bodyStart s.core)
    else none
  rangesOfAccessGo s.core.doc (accessSpecifierMatches access) (bodyEnd s.core)
    (accessSpecifiers s) start

/-- `CSymbol.positionHasAccess` (lines 183-185). -/
def positionHasAccess (s : CSym) (position : Nat) (access : AccessLevel) : Bool :=
  (rangesOfAccess s access).any (fun r => containsIncl r position)

/-- External naming configuration: the case-style formatter, the
boolean-getter-prefix switch and the configured base-name stripping
(`cfg.formatToCaseStyle`, `cfg.boolGetterIsPrefix`, `SourceSymbol.baseName`
— all modelled from the spec, their sources are not provided). -/
structure NamingCfg where
  caseStyle : Str → Str
  boolGetterOn : Bool
  baseNameOf : Str → Str

/-- The test `/^[iI]s[_A-Z]/` (the name already reads as a predicate). -/
def readsAsPredicate (n : Str) : Bool :=
  match n with
  | c0 :: c1 :: c2 :: _ =>
    decide ((c0 = 'i' ∨ c0 = 'I') ∧ c1 = 's' ∧ (c2 = '_' ∨ ('A' ≤ c2 ∧ c2 ≤ 'Z')))
  | _ => false

/-- `CSymbol.getterName` (lines 187-206). -/
def getterName (cfg : NamingCfg) (s : CSymCore) : Str :=
  if ¬ isMemberVariable s then []
  else
    let formattedBaseName := cfg.caseStyle (cfg.baseNameOf s.name)
    if cfg.boolGetterOn ∧
        containsWord (toL "bool") (maskParentheses (maskAngleBrackets (parsableLeadingText s))) ∧
        ¬ readsAsPredicate formattedBaseName then
      cfg.caseStyle (toL "is_" ++ formattedBaseName)
    else if formattedBaseName ≠ s.name then formattedBaseName
    else cfg.caseStyle (toL "get_" ++ formattedBaseName)

/-- `CSymbol.setterName` (lines 208-214). -/
def setterName (cfg : NamingCfg) (s : CSymCore) : Str :=
  if ¬ isMemberVariable s then []
  else cfg.caseStyle (toL "set_" ++ cfg.baseNameOf s.name)

structure PPOptions where
  relativeTo : Option Rng := none
  before : Bool := false
  after : Bool := false
  nextTo : Bool := false
  indent : Bool := false
deriving DecidableEq

/-- `ProposedPosition`: an insertion offset plus adjacency hints. -/
structure ProposedPosition where
  pos : Nat
  opts : PPOptions
deriving DecidableEq

/-- `CSymbol.getPositionForNewChild` (lines 1102-1116). -/
def getPositionForNewChild (s : CSym) : ProposedPosition :=
  match s.children.getLast? with
  | some lc =>
    let lastChild := extendCore lc
    ProposedPosition.mk (trailingCommentEnd lastChild)
      { relativeTo := some (rangeOf lastChild), after := true }
  | none =>
    ProposedPosition.mk (bodyStart s.core)
      { after := true, nextTo := true, indent := true }

/-- `CSymbol.findPositionForNewMemberFunction` (lines 241-289). -/
def findPositionForNewMemberFunction (cfg : NamingCfg) (s : CSym) (access : AccessLevel)
    (relativeName : Option Str) (memberVariable : Option CSymCore) :
    Option ProposedPosition :=
  if ¬ isClassType s.core then none
  else
    let relResult : Option ProposedPosition :=
      match relativeName with
      | none => none
      | some rn =>
        let isGetter := match memberVariable with
                        | some mv => decide (rn = setterName cfg mv)
                        | none => false
        match s.children.reverse.find? (fun child => child.name = rn) with
        | some c =>
          let child := extendCore c
          if isGetter then
            some (ProposedPosition.mk (leadingCommentStart child)
              { relativeTo := some (rangeOf child), before := true, nextTo := true })
          else
            some (ProposedPosition.mk (trailingCommentEnd child)
              { relativeTo := some (rangeOf child), after := true, nextTo := true })
        | none => none
    match relResult with
    | some p => some p
    | none =>
      match s.children.reverse.find?
          (fun c => positionHasAccess s (extendCore c).rangeEnd access) with
      | some c =>
        let child := extendCore c
        some (ProposedPosition.mk (trailingCommentEnd child)
          { relativeTo := some (rangeOf child), after := true })
      | none => some (getPositionForNewChild s)

inductive LangServer where
  | cpptools
  | clangd
  | ccls
  | unknownLs
deriving DecidableEq

/-- `CSymbol.isAnonymous` (lines 687-699), per active language server. -/
def isAnonymous (ls : LangServer) (s : CSymCore) : Bool :=
  match ls with
  | LangServer.cpptools =>
    (containsSub (toL "anonymous-namespace") s.name ∨
      containsSub (toL "__unnamed_class") s.name ∨
      containsSub (toL "__unnamed_struct") s.name ∨
      containsSub (toL "__unnamed_union") s.name)
  | LangServer.clangd =>
    (containsSub (toL "anonymous namespace") s.name ∨
      containsSub (toL "anonymous class") s.name ∨
      containsSub (toL "anonymous struct") s.name ∨
      containsSub (toL "anonymous union") s.name)
  | LangServer.ccls =>
    (containsSub (toL "anon class") s.name ∨
      containsSub (toL "anon struct") s.name ∨
      containsSub (toL "anon union") s.name)
  | LangServer.unknownLs => false

/-- One enclosing scope's contribution inside `CSymbol.scopeString`
(lines 342-365); `fm` is the target document's `findMatchingSymbol` lookup
and `position` the target position. -/
def scopeContribution (ls : LangServer) (fm : CSymCore → Option CSymCore)
    (position : Nat) (scope : CSymCore) : Str :=
  let found := fm scope
  let inCtx := match found with
               | some t => containsExclusive (rangeOf t) position
               | none => false
  if inCtx then []
  else
    let targetScope := match found with
                       | some t => t
                       | none => scope
    if isAnonymous ls targetScope then []
    else if isNamespace targetScope then targetScope.name ++ toL "::"
    else
      let nameRange := (targetScope.doc.drop (scopeStringStart targetScope)).take
        (targetScope.selEnd - scopeStringStart targetScope)
      nameRange ++ templateParameters targetScope ++ toL "::"

def scopeStringGo (ls : LangServer) (fm : CSymCore → Option CSymCore)
    (position : Nat) (namespacesOnly : Bool) : List CSymCore → Str
  | [] => []
  | sc :: rest =>
    if namespacesOnly ∧ isClassType sc then []
    else scopeContribution ls fm position sc ++ scopeStringGo ls fm position namespacesOnly rest

/-- The scope chain walked by `CSymbol.scopeString` (lines 338-340). -/
def scopeListOf (s : CSym) : List CSymCore :=
  if isClassType s.core ∨ isNamespace s.core then s.ancestorScopes ++ [s.core]
  else s.ancestorScopes

/-- `CSymbol.scopeString` (lines 336-368). -/
def scopeString (ls : LangServer) (fm : CSymCore → Option CSymCore) (position : Nat)
    (s : CSym) (namespacesOnly : Bool) : Str :=
  scopeStringGo ls fm position namespacesOnly (scopeListOf s)

/-- `CSymbol.allTemplateStatements` (lines 511-525). -/
def allTemplateStatements (s : CSym) (removeDefaultArgs forMember : Bool) : List Str :=
  ((s.ancestorScopes.filter
      (fun sc => isClassType sc ∧ isUnspecializedTemplate sc)).map
    (fun sc => templateStatements sc removeDefaultArgs)).flatten ++
  (if ¬ forMember ∨ isUnspecializedTemplate s.core then
     templateStatements s.core removeDefaultArgs
   else [])

/-- `CSymbol.combinedTemplateStatements` (lines 527-535). -/
def combinedTemplateStatements (s : CSym) (removeDefaultArgs : Bool) (sep : Str)
    (forMember : Bool) : Str :=
  let all := allTemplateStatements s removeDefaultArgs forMember
  if all.length > 0 then joinWithStr sep all ++ sep else []

/-- A single trailing-`;` strip (the replacement `/;$/` → `''`). -/
def stripSemiEnd (s : Str) : Str :=
  if s.getLast? = some ';' then s.dropLast else s

/-- Global word-list removal `/\b(w1|w2|...)\b\s*/g` → `''` (specifier
stripping in `CSymbol.formatDeclaration`). -/
def stripWordsGGo (words : List Str) (prev : Option Char) : Str → Nat → Str
  | s, 0 => s
  | [], _ => []
  | s@(c :: rest), fuel + 1 =>
    match (if nonWordOpt prev then
             words.find? (fun w => w.isPrefixOf s ∧ nonWordOpt (charAt s w.length))
           else none) with
    | some w =>
      let len := w.length + leadingSpaces (s.drop w.length)
      stripWordsGGo words (charAt s (len - 1)) (s.drop len) fuel
    | none => c :: stripWordsGGo words (some c) rest fuel

def stripWordsG (words : List Str) (s : Str) : Str :=
  stripWordsGGo words none s (s.length + 1)

/-- Single (non-global) removal `/\bw\b\s*/` → `''`. -/
def stripWordOnceGo (w : Str) (prev : Option Char) : Str → Str
  | [] => []
  | s@(c :: rest) =>
    if nonWordOpt prev ∧ w.isPrefixOf s ∧ nonWordOpt (charAt s w.length) then
      s.drop (w.length + leadingSpaces (s.drop w.length))
    else c :: stripWordOnceGo w (some c) rest

def stripWordOnce (w : Str) (s : Str) : Str :=
  stripWordOnceGo w none s

/-- Global removal `/\s*\b(override|final)\b/g` → `''` (the final replace of
`CSymbol.formatDeclaration`). -/
def stripOverrideFinalGo (prev : Option Char) : Str → Nat → Str
  | s, 0 => s
  | [], _ => []
  | s@(c :: rest), fuel + 1 =>
    let k := leadingSpaces s
    let s2 := s.drop k
    match ([toL "override", toL "final"].find?
        (fun w => w.isPrefixOf s2 ∧ nonWordOpt (charAt s2 w.length) ∧
          (k ≥ 1 ∨ nonWordOpt prev))) with
    | some w =>
      let len := k + w.length
      stripOverrideFinalGo (charAt s (len - 1)) (s.drop len) fuel
    | none => c :: stripOverrideFinalGo (some c) rest fuel

def stripOverrideFinal (s : Str) : Str :=
  stripOverrideFinalGo none s (s.length + 1)

/-- Multiline replacement of exactly `n` spaces at each line start
(`re_newLineAlignment` of `CSymbol.formatDeclaration`). -/
def replaceLineStartSpaces (n : Nat) (target : Str) (s : Str) : Str :=
  joinWithC '\n' ((linesOf s).map
    (fun l => if (l.take n).length = n ∧ (l.take n).all (fun c => c = ' ')
              then target ++ l.drop n else l))

/-- Modelled from the spec: `parse.stripDefaultValues` of the current
`parsing` module (not among the provided sources) — masks non-source text
and all nested brackets, splits the parameter list on commas found outside
brackets, and cuts each defaulted parameter at its `=`. -/
def specStripGo (orig : Str) : List Str → Nat → List Str
  | [], _ => []
  | p :: ps, charPos =>
    (match indexOfC '=' p with
     | some k => trimEndL ((orig.drop charPos).take k)
     | none => (orig.drop charPos).take p.length) :: specStripGo orig ps (charPos + p.length + 1)

def stripDefaultValuesSpec (p : Str) : Str :=
  let masked := maskAngleBrackets (maskBraces (maskParentheses (maskNonSourceText p)))
  joinWithC ',' (specStripGo p (splitOnC ',' masked) 0)

/-- `CSymbol.formatDeclaration` (lines 816-881).  The awaited inputs are
passed explicitly: `scopeStr` (the computed scope qualifier), `position`
(the target position, used with the parent's range), `targetIsHeader` /
`sameFileName` (properties of the target document) and `checkForInline`;
both documents' end-of-line is `'\n'`.  Returns `[]` on the
parenthesis-not-found failure path. -/
def formatDeclaration (s : CSym) (scopeStr : Str) (position : Nat)
    (targetIsHeader sameFileName checkForInline : Bool) : Str :=
  let core := s.core
  let doc := core.doc
  let declStartPos := declarationStart core
  let declaration := stripSemiEnd ((doc.drop declStartPos).take (declarationEnd core - declStartPos))
  let maskedDeclaration := maskParentheses (maskNonSourceText declaration)
  match indexOfC '(' maskedDeclaration, lastIndexOfC ')' maskedDeclaration with
  | some paramStartIndex, some paramEndIndex =>
    let parameters := stripDefaultValuesSpec
      ((declaration.drop (paramStartIndex + 1)).take (paramEndIndex - (paramStartIndex + 1)))
    let paramStartPos := declStartPos + paramStartIndex
    let nameToParam := (doc.drop core.selStart).take (paramStartPos - core.selStart)
    let outsideParent : Bool :=
      match s.parentCore with
      | none => true
      | some p => ! containsExclusive (rangeOf p) position
    let inlineSpecifier :=
      if outsideParent ∧ (sameFileName ∨ targetIsHeader) ∧ checkForInline ∧
          ¬ isInline core ∧ ¬ isConstexpr core ∧ ¬ isConsteval core then
        toL "inline "
      else []
    let sss := scopeStringStart core
    let leadingText0 := (doc.drop declStartPos).take (sss - declStartPos)
    let oldScopeString := (doc.drop sss).take (core.selStart - sss)
    let line := lineText doc (lineOfOffset doc core.rangeStart)
    let leadingIndent := firstNonWsIndex line
    let leadingLines := splitOnC '\n' leadingText0
    let alignLength := (trimStartL ((leadingLines.getLast?).getD [])).length
    let newLineAlignment := leadingIndent + alignLength + oldScopeString.length
    let leadingText1 := stripWordsG [toL "virtual", toL "static", toL "explicit", toL "friend"] leadingText0
    let leadingText2 :=
      if ¬ targetIsHeader ∨ ¬ checkForInline then stripWordOnce (toL "inline") leadingText1
      else leadingText1
    let leadingText3 := stripLineIndent (symbolIndent core) leadingText2
    let definition0 := nameToParam ++ '(' :: parameters ++ ')' :: declaration.drop (paramEndIndex + 1)
    let newLeadingLines := splitOnC '\n' leadingText3
    let newAlignLength := ((newLeadingLines.getLast?).getD []).length
    let inlineSpecifierAlignment := if newLeadingLines.length = 1 then inlineSpecifier.length else 0
    let definition1 :=
      if newLineAlignment ≠ 0 then
        replaceLineStartSpaces newLineAlignment
          (List.replicate (newAlignLength + inlineSpecifierAlignment + scopeStr.length) ' ')
          definition0
      else definition0
    stripOverrideFinal
      (combinedTemplateStatements s true (toL "\n") false ++
        inlineSpecifier ++ leadingText3 ++ scopeStr ++ definition1)
  | _, _ => []

/-- `CSymbol.newFunctionDefinition` (lines 806-814): formats this function
declaration for use as a definition; the scope qualifier is computed by the
Scope Resolver against the target document (`fm`) and position. -/
def newFunctionDefinition (ls : LangServer) (fm : CSymCore → Option CSymCore)
    (s : CSym) (position : Nat) (targetIsHeader sameFileName : Bool) : Str :=
  if ¬ isFunctionDeclaration s.core then []
  else formatDeclaration s (scopeString ls fm position s false) position
    targetIsHeader sameFileName true

/-- `CSymbol.newFunctionDeclaration` (lines 883-888). -/
def newFunctionDeclaration (s : CSymCore) : Str :=
  if ¬ isFunctionDefinition s then []
  else trimEndL ((s.doc.drop (trueStart s)).take (declarationEnd s - trueStart s)) ++ [';']

/-- First match index of `re_scopeResolvedIdentifier`
(`/[\w_][\w\d_]*\b(?!\s*::)/`): an identifier run not followed, after
optional spaces, by `::`. -/
def sriGo : Str → Nat → Nat → Option Nat
  | _, _, 0 => none
  | [], _, _ => none
  | c :: rest, i, fuel + 1 =>
    if isWordChar c then
      let after := rest.drop (wordRunLen rest)
      if (toL "::").isPrefixOf (after.drop (leadingSpaces after)) then
        sriGo after (i + 1 + wordRunLen rest) fuel
      else some i
    else sriGo rest (i + 1) fuel

def sriSearch (s : Str) : Option Nat :=
  sriGo s 0 (s.length + 1)

/-- Modelled from the source's `re_primitiveType` vocabulary:
`parse.matchesPrimitiveType` tests the text against the fixed list of
primitive type keywords. -/
def matchesPrimitiveType (s : Str) : Bool :=
  [toL "void", toL "bool", toL "char", toL "wchar_t", toL "char8_t",
   toL "char16_t", toL "char32_t", toL "int", toL "short", toL "long",
   toL "signed", toL "unsigned", toL "float", toL "double"].any
    (fun w => containsWord w s)

/-- Modelled from the spec: `parse.masker` — a replace callback that masks
the match with spaces of equal length; here fused into a global
word-replacement `/\b(w1|w2|...)\b/g` → spaces. -/
def maskWordsGGo (words : List Str) (prev : Option Char) : Str → Nat → Str
  | s, 0 => s
  | [], _ => []
  | s@(c :: rest), fuel + 1 =>
    match (if nonWordOpt prev then
             words.find? (fun w => w.isPrefixOf s ∧ nonWordOpt (charAt s w.length))
           else none) with
    | some w =>
      List.replicate w.length ' ' ++
        maskWordsGGo words (charAt s (w.length - 1)) (s.drop w.length) fuel
    | none => c :: maskWordsGGo words (some c) rest fuel

def maskWordsG (words : List Str) (s : Str) : Str :=
  maskWordsGGo words none s (s.length + 1)

/-- The `<...>` alternative of `/\b(struct|class|(<(>(?=>)|[^>])*>))\b/`:
after a word character, `<`, template-content repetition, `>`, then a word
character. -/
def angleWordTest (rest : Str) : Bool :=
  let g := tplGreedyLen rest
  (List.range (g + 1)).any
    (fun j => decide (charAt rest j = some '>') ∧ wordAtOpt (charAt rest (j + 1)))

/-- The test `/\b(struct|class|(<(>(?=>)|[^>])*>))\b/`. -/
def structClassTplGo (prev : Option Char) : Str → Bool
  | [] => false
  | s@(c :: rest) =>
    if nonWordOpt prev ∧
        (((toL "struct").isPrefixOf s ∧ nonWordOpt (charAt s 6)) ∨
          ((toL "class").isPrefixOf s ∧ nonWordOpt (charAt s 5))) then true
    else if wordAtOpt prev ∧ c = '<' ∧ angleWordTest rest then true
    else structClassTplGo (some c) rest

def structClassTplTest (s : Str) : Bool :=
  structClassTplGo none s

/-- `CSymbol.isTypedef` (lines 701-703). -/
def isTypedef (s : CSymCore) : Bool :=
  mightBeTypedefOrTypeAlias s ∧ containsWord (toL "typedef") (parsableText s)

/-- `CSymbol.isTypeAlias` (lines 705-708). -/
def isTypeAlias (s : CSymCore) : Bool :=
  mightBeTypedefOrTypeAlias s ∧ containsWord (toL "using") (parsableText s)
    ∧ (parsableText s).contains '='

/-- Outcome of the external definition lookup performed by
`resolveThisType` (modelled from the spec, section 6): the chain
`findDefinitions` → `getSymbol`, classified the way the source inspects it. -/
inductive ResolveOutcome where
  | noneFound
  | enumFound
  | aliasFound (target : Nat)
  | otherFound
deriving DecidableEq

/-- The world `isPrimitive` runs in: symbols indexed by identifiers, plus
the external lookup (symbol id × document offset → outcome). -/
structure AliasEnv where
  symAt : Nat → CSymCore
  resolveAt : Nat → Nat → ResolveOutcome

/-- One unfolding of `CSymbol.isPrimitive` (lines 710-779): either an
immediate boolean result, or the identifier of the typedef/alias symbol the
recursion continues on (`typeCSymbol.isPrimitive(true)`). -/
def isPrimitiveStepOn (s : CSymCore) (resolve : Nat → ResolveOutcome)
    (resolveTypes : Bool) : Sum Bool Nat :=
  let resolveThis : Nat → Sum Bool Nat := fun off =>
    match resolve off with
    | ResolveOutcome.noneFound => Sum.inl false
    | ResolveOutcome.enumFound => Sum.inl true
    | ResolveOutcome.aliasFound t => Sum.inr t
    | ResolveOutcome.otherFound => Sum.inl false
  if isVariable s then
    let leadingText := parsableLeadingText s
    if matchesPrimitiveType leadingText then Sum.inl true
    else if ¬ resolveTypes then Sum.inl false
    else
      let type := maskWordsG
        [toL "static", toL "const", toL "constexpr", toL "inline", toL "mutable"] leadingText
      match sriSearch type with
      | some index => resolveThis (s.rangeStart + index)
      | none => Sum.inl false
  else if isTypedef s then
    if matchesPrimitiveType (parsableText s) then Sum.inl true
    else if structClassTplTest (parsableText s) then Sum.inl false
    else if ¬ resolveTypes then Sum.inl false
    else
      let maskedText := maskWordsG [toL "typedef", toL "const"] (parsableText s)
      match sriSearch maskedText with
      | some index => resolveThis (s.rangeStart + index)
      | none => Sum.inl false
  else if isTypeAlias s then
    if matchesPrimitiveType (parsableText s) then Sum.inl true
    else if structClassTplTest (parsableText s) then Sum.inl false
    else if ¬ resolveTypes then Sum.inl false
    else
      match indexOfC '=' (parsableText s) with
      | none => Sum.inl false
      | some indexOfEquals =>
        let type := (parsableText s).drop (indexOfEquals + 1)
        match sriSearch type with
        | some index => resolveThis (s.rangeStart + index)
        | none => Sum.inl false
  else Sum.inl false

def isPrimitiveStep (env : AliasEnv) (resolveTypes : Bool) (id : Nat) : Sum Bool Nat :=
  isPrimitiveStepOn (env.symAt id) (env.resolveAt id) resolveTypes

/-- Big-step evaluation of `isPrimitive`: a derivation exists exactly when
the (possibly cross-document) recursion terminates with a result. -/
inductive EvalPrim (env : AliasEnv) : Bool → Nat → Bool → Prop where
  | base : ∀ rt id b, isPrimitiveStep env rt id = Sum.inl b → EvalPrim env rt id b
  | step : ∀ rt id t b, isPrimitiveStep env rt id = Sum.inr t →
      EvalPrim env true t b → EvalPrim env rt id b

/-- Fuel-bounded executable unfolding of the same recursion. -/
def evalPrimFuel (env : AliasEnv) : Nat → Bool → Nat → Option Bool
  | 0, _, _ => none
  | fuel + 1, rt, id =>
    match isPrimitiveStep env rt id with
    | Sum.inl b => some b
    | Sum.inr t => evalPrimFuel env fuel true t

/-
Concrete fixtures used by witnesses and counterexamples.
-/

/-- A snake_case configuration: identity case style, boolean getter prefix
enabled, base names stripped of an `m_` prefix. -/
def cfgEx : NamingCfg :=
  NamingCfg.mk (fun x => x) true
    (fun n => if (toL "m_").isPrefixOf n then n.drop 2 else n)

def doc1 : Str := toL "int m_count;"

/-- The member `int m_count;` (name range `m_count`). -/
def mem1 : CSymCore := CSymCore.mk doc1 0 12 4 11 SymbolKind.fieldKind (toL "m_count")

def doc1b : Str := toL "bool m_ready;"

/-- The member `bool m_ready;`. -/
def mem1b : CSymCore := CSymCore.mk doc1b 0 13 5 12 SymbolKind.fieldKind (toL "m_ready")

def doc1c : Str := toL "int count;"

/-- The member `int count;` (base-name stripping changes nothing). -/
def mem1c : CSymCore := CSymCore.mk doc1c 0 10 4 9 SymbolKind.fieldKind (toL "count")

def doc3 : Str := toL "class C \x7b int a; public: int b; private: int c; \x7d;"

def sa3 : CSymCore := CSymCore.mk doc3 10 15 14 15 SymbolKind.fieldKind (toL "a")

def sb3 : CSymCore := CSymCore.mk doc3 25 30 29 30 SymbolKind.fieldKind (toL "b")

def sc3 : CSymCore := CSymCore.mk doc3 41 46 45 46 SymbolKind.fieldKind (toL "c")

def cls3core : CSymCore := CSymCore.mk doc3 0 50 6 7 SymbolKind.classKind (toL "C")

/-- The class body `class C { int a; public: int b; private: int c; };`
with its three field children. -/
def cls3 : CSym := CSym.mk cls3core none [] [sa3, sb3, sc3]

def doc6 : Str := toL "void f(T g = \x7b\x7d);"

/-- The bodiless declaration `void f(T g = {});` — its only `}` sits inside
the parameter list. -/
def sym6 : CSymCore := CSymCore.mk doc6 0 17 5 6 SymbolKind.functionKind (toL "f")

def docW : Str := toL "void f() \x7b \x7d"

/-- The function definition `void f() { }` with a real brace-delimited body. -/
def symW : CSymCore := CSymCore.mk docW 0 12 5 6 SymbolKind.functionKind (toL "f")

def docDel : Str := toL "void f() = delete;"

/-- A deleted function declaration. -/
def symDel : CSymCore := CSymCore.mk docDel 0 18 5 6 SymbolKind.methodKind (toL "f")

/-- Whether the global word-list replacement of `CSymbol.formatDeclaration`
(`/\b(virtual|static|explicit|friend)\b\s*/g` and kin) matches anywhere in
the scan from the given boundary context: the exact match condition of
`stripWordsGGo`, folded into a Boolean. -/
def containsAnyWordFrom (words : List Str) (prev : Option Char) : Str → Bool
  | [] => false
  | s@(c :: rest) =>
    if (if nonWordOpt prev then
          words.find? (fun w => w.isPrefixOf s ∧ nonWordOpt (charAt s w.length))
        else none).isSome then true
    else containsAnyWordFrom words (some c) rest

/-- Whether the single-word replacement `/\binline\b\s*/` matches anywhere
(the match condition of `stripWordOnceGo`, folded into a Boolean). -/
def wordOnceScanFrom (w : Str) (prev : Option Char) : Str → Bool
  | [] => false
  | s@(c :: rest) =>
    if nonWordOpt prev ∧ w.isPrefixOf s ∧ nonWordOpt (charAt s w.length) then true
    else wordOnceScanFrom w (some c) rest

/-- Whether `/\s*\b(override|final)\b/g` matches anywhere (the match
condition of `stripOverrideFinalGo`, folded into a Boolean). -/
def ovfScanFrom (prev : Option Char) : Str → Bool
  | [] => false
  | s@(c :: rest) =>
    if (([toL "override", toL "final"].find?
        (fun w => w.isPrefixOf (s.drop (leadingSpaces s)) ∧
          nonWordOpt (charAt (s.drop (leadingSpaces s)) w.length) ∧
          (leadingSpaces s ≥ 1 ∨ nonWordOpt prev))).isSome) then true
    else ovfScanFrom (some c) rest

/-- The declaration document of a free function `ret name(params);`. -/
def declDoc (ret nm params : Str) : Str :=
  ret ++ ' ' :: nm ++ '(' :: params ++ [')', ';']

/-- The symbol of the free-function declaration `ret name(params);`. -/
def declCore (ret nm params : Str) : CSymCore :=
  CSymCore.mk (declDoc ret nm params) 0 (declDoc ret nm params).length
    (ret.length + 1) (ret.length + 1 + nm.length) SymbolKind.functionKind nm

def declCSym (ret nm params : Str) : CSym :=
  CSym.mk (declCore ret nm params) none [] []

/-- The document of the out-of-line definition produced from the free
declaration: the formatted definition header followed by an empty body. -/
def defnDoc (ret nm params : Str) : Str :=
  newFunctionDefinition LangServer.clangd (fun _ => none)
    (declCSym ret nm params) 0 false false ++ toL " \x7b \x7d"

/-- The symbol of that definition in its own document. -/
def defnCore (ret nm params : Str) : CSymCore :=
  CSymCore.mk (defnDoc ret nm params) 0 (defnDoc ret nm params).length
    (ret.length + 1) (ret.length + 1 + nm.length) SymbolKind.functionKind nm

def docM : Str := toL "class C \x7b void f(int x); \x7d;"

/-- The class `class C ... ;` around the method declaration `void f(int x);`. -/
def ccoreM : CSymCore := CSymCore.mk docM 0 27 6 7 SymbolKind.classKind (toL "C")

/-- The method declaration `void f(int x);` inside `class C`. -/
def mcoreM : CSymCore := CSymCore.mk docM 10 24 15 16 SymbolKind.methodKind (toL "f")

def msymM : CSym := CSym.mk mcoreM (some ccoreM) [ccoreM] []

/-- The definition text generated for the method (target: a different
non-header file with no matching scope symbol, position outside the class). -/
def defTextM : Str :=
  newFunctionDefinition LangServer.clangd (fun _ => none) msymM 100 false false

def fdocM : Str := defTextM ++ toL " \x7b \x7d"

/-- The generated out-of-line definition `void C::f(int x) \x7b \x7d` as a
symbol in its own document. -/
def fsymM : CSymCore := CSymCore.mk fdocM 0 fdocM.length 8 9 SymbolKind.functionKind (toL "f")

def docPV : Str := toL "virtual void f() = 0;"

/-- A pure-virtual function declaration. -/
def symPV : CSymCore := CSymCore.mk docPV 0 21 13 14 SymbolKind.methodKind (toL "f")

def docNs : Str := toL "namespace N \x7b \x7d"

/-- A namespace symbol (not a class or struct, not a member variable). -/
def nsCore : CSymCore := CSymCore.mk docNs 0 15 10 11 SymbolKind.namespaceKind (toL "N")

def nsSym : CSym := CSym.mk nsCore none [] []

/-- `formattedBaseName` of `CSymbol.getterName`. -/
def formattedBase (cfg : NamingCfg) (s : CSymCore) : Str :=
  cfg.caseStyle (cfg.baseNameOf s.name)

/-- The boolean-type probe of `CSymbol.getterName` (the `/\bbool\b/` test on
the paren- and angle-masked leading text). -/
def hasBoolLeading (s : CSymCore) : Bool :=
  containsWord (toL "bool") (maskParentheses (maskAngleBrackets (parsableLeadingText s)))

/-- Claim C1, counterexample: for the non-boolean member `m_count` whose
formatted base name `count` differs from the raw name, `getterName` returns
the bare `count`, not the `get_count` the claim asserts. -/
theorem claim_C1_counterexample :
    getterName cfgEx mem1 = toL "count" ∧ ¬ getterName cfgEx mem1 = toL "get_count" := by
  decide

/-- Claim C1 (amended): for a member-variable symbol, `getterName` returns
an `is_`-prefixed case-formatted name when the boolean-getter prefix is
enabled, the member's type reads as `bool` and the formatted base name does
not already read as a predicate; otherwise the bare formatted base name when
it differs from the raw name; and a `get_`-prefixed name as fallback when
stripping produced no change from the raw name. -/
theorem claim_C1 (cfg : NamingCfg) (s : CSymCore) (hm : isMemberVariable s = true) :
    ((cfg.boolGetterOn = true ∧ hasBoolLeading s = true ∧
        readsAsPredicate (formattedBase cfg s) = false) →
      getterName cfg s = cfg.caseStyle (toL "is_" ++ formattedBase cfg s)) ∧
    (¬ (cfg.boolGetterOn = true ∧ hasBoolLeading s = true ∧
        readsAsPredicate (formattedBase cfg s) = false) →
      formattedBase cfg s ≠ s.name → getterName cfg s = formattedBase cfg s) ∧
    (¬ (cfg.boolGetterOn = true ∧ hasBoolLeading s = true ∧
        readsAsPredicate (formattedBase cfg s) = false) →
      formattedBase cfg s = s.name →
      getterName cfg s = cfg.caseStyle (toL "get_" ++ formattedBase cfg s)) := by
  simp only [getterName, hasBoolLeading, formattedBase, hm]
  refine ⟨?_, ?_, ?_⟩
  · intro h
    simp [h.1, h.2.1, h.2.2]
  · intro h hne
    rw [if_neg (by simp), if_neg ?_, if_pos hne]
    intro hc
    exact h ⟨hc.1, by simpa using hc.2.1, by simpa using hc.2.2⟩
  · intro h heq
    rw [if_neg (by simp), if_neg ?_, if_neg (by simpa using heq)]
    intro hc
    exact h ⟨hc.1, by simpa using hc.2.1, by simpa using hc.2.2⟩

/-- Witness for claim C1 at concrete members: the boolean member `m_ready`
gets `is_ready`, the member `count` (no change from stripping) gets
`get_count`. -/
theorem claim_C1_witness :
    getterName cfgEx mem1b = toL "is_ready" ∧ getterName cfgEx mem1c = toL "get_count" :=
  ⟨(claim_C1 cfgEx mem1b (by decide)).1 (by decide),
   (claim_C1 cfgEx mem1c (by decide)).2.2 (by decide) (by decide)⟩

/-- Claim C4, counterexample: on the claim's own input the implementation
does not return `"int x, std::vector<int> y"` — the comma inside the braced
default `{1,2}` is treated as a parameter separator. -/
theorem claim_C4_counterexample :
    ¬ stripDefaultValues (toL "int x = 5, std::vector<int> y = \x7b1,2\x7d") =
      toL "int x, std::vector<int> y" := by
  decide

/-- Claim C4 (amended): `stripDefaultValues` yields
`"int x, std::vector<int> y ,2}"` on the claim's input, because braces are
not masked when the masked parameter list is split on commas; when no
default value contains a bracket-nested comma the claimed stripping does
happen (`int x = 5, std::vector<int> y = 7`); and the spec's
bracket-masking formulation (section 4.6) yields the claimed output. -/
theorem claim_C4 :
    stripDefaultValues (toL "int x = 5, std::vector<int> y = \x7b1,2\x7d") =
      toL "int x, std::vector<int> y ,2\x7d" ∧
    stripDefaultValues (toL "int x = 5, std::vector<int> y = 7") =
      toL "int x, std::vector<int> y" ∧
    stripDefaultValuesSpec (toL "int x = 5, std::vector<int> y = \x7b1,2\x7d") =
      toL "int x, std::vector<int> y" := by
  decide

/-- Claim C9: queries asked of a symbol kind they do not apply to return an
empty or undefined result: `getterName`/`setterName` return the empty
string for any non-member-variable symbol, and
`findPositionForNewMemberFunction` returns `undefined` for any symbol that
is not a class or struct. -/
theorem claim_C9 :
    (∀ (cfg : NamingCfg) (s : CSymCore), isMemberVariable s = false →
      getterName cfg s = [] ∧ setterName cfg s = []) ∧
    (∀ (cfg : NamingCfg) (s : CSym) (access : AccessLevel)
        (relativeName : Option Str) (memberVariable : Option CSymCore),
      isClassType s.core = false →
      findPositionForNewMemberFunction cfg s access relativeName memberVariable = none) := by
  refine ⟨fun cfg s h => ?_, fun cfg s access rn mv h => ?_⟩
  · constructor <;> simp [getterName, setterName, h]
  · simp [findPositionForNewMemberFunction, h]

/-- Witness for claim C9 at a namespace symbol. -/
theorem claim_C9_witness :
    (getterName cfgEx nsCore = [] ∧ setterName cfgEx nsCore = []) ∧
    findPositionForNewMemberFunction cfgEx nsSym AccessLevel.publicAccess none none = none :=
  ⟨claim_C9.1 cfgEx nsCore (by decide),
   claim_C9.2 cfgEx nsSym AccessLevel.publicAccess none none (by decide)⟩

/-- Claim C10: a symbol is never both a function declaration and a function
definition; both predicates are false for deleted/defaulted and for
pure-virtual functions; and a pure-virtual symbol is virtual. -/
theorem claim_C10 (s : CSymCore) :
    (isFunctionDeclaration s = true → isFunctionDefinition s = false) ∧
    (isDeletedOrDefaulted s = true ∨ isPureVirtual s = true →
      isFunctionDeclaration s = false ∧ isFunctionDefinition s = false) ∧
    (isPureVirtual s = true → isVirtual s = true) := by
  refine ⟨?_, ?_, ?_⟩
  · intro h
    simp only [isFunctionDeclaration, decide_eq_true_eq] at h
    simp [isFunctionDefinition, h.2.1]
  · intro h
    constructor <;>
      [skip; skip] <;>
      · cases h with
        | inl hd => simp [isFunctionDeclaration, isFunctionDefinition, hd]
        | inr hp => simp [isFunctionDeclaration, isFunctionDefinition, hp]
  · intro h
    simp only [isPureVirtual, decide_eq_true_eq] at h
    exact h.2

/-- Witness for claim C10 at a deleted and at a pure-virtual declaration. -/
theorem claim_C10_witness :
    (isFunctionDeclaration symDel = false ∧ isFunctionDefinition symDel = false) ∧
    isVirtual symPV = true :=
  ⟨(claim_C10 symDel).2.1 (Or.inl (by decide)),
   (claim_C10 symPV).2.2 (by decide)⟩

/-- Is the character position `p` inside one of the ranges (half-open, so
that "covers the text span" means every character offset is inside)? -/
def inRanges (rs : List Rng) (p : Nat) : Bool :=
  rs.any (fun r => decide (r.start ≤ p ∧ p < r.stop))

/-- Every character offset of `[a, b)` lies inside one of the ranges. -/
def coveredByRanges (rs : List Rng) (a b : Nat) : Bool :=
  (List.range' a (b - a)).all (fun p => inRanges rs p)

/-- No character offset of `[a, b)` lies inside any of the ranges. -/
def disjointFromRanges (rs : List Rng) (a b : Nat) : Bool :=
  (List.range' a (b - a)).all (fun p => ! inRanges rs p)

/-- The first access boundary of a class body: the start of the first access
specifier, or the body end when there is none. -/
def accessFirstBoundary (s : CSym) : Nat :=
  match (accessSpecifiers s).head? with
  | some sp => sp.start
  | none => bodyEnd s.core

theorem rangesOfAccessGo_covers_head (doc : Str) (re : Str → Bool) (be : Nat)
    (specs : List Rng) (st p : Nat) (h1 : st ≤ p)
    (h2 : p < (match specs.head? with | some sp => sp.start | none => be)) :
    inRanges (rangesOfAccessGo doc re be specs (some st)) p = true := by
  cases specs with
  | nil =>
    simp only [List.head?] at h2
    simp only [rangesOfAccessGo, inRanges, List.any_cons, List.any_nil]
    simp only [Bool.or_false, decide_eq_true_eq]
    omega
  | cons sp rest =>
    simp only [List.head?] at h2
    simp only [rangesOfAccessGo]
    by_cases hre : re (subSymName doc sp) = true
    · simp only [hre, if_true, inRanges, List.any_append, List.any_cons, List.any_nil]
      have : decide (st ≤ p ∧ p < sp.start) = true := by simp; omega
      simp [this]
    · simp only [Bool.not_eq_true] at hre
      simp only [hre, Bool.false_eq_true, if_false, inRanges, List.any_cons]
      have : decide (st ≤ p ∧ p < sp.start) = true := by simp; omega
      simp [this]

/-- Claim C3: in `class C { int a; public: int b; private: int c; };` the
private ranges cover exactly `int a;` (offsets 10-15) and `int c;`
(offsets 41-46) and the public ranges cover only `int b;` (offsets 25-30);
in general, before any explicit access specifier the default access region
starting at the body start is private for a class and public for a struct. -/
theorem claim_C3 :
    (coveredByRanges (rangesOfAccess cls3 AccessLevel.privateAccess) 10 16 = true ∧
     coveredByRanges (rangesOfAccess cls3 AccessLevel.privateAccess) 41 47 = true ∧
     disjointFromRanges (rangesOfAccess cls3 AccessLevel.privateAccess) 25 31 = true ∧
     coveredByRanges (rangesOfAccess cls3 AccessLevel.publicAccess) 25 31 = true ∧
     disjointFromRanges (rangesOfAccess cls3 AccessLevel.publicAccess) 10 16 = true ∧
     disjointFromRanges (rangesOfAccess cls3 AccessLevel.publicAccess) 41 47 = true) ∧
    (∀ (s : CSym) (p : Nat), isClass s.core = true →
      bodyStart s.core ≤ p → p < accessFirstBoundary s →
      inRanges (rangesOfAccess s AccessLevel.privateAccess) p = true) ∧
    (∀ (s : CSym) (p : Nat), isStruct s.core = true →
      bodyStart s.core ≤ p → p < accessFirstBoundary s →
      inRanges (rangesOfAccess s AccessLevel.publicAccess) p = true) := by
  refine ⟨by decide, ?_, ?_⟩
  · intro s p hc h1 h2
    unfold rangesOfAccess
    rw [if_pos ⟨rfl, hc⟩]
    exact rangesOfAccessGo_covers_head _ _ _ _ _ _ h1 (by
      unfold accessFirstBoundary at h2
      cases h : (accessSpecifiers s) with
      | nil => simpa [h] using h2
      | cons a l => simpa [h] using h2)
  · intro s p hs h1 h2
    unfold rangesOfAccess
    rw [if_neg ?_, if_pos ⟨rfl, hs⟩]
    · exact rangesOfAccessGo_covers_head _ _ _ _ _ _ h1 (by
        unfold accessFirstBoundary at h2
        cases h : (accessSpecifiers s) with
        | nil => simpa [h] using h2
        | cons a l => simpa [h] using h2)
    · rintro ⟨h, -⟩
      exact absurd h (by decide)

def docS : Str := toL "struct S \x7b int x; \x7d;"

def sxS : CSymCore := CSymCore.mk docS 11 16 15 16 SymbolKind.fieldKind (toL "x")

def structScore : CSymCore := CSymCore.mk docS 0 20 7 8 SymbolKind.structKind (toL "S")

/-- The struct body `struct S { int x; };`. -/
def structS : CSym := CSym.mk structScore none [] [sxS]

/-- Witness for claim C3's general part: a position in the head region of
the class body is private by default, and of a struct body public. -/
theorem claim_C3_witness :
    inRanges (rangesOfAccess cls3 AccessLevel.privateAccess) 10 = true ∧
    inRanges (rangesOfAccess structS AccessLevel.publicAccess) 11 = true :=
  ⟨claim_C3.2.1 cls3 10 (by decide) (by decide) (by decide),
   claim_C3.2.2 structS 11 (by decide) (by decide) (by decide)⟩

def cycDoc0 : Str := toL "typedef B A;"

def cycDoc1 : Str := toL "typedef A B;"

/-- `typedef B A;` — a typedef whose type resolves to the symbol below. -/
def cycSym0 : CSymCore := CSymCore.mk cycDoc0 0 12 10 11 SymbolKind.typedefKind (toL "A")

/-- `typedef A B;` — a typedef whose type resolves back to the one above. -/
def cycSym1 : CSymCore := CSymCore.mk cycDoc1 0 12 10 11 SymbolKind.typedefKind (toL "B")

/-- A mutually-referential pair of type aliases: resolution from either
symbol finds the other. -/
def cycEnv : AliasEnv :=
  AliasEnv.mk (fun id => if id = 0 then cycSym0 else cycSym1)
    (fun id _ => ResolveOutcome.aliasFound (if id = 0 then 1 else 0))

theorem cycEnv_step (id : Nat) :
    isPrimitiveStep cycEnv true id = Sum.inr (if id = 0 then 1 else 0) := by
  by_cases h : id = 0
  · subst h
    decide
  · have e1 : cycEnv.symAt id = cycSym1 := by simp [cycEnv, h]
    have e2 : cycEnv.resolveAt id = fun _ => ResolveOutcome.aliasFound 0 := by
      funext off
      simp [cycEnv, h]
    rw [isPrimitiveStep, e1, e2, if_neg h]
    decide

theorem cycEnv_no_eval (rt : Bool) (id : Nat) (b : Bool)
    (h : EvalPrim cycEnv rt id b) : rt = false := by
  induction h with
  | base rt id b hstep =>
    cases rt with
    | false => rfl
    | true =>
      rw [cycEnv_step] at hstep
      exact absurd hstep (by simp)
  | step rt id t b hstep hrec ih => exact absurd ih (by simp)

/-- Claim C2, counterexample: on a cyclic pair of type aliases the
alias-resolving recursion of `isPrimitive(true)` admits no finite
evaluation — it does not terminate. -/
theorem claim_C2_counterexample : ¬ ∃ b, EvalPrim cycEnv true 0 b := by
  rintro ⟨b, h⟩
  exact absurd (cycEnv_no_eval true 0 b h) (by simp)

/-- Claim C2 (amended): the recursion of `isPrimitive` terminates exactly on
inputs whose alias chain resolves within finitely many cross-document hops:
whenever the fuel-bounded unfolding reaches a result, a finite evaluation
derivation exists with that result.  (There is no cycle guard, so cyclic
alias chains — see the counterexample — admit no such derivation.) -/
theorem claim_C2 (env : AliasEnv) : ∀ (n : Nat) (rt : Bool) (id : Nat) (b : Bool),
    evalPrimFuel env n rt id = some b → EvalPrim env rt id b := by
  intro n
  induction n with
  | zero => intro rt id b h; simp [evalPrimFuel] at h
  | succ m ih =>
    intro rt id b h
    rw [evalPrimFuel] at h
    cases hstep : isPrimitiveStep env rt id with
    | inl v =>
      rw [hstep] at h
      have hv : v = b := by simpa using h
      subst hv
      exact EvalPrim.base _ _ _ hstep
    | inr t =>
      rw [hstep] at h
      exact EvalPrim.step rt id t b hstep (ih true t b h)

def acycDoc1 : Str := toL "typedef int C;"

/-- `typedef int C;` — immediately primitive. -/
def acycSym1 : CSymCore := CSymCore.mk acycDoc1 0 14 12 13 SymbolKind.typedefKind (toL "C")

/-- An acyclic chain: symbol 0 is the cyclic fixture's `typedef B A;` shape
but resolves to the primitive typedef above. -/
def acycEnv : AliasEnv :=
  AliasEnv.mk (fun id => if id = 0 then cycSym0 else acycSym1)
    (fun _ _ => ResolveOutcome.aliasFound 1)

/-- Witness for claim C2: the two-hop acyclic chain evaluates (to `true`). -/
theorem claim_C2_witness : EvalPrim acycEnv true 0 true :=
  claim_C2 acycEnv 3 true 0 true (by decide)

/-- Claim C5: walking the enclosing-scope chain, a namespace `N` contributes
no qualifier exactly when the target document has a matching scope block
whose range strictly contains the target position; it contributes `N::`
when there is no match or when the position lies outside the matched block;
anonymous scopes contribute nothing; and the walk continues over the
remaining scopes in every case. -/
theorem claim_C5 (ls : LangServer) (fm : CSymCore → Option CSymCore)
    (pos : Nat) (N t : CSymCore) :
    (fm N = some t → containsExclusive (rangeOf t) pos = true →
      scopeContribution ls fm pos N = []) ∧
    (isNamespace N = true → isAnonymous ls N = false → fm N = none →
      scopeContribution ls fm pos N = N.name ++ toL "::") ∧
    (fm N = some t → isNamespace t = true → isAnonymous ls t = false →
      containsExclusive (rangeOf t) pos = false → t.name = N.name →
      scopeContribution ls fm pos N = N.name ++ toL "::") ∧
    (fm N = none → isAnonymous ls N = true → scopeContribution ls fm pos N = []) ∧
    (∀ rest, scopeStringGo ls fm pos false (N :: rest) =
      scopeContribution ls fm pos N ++ scopeStringGo ls fm pos false rest) := by
  refine ⟨?_, ?_, ?_, ?_, ?_⟩
  · intro hfm hin
    simp [scopeContribution, hfm, hin]
  · intro hns hanon hfm
    simp [scopeContribution, hfm, hanon, hns]
  · intro hfm hns hanon hout hname
    simp [scopeContribution, hfm, hout, hanon, hns, hname]
  · intro hfm hanon
    simp [scopeContribution, hfm, hanon]
  · intro rest
    simp [scopeStringGo]

def anonNsDoc : Str := toL "namespace \x7b \x7d"

/-- An anonymous namespace as clangd reports it. -/
def anonNs : CSymCore :=
  CSymCore.mk anonNsDoc 0 13 0 0 SymbolKind.namespaceKind (toL "(anonymous namespace)")

/-- Witness for claim C5: with a matching re-opened `N` block containing the
position the qualifier is omitted; with no match it is emitted; an anonymous
namespace is omitted. -/
theorem claim_C5_witness :
    scopeContribution LangServer.clangd (fun _ => some nsCore) 5 nsCore = [] ∧
    scopeContribution LangServer.clangd (fun _ => none) 5 nsCore = toL "N::" ∧
    scopeContribution LangServer.clangd (fun _ => none) 5 anonNs = [] :=
  ⟨(claim_C5 LangServer.clangd (fun _ => some nsCore) 5 nsCore nsCore).1 rfl (by decide),
   (claim_C5 LangServer.clangd (fun _ => none) 5 nsCore nsCore).2.1 (by decide) (by decide) rfl,
   (claim_C5 LangServer.clangd (fun _ => none) 5 anonNs anonNs).2.2.2.1 rfl (by decide)⟩

theorem charAt_cons_zero (c : Char) (s : Str) : charAt (c :: s) 0 = some c := by
  simp [charAt]

theorem charAt_cons_succ (c : Char) (s : Str) (n : Nat) :
    charAt (c :: s) (n + 1) = charAt s n := by
  simp [charAt]

theorem charAt_drop (s : Str) (k i : Nat) : charAt (s.drop k) i = charAt s (k + i) := by
  simp [charAt]

theorem maskCommentsGo_length (keep : Bool) (mc : Char) :
    ∀ (s : Str) (m : CMode), (maskCommentsGo keep mc s m).length = s.length := by
  intro s m
  induction s, m using maskCommentsGo.induct keep mc <;> simp_all [maskCommentsGo]

theorem maskStringsGo_length (mc : Char) :
    ∀ (s : Str) (m : SMode), (maskStringsGo mc s m).length = s.length := by
  have h1 : quoteChar ≠ bslashChar := by decide
  have h2 : squoteChar ≠ bslashChar := by decide
  intro s m
  induction s, m using maskStringsGo.induct mc <;> simp_all [maskStringsGo, h1, h2] <;>
    (try split) <;> simp_all <;> (try split) <;> simp_all <;> (try split) <;> simp_all

theorem maskAttributesGo_length :
    ∀ (s : Str) (b : Bool), (maskAttributesGo s b).length = s.length := by
  intro s b
  induction s, b using maskAttributesGo.induct <;> simp_all [maskAttributesGo]

theorem maskCommentsGo_charAt (keep : Bool) (mc : Char) :
    ∀ (s : Str) (m : CMode) (i : Nat),
      charAt (maskCommentsGo keep mc s m) i = charAt s i ∨
      charAt (maskCommentsGo keep mc s m) i = some mc := by
  intro s m
  induction s, m using maskCommentsGo.induct keep mc <;>
  · intro i
    match i with
    | 0 =>
      try (cases keep <;> simp_all [maskCommentsGo, charAt_cons_zero, charAt])
      try (rename_i ih; first | simpa using ih 0)
    | 1 =>
      try (cases keep <;> simp_all [maskCommentsGo, charAt_cons_succ, charAt_cons_zero, charAt])
      try (rename_i ih; first | simpa using ih 1 | simpa using ih 0)
    | n + 2 =>
      try (cases keep <;> simp_all [maskCommentsGo, charAt_cons_succ, charAt])
      try (rename_i ih; first
        | simpa using ih (n + 2) | simpa using ih (n + 1) | simpa using ih n)

theorem maskStringsGo_charAt (mc : Char) :
    ∀ (s : Str) (m : SMode) (i : Nat),
      charAt (maskStringsGo mc s m) i = charAt s i ∨
      charAt (maskStringsGo mc s m) i = some mc := by
  have h1 : quoteChar ≠ bslashChar := by decide
  have h2 : squoteChar ≠ bslashChar := by decide
  have h3 : quoteChar ≠ '\n' := by decide
  have h4 : squoteChar ≠ '\n' := by decide
  intro s m
  induction s, m using maskStringsGo.induct mc <;>
  · intro i
    match i with
    | 0 =>
      try simp_all [maskStringsGo, charAt_cons_zero, charAt]
      try (rename_i ih; first | simpa using ih 0)
    | 1 =>
      try simp_all [maskStringsGo, charAt_cons_succ, charAt_cons_zero, charAt]
      try (rename_i ih; first | simpa using ih 1 | simpa using ih 0)
    | n + 2 =>
      try simp_all [maskStringsGo, charAt_cons_succ, charAt]
      try (rename_i ih; first
        | simpa using ih (n + 2) | simpa using ih (n + 1) | simpa using ih n)

theorem maskAttributesGo_charAt :
    ∀ (s : Str) (b : Bool) (i : Nat),
      charAt (maskAttributesGo s b) i = charAt s i ∨
      charAt (maskAttributesGo s b) i = some ' ' := by
  intro s b
  induction s, b using maskAttributesGo.induct <;>
  · intro i
    match i with
    | 0 =>
      try simp_all [maskAttributesGo, charAt_cons_zero, charAt]
      try (rename_i ih; first | simpa using ih 0)
    | 1 =>
      try simp_all [maskAttributesGo, charAt_cons_succ, charAt_cons_zero, charAt]
      try (rename_i ih; first | simpa using ih 1 | simpa using ih 0)
    | n + 2 =>
      try simp_all [maskAttributesGo, charAt_cons_succ, charAt]
      try (rename_i ih; first
        | simpa using ih (n + 2) | simpa using ih (n + 1) | simpa using ih n)

theorem tplGreedyLen_le : ∀ s : Str, tplGreedyLen s ≤ s.length := by
  intro s
  induction s using tplGreedyLen.induct <;> simp_all [tplGreedyLen] <;> omega

theorem lastIndexOfC_lt (c : Char) :
    ∀ (s : Str) (i : Nat), lastIndexOfC c s = some i → i < s.length := by
  intro s
  induction s with
  | nil => intro i h; simp [lastIndexOfC] at h
  | cons a as ih =>
    intro i h
    rw [lastIndexOfC] at h
    cases hr : lastIndexOfC c as with
    | some j =>
      rw [hr] at h
      cases h
      have := ih j hr
      simp
      omega
    | none =>
      rw [hr] at h
      by_cases ha : a = c
      · rw [if_pos ha] at h
        have h0 : i = 0 := by
          have := Option.some.inj h
          omega
        subst h0
        simp
      · simp [ha] at h

theorem tplMatchLen_le (s : Str) (k : Nat) (h : tplMatchLen s = some k) : k ≤ s.length := by
  rw [tplMatchLen] at h
  cases hc : charAt s (tplGreedyLen s) with
  | some c =>
    rw [hc] at h
    cases h
    exact tplGreedyLen_le s
  | none =>
    rw [hc] at h
    have := lastIndexOfC_lt '>' (s.take (tplGreedyLen s)) k h
    simp at this
    omega

theorem maskTplGo_length (mc : Char) :
    ∀ (prev : Option Char) (s : Str) (fuel : Nat),
      (maskTplGo mc prev s fuel).length = s.length := by
  intro prev s fuel
  induction prev, s, fuel using maskTplGo.induct mc with
  | case1 prev s => rw [maskTplGo]
  | case2 t prev ht =>
    cases t with
    | zero => exact absurd rfl ht
    | succ u => simp [maskTplGo]
  | case3 c cs fuel n hmatch ih =>
    rw [maskTplGo, if_pos rfl, hmatch]
    have hle := tplMatchLen_le _ _ hmatch
    simp only [List.length_cons] at hle
    have h2 : (List.drop (n + 1) (c :: cs)).length = cs.length - n := by
      simp [List.length_drop]
    rw [List.length_append, List.length_replicate, ih, h2]
    simp only [List.length_cons]
    omega
  | case4 c cs fuel hnm ih =>
    rw [maskTplGo, if_pos rfl]
    cases hm : tplMatchLen (c :: cs) with
    | some n =>
      cases n with
      | zero => simp only [List.length_cons, ih]
      | succ m => exact absurd hm (hnm m)
    | none => simp only [List.length_cons, ih]
  | case5 prev c cs fuel hprev ih =>
    rw [maskTplGo, if_neg hprev]
    simpa using ih

theorem charAt_append_replicate (n : Nat) (mc : Char) (b : Str) (i : Nat) :
    charAt (List.replicate n mc ++ b) i =
      if i < n then some mc else charAt b (i - n) := by
  by_cases h : i < n
  · rw [if_pos h]
    simp [charAt, List.getElem?_append, h]
  · rw [if_neg h]
    simp only [charAt]
    rw [List.getElem?_append_right (by simp; omega)]
    simp

theorem maskTplGo_nil (mc : Char) (prev : Option Char) (fuel : Nat) :
    maskTplGo mc prev [] fuel = [] := by
  cases fuel <;> rfl

theorem maskTplGo_charAt (mc : Char) :
    ∀ (prev : Option Char) (s : Str) (fuel : Nat) (i : Nat),
      charAt (maskTplGo mc prev s fuel) i = charAt s i ∨
      charAt (maskTplGo mc prev s fuel) i = some mc := by
  intro prev s fuel
  induction prev, s, fuel using maskTplGo.induct mc with
  | case1 prev s => intro i; rw [maskTplGo]; left; rfl
  | case2 t prev ht =>
    cases t with
    | zero => exact absurd rfl ht
    | succ u => intro i; left; rw [maskTplGo_nil]
  | case3 c cs fuel n hmatch ih =>
    intro i
    rw [maskTplGo, if_pos rfl, hmatch, charAt_append_replicate]
    by_cases hi : i < n + 1
    · rw [if_pos hi]; right; rfl
    · rw [if_neg hi]
      rcases ih (i - (n + 1)) with h | h
      · left
        rw [h, charAt_drop]
        congr 1
        omega
      · right
        exact h
  | case4 c cs fuel hnm ih =>
    intro i
    have hunf : maskTplGo mc (some '<') (c :: cs) (fuel + 1) =
        c :: maskTplGo mc (some c) cs fuel := by
      rw [maskTplGo, if_pos rfl]
      cases hm : tplMatchLen (c :: cs) with
      | some n =>
        cases n with
        | zero => rfl
        | succ m => exact absurd hm (hnm m)
      | none => rfl
    rw [hunf]
    match i with
    | 0 => left; simp [charAt_cons_zero]
    | k + 1 =>
      rw [charAt_cons_succ, charAt_cons_succ]
      exact ih k
  | case5 prev c cs fuel hprev ih =>
    intro i
    rw [maskTplGo, if_neg hprev]
    match i with
    | 0 => left; simp [charAt_cons_zero]
    | k + 1 =>
      rw [charAt_cons_succ, charAt_cons_succ]
      exact ih k

/-- Claim C8, counterexample: masking is not line-preserving — a template
parameter region spanning a newline (`<a\nb>`) has its newline replaced by
the filler, reducing the line count. -/
theorem claim_C8_counterexample :
    lineCountOf (maskUnimportantText ' ' (toL "<a\nb>")) = 1 ∧
    lineCountOf (toL "<a\nb>") = 2 ∧
    ¬ lineCountOf (maskUnimportantText ' ' (toL "<a\nb>")) = lineCountOf (toL "<a\nb>") := by
  decide

/-- Claim C8 (amended): for every input text and mask character,
`maskUnimportantText` returns text of exactly the input's length, and every
output character is either byte-identical to the input character at the
same offset or equal to the filler character.  (Line structure is not
preserved in general — see the counterexample — because newlines inside
masked template-parameter regions are replaced by the filler.) -/
theorem claim_C8 (mc : Char) (t : Str) :
    (maskUnimportantText mc t).length = t.length ∧
    (∀ i, charAt (maskUnimportantText mc t) i = charAt t i ∨
      charAt (maskUnimportantText mc t) i = some mc) := by
  constructor
  · rw [maskUnimportantText, maskTemplateContents, maskTplGo_length,
      maskStringLiteralsU, maskStringsGo_length, maskCommentsU, maskCommentsGo_length]
  · intro i
    rw [maskUnimportantText, maskTemplateContents]
    rcases maskTplGo_charAt mc none (maskStringLiteralsU mc (maskCommentsU mc t)) _ i with h1 | h1
    · rw [h1, maskStringLiteralsU]
      rcases maskStringsGo_charAt mc (maskCommentsU mc t) SMode.normal i with h2 | h2
      · rw [h2, maskCommentsU]
        rcases maskCommentsGo_charAt false mc t CMode.normal i with h3 | h3
        · left; exact h3
        · right; exact h3
      · right; exact h2
    · right; exact h1

theorem leadingSpaces_le : ∀ s : Str, leadingSpaces s ≤ s.length := by
  intro s
  induction s with
  | nil => simp [leadingSpaces]
  | cons c cs ih =>
    rw [leadingSpaces]
    by_cases h : isSpaceJs c = true <;> simp [h] <;> omega

theorem maskDelimGo_length (keep : Bool) ( openC closeC : Char) :
    ∀ (s : Str) (d : Nat), (maskDelimGo keep openC closeC s d).length = s.length := by
  intro s d
  induction s, d using maskDelimGo.induct keep openC closeC <;> simp_all [maskDelimGo]

theorem maskDelimGo_charAt (keep : Bool) ( openC closeC : Char) :
    ∀ (s : Str) (d : Nat) (i : Nat),
      charAt (maskDelimGo keep openC closeC s d) i = charAt s i ∨
      charAt (maskDelimGo keep openC closeC s d) i = some ' ' := by
  intro s d
  induction s, d using maskDelimGo.induct keep openC closeC with
  | case1 d => intro i; left; rfl
  | case2 cs d ih =>
    intro i
    match i with
    | 0 =>
      rw [maskDelimGo, if_pos rfl, charAt_cons_zero, charAt_cons_zero]
      split_ifs <;> simp
    | n + 1 =>
      rw [maskDelimGo, if_pos rfl, charAt_cons_succ, charAt_cons_succ]
      exact ih n
  | case3 cs d hco ih =>
    intro i
    match i with
    | 0 =>
      rw [maskDelimGo, if_neg hco, if_pos rfl, charAt_cons_zero, charAt_cons_zero]
      split_ifs <;> simp
    | n + 1 =>
      rw [maskDelimGo, if_neg hco, if_pos rfl, charAt_cons_succ, charAt_cons_succ]
      exact ih n
  | case4 c cs d ho hc ih =>
    intro i
    match i with
    | 0 =>
      rw [maskDelimGo, if_neg ho, if_neg hc, charAt_cons_zero, charAt_cons_zero]
      split_ifs <;> simp
    | n + 1 =>
      rw [maskDelimGo, if_neg ho, if_neg hc, charAt_cons_succ, charAt_cons_succ]
      exact ih n

theorem maskNonSourceText_length (s : Str) : (maskNonSourceText s).length = s.length := by
  rw [maskNonSourceText, maskAttributes, maskAttributesGo_length, maskStringLiteralsU,
    maskStringsGo_length, maskCommentsFull, maskCommentsGo_length]

theorem trimEndL_length_le (s : Str) : (trimEndL s).length ≤ s.length := by
  rw [trimEndL]
  have : (s.reverse.dropWhile isSpaceJs).length ≤ s.reverse.length :=
    List.Sublist.length_le (List.dropWhile_sublist isSpaceJs)
  simp at this ⊢
  omega

/-- Well-formedness of a symbol's spans: name range inside the full range,
full range inside the document. -/
def WfSym (s : CSymCore) : Prop :=
  s.rangeStart ≤ s.selStart ∧ s.selStart ≤ s.selEnd ∧ s.selEnd ≤ s.rangeEnd ∧
    s.rangeEnd ≤ s.doc.length

theorem textOf_length (s : CSymCore) (h : WfSym s) :
    (textOf s).length = s.rangeEnd - s.rangeStart := by
  obtain ⟨h1, h2, h3, h4⟩ := h
  rw [textOf]
  simp [List.length_take, List.length_drop]
  omega

theorem parsableText_length (s : CSymCore) (h : WfSym s) :
    (parsableText s).length = s.rangeEnd - s.rangeStart := by
  rw [parsableText, maskNonSourceText_length, textOf_length s h]

theorem parsableLeadingText_length (s : CSymCore) (h : WfSym s) :
    (parsableLeadingText s).length = s.selStart - s.rangeStart := by
  obtain ⟨h1, h2, h3, h4⟩ := h
  rw [parsableLeadingText]
  simp [List.length_take, parsableText_length s ⟨h1, h2, h3, h4⟩]
  omega

theorem nsSearchGo_lt :
    ∀ (s : Str) (prev : Option Char) (i j : Nat),
      nsSearchGo prev s i = some j → j < i + s.length := by
  intro s
  induction s with
  | nil => intro prev i j h; simp [nsSearchGo] at h
  | cons c rest ih =>
    intro prev i j h
    rw [nsSearchGo] at h
    split at h
    · cases h
      simp
    · have := ih (some c) (i + 1) j h
      simp
      omega

theorem tplSearchGo_lt :
    ∀ (s : Str) (prev : Option Char) (i j : Nat),
      tplSearchGo prev s i = some j → j < i + s.length := by
  intro s
  induction s with
  | nil => intro prev i j h; simp [tplSearchGo] at h
  | cons c rest ih =>
    intro prev i j h
    rw [tplSearchGo] at h
    split at h
    · cases h
      simp
    · have := ih (some c) (i + 1) j h
      simp
      omega

theorem isPrefixOf_length_le {w s : Str} (h : w.isPrefixOf s = true) :
    w.length ≤ s.length := by
  have := List.isPrefixOf_iff_prefix.mp h
  exact this.length_le


theorem templateClauseLen_le :
    ∀ (fuel : Nat) (cs : Str), templateClauseLen cs fuel ≤ cs.length := by
  intro fuel
  induction fuel with
  | zero => intro cs; simp [templateClauseLen]
  | succ f ih =>
    intro cs
    rw [templateClauseLen]
    by_cases hpre : (toL "template").isPrefixOf cs = true
    · have h8 : (8 : Nat) ≤ cs.length := by simpa using isPrefixOf_length_le hpre
      have hk := leadingSpaces_le (cs.drop 8)
      rw [if_pos hpre]
      dsimp only
      split
      · rename_i r2 hb
        have hbl : (cs.drop 8).length - leadingSpaces (cs.drop 8) = r2.length + 1 := by
          rw [← List.length_drop, hb]
          simp
        have hm := leadingSpaces_le r2
        split
        · rename_i r3 ht
          have htl : r2.length - leadingSpaces r2 = r3.length + 1 := by
            rw [← List.length_drop, ht]
            simp
          have hk3 := leadingSpaces_le r3
          have ihb := ih (r3.drop (leadingSpaces r3))
          simp only [List.length_drop] at *
          omega
        · simp only [List.length_drop] at *
          omega
      · rename_i hb
        have ihb := ih ((cs.drop 8).drop (leadingSpaces (cs.drop 8)))
        simp only [List.length_drop] at *
        omega
    · rw [if_neg hpre]
      omega

theorem lastIndexOfC_charAt (c : Char) :
    ∀ (s : Str) (j : Nat), lastIndexOfC c s = some j → charAt s j = some c := by
  intro s
  induction s with
  | nil => intro j h; simp [lastIndexOfC] at h
  | cons a as ih =>
    intro j h
    rw [lastIndexOfC] at h
    cases hr : lastIndexOfC c as with
    | some i =>
      rw [hr] at h
      have hj : i + 1 = j := by simpa using h
      subst hj
      rw [charAt_cons_succ]
      exact ih i hr
    | none =>
      rw [hr] at h
      by_cases ha : a = c
      · rw [if_pos ha] at h
        have hj : (0 : Nat) = j := by simpa using h
        subst hj
        rw [charAt_cons_zero, ha]
      · simp [ha] at h

theorem lastIndexOfC_ge (c : Char) :
    ∀ (s : Str) (p : Nat), charAt s p = some c →
      ∃ j, lastIndexOfC c s = some j ∧ p ≤ j := by
  intro s
  induction s with
  | nil => intro p h; simp [charAt] at h
  | cons a as ih =>
    intro p h
    match p with
    | 0 =>
      rw [charAt_cons_zero] at h
      have ha : a = c := by simpa using h
      rw [lastIndexOfC]
      cases hr : lastIndexOfC c as with
      | some i => exact ⟨i + 1, rfl, by omega⟩
      | none => exact ⟨0, by simp [ha], le_refl 0⟩
    | q + 1 =>
      rw [charAt_cons_succ] at h
      obtain ⟨j, hj, hq⟩ := ih q h
      refine ⟨j + 1, ?_, by omega⟩
      rw [lastIndexOfC, hj]

theorem charAt_getLast (s : Str) (c : Char) (h : s.getLast? = some c) :
    charAt s (s.length - 1) = some c := by
  rw [charAt, ← List.getLast?_eq_getElem?]
  exact h

theorem charAt_drop_cons (s : Str) (q : Nat) (c : Char) (h : charAt s q = some c) :
    s.drop q = c :: s.drop (q + 1) := by
  have hq : q < s.length := by
    by_contra hc
    simp [charAt, List.getElem?_eq_none (by omega : s.length ≤ q)] at h
  rw [List.drop_eq_getElem_cons hq]
  have : s[q] = c := by
    have := h
    simp [charAt] at this
    simpa [List.getElem?_eq_getElem hq] using this
  rw [this]

theorem bodyStartSearchGo_finds :
    ∀ (s : Str) (i q : Nat), bodyStartHere (s.drop q) = true → q < s.length →
      ∃ idx, bodyStartSearchGo s i = some idx ∧ idx ≤ i + q := by
  intro s
  induction s with
  | nil => intro i q h hq; simp at hq
  | cons c rest ih =>
    intro i q h hq
    rw [bodyStartSearchGo]
    by_cases hh : bodyStartHere (c :: rest) = true
    · rw [if_pos hh]
      exact ⟨i, rfl, by omega⟩
    · rw [if_neg hh]
      match q with
      | 0 => exact absurd (by simpa using h) hh
      | q' + 1 =>
        obtain ⟨idx, hfind, hle⟩ := ih (i + 1) q' (by simpa using h) (by simpa using hq)
        exact ⟨idx, hfind, by omega⟩

theorem initListSearchGo_lt :
    ∀ (s : Str) (i r : Nat), initListSearchGo s i = some r → r < i + s.length := by
  intro s
  induction s with
  | nil => intro i r h; simp [initListSearchGo] at h
  | cons c rest ih =>
    intro i r h
    rw [initListSearchGo] at h
    split at h
    · cases h
      simp
    · have := ih (i + 1) r h
      simp
      omega

theorem trueStart_le (s : CSymCore) (h : WfSym s) : trueStart s ≤ s.rangeStart := by
  obtain ⟨h1, h2, h3, h4⟩ := h
  have hbl : (s.doc.take s.rangeStart).length = s.rangeStart := by
    simp [List.length_take]
    omega
  rw [trueStart]
  dsimp only
  by_cases hns : isNamespace s = true
  · rw [if_pos hns]
    cases hsr : nsSearch (maskCommentsFull (s.doc.take s.rangeStart)) with
    | some i =>
      have hlt := nsSearchGo_lt _ none 0 i hsr
      rw [maskCommentsFull, maskCommentsGo_length, hbl] at hlt
      exact le_of_lt (by omega : i < s.rangeStart)
    | none => exact le_refl _
  · rw [if_neg hns]
    split
    · cases hsr : tplSearch (trimEndL (maskAngleBrackets
          (maskCommentsFull (s.doc.take s.rangeStart)))) with
      | some i =>
        have hlt := tplSearchGo_lt _ none 0 i hsr
        have hle := trimEndL_length_le (maskAngleBrackets
          (maskCommentsFull (s.doc.take s.rangeStart)))
        have hlen : (maskAngleBrackets
            (maskCommentsFull (s.doc.take s.rangeStart))).length = s.rangeStart := by
          rw [maskAngleBrackets, maskDelimGo_length, maskCommentsFull,
            maskCommentsGo_length, hbl]
        rw [hlen] at hle
        exact le_of_lt (by omega : i < s.rangeStart)
      | none => exact le_refl _
    · exact le_refl _

theorem declarationStart_bounds (s : CSymCore) (h : WfSym s) :
    s.rangeStart ≤ declarationStart s ∧ declarationStart s ≤ s.selStart := by
  have h1 := h.1
  rw [declarationStart]
  by_cases hp : (toL "template").isPrefixOf (parsableLeadingText s) = true
  · rw [if_neg (by simpa using hp)]
    dsimp only
    have hb := templateClauseLen_le
      ((maskAngleBrackets (parsableLeadingText s)).length + 1)
      (maskAngleBrackets (parsableLeadingText s))
    constructor
    · omega
    · have hlen : (maskAngleBrackets (parsableLeadingText s)).length =
          s.selStart - s.rangeStart := by
        rw [maskAngleBrackets, maskDelimGo_length, parsableLeadingText_length s h]
      omega
  · rw [if_pos (by simpa using hp)]
    exact ⟨le_refl _, h1⟩

theorem trueEnd_ge (s : CSymCore) : s.rangeEnd ≤ trueEnd s := by
  rw [trueEnd]
  split
  · exact le_refl _
  · split
    · split
      · omega
      · exact le_refl _
    · exact le_refl _

theorem bodyEnd_le (s : CSymCore) (h : WfSym s) : bodyEnd s ≤ s.rangeEnd := by
  cases hl : lastIndexOfC '\x7d' (parsableText s) with
  | some i =>
    have hi := lastIndexOfC_lt '\x7d' (parsableText s) i hl
    rw [parsableText_length s h] at hi
    have h1 := h.1
    have h2 := h.2.1
    have h3 := h.2.2.1
    simp only [bodyEnd, hl]
    omega
  | none =>
    simp only [bodyEnd, hl]
    exact le_refl _

theorem charAt_some_lt (s : Str) (i : Nat) (c : Char) (h : charAt s i = some c) :
    i < s.length := by
  by_contra hc
  simp [charAt, List.getElem?_eq_none (by omega : s.length ≤ i)] at h

/-- C6: the claimed ordering of all six refined boundaries does not hold for
every symbol — `bodyStart`/`bodyEnd` fall back to opposite range ends when no
body exists (counterexample `sym6`).  Amended: for every well-formed symbol,
`trueStart ≤ declarationStart ≤ selStart` and `bodyEnd ≤ trueEnd` hold
unconditionally, and whenever a body brace `\x7b` occurs (in the
paren-then-brace-masked parsable text) at or after the name end, with the
parsable text ending in `\x7d`, the remaining chain
`declarationEnd ≤ bodyStart ≤ bodyEnd` holds as well. -/
theorem claim_C6 (s : CSymCore) (hwf : WfSym s) :
    (trueStart s ≤ declarationStart s ∧ declarationStart s ≤ s.selStart ∧
     bodyEnd s ≤ trueEnd s) ∧
    (∀ p, s.selEnd - s.rangeStart ≤ p →
      charAt (maskBraces (maskParentheses (parsableText s))) p = some '\x7b' →
      (parsableText s).getLast? = some '\x7d' →
      declarationEnd s ≤ bodyStart s ∧ bodyStart s ≤ bodyEnd s) := by
  constructor
  · exact ⟨le_trans (trueStart_le s hwf) (declarationStart_bounds s hwf).1,
      (declarationStart_bounds s hwf).2,
      le_trans (bodyEnd_le s hwf) (trueEnd_ge s)⟩
  · intro p hp1 hp2 hlast
    have hdmlen : (maskBraces (maskParentheses (parsableText s))).length =
        (parsableText s).length := by
      rw [maskBraces, maskDelimGo_length, maskParentheses, maskDelimGo_length]
    have hmplen : (maskParentheses (parsableText s)).length =
        (parsableText s).length := by
      rw [maskParentheses, maskDelimGo_length]
    have hplt : p < (parsableText s).length := by
      have := charAt_some_lt _ p _ hp2
      omega
    have hmp : charAt (maskParentheses (parsableText s)) p = some '\x7b' := by
      rw [maskBraces] at hp2
      rcases maskDelimGo_charAt true '\x7b' '\x7d'
          (maskParentheses (parsableText s)) 0 p with hca | hca
      · rw [hca] at hp2
        exact hp2
      · rw [hp2] at hca
        exact absurd hca (by decide)
    have hq : charAt ((maskParentheses (parsableText s)).drop (s.selEnd - s.rangeStart))
        (p - (s.selEnd - s.rangeStart)) = some '\x7b' := by
      rw [charAt_drop]
      have he : (s.selEnd - s.rangeStart) + (p - (s.selEnd - s.rangeStart)) = p := by
        omega
      rw [he]
      exact hmp
    have hcons := charAt_drop_cons _ _ _ hq
    have hnb : isSpaceJs '\x7b' = false := by decide
    have hhere : bodyStartHere
        (((maskParentheses (parsableText s)).drop (s.selEnd - s.rangeStart)).drop
          (p - (s.selEnd - s.rangeStart))) = true := by
      rw [hcons, bodyStartHere]
      simp [leadingSpaces, hnb]
    have hqlt : p - (s.selEnd - s.rangeStart) <
        ((maskParentheses (parsableText s)).drop (s.selEnd - s.rangeStart)).length := by
      simp [List.length_drop, hmplen]
      omega
    obtain ⟨idx, hfind, hidx⟩ := bodyStartSearchGo_finds
      ((maskParentheses (parsableText s)).drop (s.selEnd - s.rangeStart)) 0
      (p - (s.selEnd - s.rangeStart)) hhere hqlt
    have hde : declarationEnd s ≤ s.rangeStart + (s.selEnd - s.rangeStart) + idx := by
      simp only [declarationEnd, bodyStartSearch, hfind]
      split
      · exact le_refl _
      · split
        · exact le_refl _
        · rename_i r hr
          rw [initListSearch] at hr
          have hlt := initListSearchGo_lt _ 0 r hr
          have hlen : (((maskParentheses (parsableText s)).drop
              (s.selEnd - s.rangeStart)).take idx).length ≤ idx := by
            simp
          omega
    obtain ⟨j, hj, hpj⟩ := lastIndexOfC_ge '\x7b'
      (maskBraces (maskParentheses (parsableText s))) p hp2
    have hbs : bodyStart s = s.rangeStart + j + 1 := by
      simp only [bodyStart, hj]
    have hPne : charAt (parsableText s) ((parsableText s).length - 1) = some '\x7d' :=
      charAt_getLast _ _ hlast
    obtain ⟨m, hm, hmge⟩ := lastIndexOfC_ge '\x7d' (parsableText s) _ hPne
    have hmlt := lastIndexOfC_lt '\x7d' (parsableText s) m hm
    have hbe : bodyEnd s = s.rangeStart + m := by
      simp only [bodyEnd, hm]
    have hjlt := lastIndexOfC_lt '\x7b' _ j hj
    have hjc := lastIndexOfC_charAt '\x7b' _ j hj
    have hjne : j ≠ (parsableText s).length - 1 := by
      intro heq
      have hdmj : charAt (maskDelimGo true '\x7b' '\x7d'
          (maskParentheses (parsableText s)) 0)
          ((parsableText s).length - 1) = some '\x7b' := by
        rw [← heq]
        rw [maskBraces] at hjc
        exact hjc
      have hmpL : charAt (maskParentheses (parsableText s))
          ((parsableText s).length - 1) = some '\x7b' := by
        rcases maskDelimGo_charAt true '\x7b' '\x7d'
            (maskParentheses (parsableText s)) 0
            ((parsableText s).length - 1) with h1 | h1
        · rw [← h1]
          exact hdmj
        · rw [hdmj] at h1
          exact absurd h1 (by decide)
      have hPL : charAt (parsableText s) ((parsableText s).length - 1) =
          some '\x7b' := by
        rw [maskParentheses] at hmpL
        rcases maskDelimGo_charAt true '(' ')' (parsableText s) 0
            ((parsableText s).length - 1) with h2 | h2
        · rw [← h2]
          exact hmpL
        · rw [hmpL] at h2
          exact absurd h2 (by decide)
      rw [hPne] at hPL
      exact absurd hPL (by decide)
    rw [hdmlen] at hjlt
    constructor
    · rw [hbs]
      omega
    · rw [hbs, hbe]
      omega

/-- C6 counterexample: the bodiless declaration `void f(T g = \x7b\x7d);` is
well-formed, yet its `bodyStart` (the fallback `rangeEnd`, 17) exceeds its
`bodyEnd` (the `\x7d` of the default argument, 14), violating the claimed
unconditional chain `declarationEnd ≤ bodyStart ≤ bodyEnd`. -/
theorem claim_C6_counterexample :
    WfSym sym6 ∧ ¬ (declarationEnd sym6 ≤ bodyStart sym6 ∧
      bodyStart sym6 ≤ bodyEnd sym6) := by
  constructor
  · exact ⟨by decide, by decide, by decide, by decide⟩
  · decide

/-- C6 witness: the function definition `void f() \x7b \x7d` satisfies every
hypothesis of the amended theorem at brace position 9, so all five orderings
hold for it. -/
theorem claim_C6_witness :
    trueStart symW ≤ declarationStart symW ∧ declarationStart symW ≤ symW.selStart ∧
    bodyEnd symW ≤ trueEnd symW ∧ declarationEnd symW ≤ bodyStart symW ∧
    bodyStart symW ≤ bodyEnd symW := by
  have h := claim_C6 symW ⟨by decide, by decide, by decide, by decide⟩
  have hb := h.2 9 (by decide) (by decide) (by decide)
  exact ⟨h.1.1, h.1.2.1, h.1.2.2, hb.1, hb.2⟩

theorem ne_of_word {c x : Char} (h : isWordChar c = true) (hx : isWordChar x = false) :
    c ≠ x := by
  intro he
  rw [he, hx] at h
  cases h

theorem word_not_space {c : Char} (h : isWordChar c = true) : isSpaceJs c = false := by
  by_contra hc
  have hs : isSpaceJs c = true := by
    cases he : isSpaceJs c
    · exact absurd he hc
    · rfl
  rw [isSpaceJs] at hs
  have := of_decide_eq_true hs
  rcases this with h1 | h1 | h1 | h1 <;> (subst h1; cases h)

theorem indexOfC_eq_none (c : Char) :
    ∀ (s : Str), (∀ x ∈ s, x ≠ c) → indexOfC c s = none := by
  intro s
  induction s with
  | nil => intro h; rfl
  | cons a as ih =>
    intro h
    rw [indexOfC, if_neg (h a (List.mem_cons_self a as)), ih (fun x hx => h x (List.mem_cons_of_mem a hx))]

theorem indexOfC_append_head (c : Char) :
    ∀ (a b : Str), (∀ x ∈ a, x ≠ c) → indexOfC c (a ++ c :: b) = some a.length := by
  intro a
  induction a with
  | nil => intro b h; simp [indexOfC]
  | cons x xs ih =>
    intro b h
    rw [List.cons_append, indexOfC, if_neg (h x (List.mem_cons_self x xs)),
      ih b (fun y hy => h y (List.mem_cons_of_mem x hy))]
    simp

theorem lastIndexOfC_concat (c : Char) :
    ∀ (ys : Str), lastIndexOfC c (ys ++ [c]) = some ys.length := by
  intro ys
  induction ys with
  | nil => simp [lastIndexOfC]
  | cons a as ih => rw [List.cons_append, lastIndexOfC, ih]; simp

theorem lastIndexOfC_eq_none (c : Char) :
    ∀ (s : Str), (∀ x ∈ s, x ≠ c) → lastIndexOfC c s = none := by
  intro s
  induction s with
  | nil => intro h; rfl
  | cons a as ih =>
    intro h
    rw [lastIndexOfC, ih (fun x hx => h x (List.mem_cons_of_mem a hx)),
      if_neg (h a (List.mem_cons_self a as))]

theorem splitOnC_no_sep (c : Char) :
    ∀ (s : Str), (∀ x ∈ s, x ≠ c) → splitOnC c s = [s] := by
  intro s
  induction s with
  | nil => intro h; rfl
  | cons a as ih =>
    intro h
    rw [splitOnC, if_neg (h a (List.mem_cons_self a as)),
      ih (fun x hx => h x (List.mem_cons_of_mem a hx))]

theorem splitOnC_ne_nil (c : Char) : ∀ (s : Str), splitOnC c s ≠ [] := by
  intro s
  induction s with
  | nil => simp [splitOnC]
  | cons a as ih =>
    rw [splitOnC]
    split
    · simp
    · cases hs : splitOnC c as with
      | nil => exact absurd hs ih
      | cons p ps => simp

theorem joinWithC_splitOnC (c : Char) :
    ∀ (s : Str), joinWithC c (splitOnC c s) = s := by
  intro s
  induction s with
  | nil => rfl
  | cons a as ih =>
    rw [splitOnC]
    by_cases ha : a = c
    · rw [if_pos ha]
      cases hs : splitOnC c as with
      | nil => exact absurd hs (splitOnC_ne_nil c as)
      | cons p ps =>
        rw [hs] at ih
        rw [joinWithC]
        · rw [List.nil_append, ih, ha]
        · simp
    · rw [if_neg ha]
      cases hs : splitOnC c as with
      | nil => exact absurd hs (splitOnC_ne_nil c as)
      | cons p ps =>
        rw [hs] at ih
        cases ps with
        | nil =>
          rw [joinWithC] at ih
          show joinWithC c [a :: p] = a :: as
          rw [joinWithC, ih]
        | cons q qs =>
          rw [joinWithC] at ih
          · show joinWithC c ((a :: p) :: q :: qs) = a :: as
            rw [joinWithC]
            · rw [List.cons_append, ih]
            · simp
          · simp

theorem splitOnC_subset (c : Char) :
    ∀ (s : Str) (p : Str), p ∈ splitOnC c s → ∀ x ∈ p, x ∈ s := by
  intro s
  induction s with
  | nil =>
    intro p hp x hx
    simp [splitOnC] at hp
    subst hp
    simp at hx
  | cons a as ih =>
    intro p hp x hx
    rw [splitOnC] at hp
    split at hp
    · rcases List.mem_cons.mp hp with h | h
      · subst h; simp at hx
      · exact List.mem_cons_of_mem a (ih p h x hx)
    · cases hs : splitOnC c as with
      | nil => exact absurd hs (splitOnC_ne_nil c as)
      | cons q qs =>
        rw [hs] at hp
        rcases List.mem_cons.mp hp with h | h
        · subst h
          rcases List.mem_cons.mp hx with h2 | h2
          · subst h2; exact List.mem_cons_self x as
          · exact List.mem_cons_of_mem a (ih q (hs ▸ List.mem_cons_self q qs) x h2)
        · exact List.mem_cons_of_mem a
            (ih p (hs ▸ List.mem_cons_of_mem q h) x hx)

theorem specStripGo_id (orig : Str) :
    ∀ (ps : List Str) (charPos : Nat),
      orig.drop charPos = joinWithC ',' ps →
      (∀ p ∈ ps, indexOfC '=' p = none) →
      specStripGo orig ps charPos = ps := by
  intro ps
  induction ps with
  | nil => intro charPos h1 h2; rfl
  | cons p ps ih =>
    intro charPos h1 h2
    have hp := h2 p (List.mem_cons_self p ps)
    cases ps with
    | nil =>
      rw [joinWithC] at h1
      simp only [specStripGo, hp]
      rw [h1, List.take_length]
    | cons q qs =>
      rw [joinWithC] at h1
      · simp only [specStripGo, hp]
        refine congrArg₂ List.cons ?_ ?_
        · rw [h1]
          rw [show p ++ ',' :: joinWithC ',' (q :: qs) =
              p ++ (',' :: joinWithC ',' (q :: qs)) from rfl]
          exact List.take_left p (',' :: joinWithC ',' (q :: qs))
        · apply ih
          · have hdd : orig.drop (charPos + p.length + 1) =
                (orig.drop charPos).drop (p.length + 1) := by
              rw [List.drop_drop]
              congr 1
            rw [hdd, h1]
            rw [show p ++ ',' :: joinWithC ',' (q :: qs) =
                (p ++ [',']) ++ joinWithC ',' (q :: qs) by simp]
            have hl : (p ++ [',']).length = p.length + 1 := by simp
            rw [← hl]
            exact List.drop_left (p ++ [',']) (joinWithC ',' (q :: qs))
          · exact fun r hr => h2 r (List.mem_cons_of_mem p hr)
      · simp

theorem maskDelimGo_id (keep : Bool) ( o k : Char) :
    ∀ (s : Str), (∀ x ∈ s, x ≠ o ∧ x ≠ k) → maskDelimGo keep o k s 0 = s := by
  intro s
  induction s with
  | nil => intro h; rfl
  | cons c cs ih =>
    intro h
    have hc := h c (List.mem_cons_self c cs)
    rw [maskDelimGo, if_neg hc.1, if_neg hc.2, if_pos (Or.inl rfl),
      ih (fun x hx => h x (List.mem_cons_of_mem c hx))]

theorem maskCommentsGo_id (keep : Bool) (mc : Char) :
    ∀ (s : Str) (m : CMode), (∀ x ∈ s, x ≠ '/') → m = CMode.normal →
      maskCommentsGo keep mc s m = s := by
  intro s m
  induction s, m using maskCommentsGo.induct keep mc <;>
    intro h hm <;> simp_all [maskCommentsGo]

theorem maskStringsGo_id (mc : Char) :
    ∀ (s : Str) (m : SMode), (∀ x ∈ s, x ≠ quoteChar ∧ x ≠ squoteChar) →
      m = SMode.normal → maskStringsGo mc s m = s := by
  intro s m
  induction s, m using maskStringsGo.induct mc <;>
    intro h hm <;> simp_all [maskStringsGo]

theorem maskAttributesGo_id :
    ∀ (s : Str) (b : Bool), (∀ x ∈ s, x ≠ '[') → b = false →
      maskAttributesGo s b = s := by
  intro s b
  induction s, b using maskAttributesGo.induct <;>
    intro h hb <;> simp_all [maskAttributesGo]

theorem maskNonSourceText_id (s : Str)
    (h : ∀ x ∈ s, x ≠ '/' ∧ x ≠ quoteChar ∧ x ≠ squoteChar ∧ x ≠ '[') :
    maskNonSourceText s = s := by
  rw [maskNonSourceText, maskCommentsFull,
    maskCommentsGo_id false ' ' s CMode.normal (fun x hx => (h x hx).1) rfl,
    maskStringLiteralsU,
    maskStringsGo_id ' ' s SMode.normal (fun x hx => ⟨(h x hx).2.1, (h x hx).2.2.1⟩) rfl,
    maskAttributes,
    maskAttributesGo_id s false (fun x hx => (h x hx).2.2.2) rfl]

theorem trimEndL_of_last_not_space (s : Str) (c : Char) (h : s.getLast? = some c)
    (hc : isSpaceJs c = false) : trimEndL s = s := by
  rw [trimEndL]
  have hr : s.reverse.head? = some c := by rw [List.head?_reverse]; exact h
  cases hrev : s.reverse with
  | nil => rw [hrev] at hr; cases hr
  | cons d t =>
    rw [hrev] at hr
    have hd : d = c := by simpa using hr
    subst hd
    rw [List.dropWhile_cons, if_neg (by simp [hc]), ← hrev, List.reverse_reverse]

theorem trimEndL_concat_space (s : Str) (c : Char) (h : s.getLast? = some c)
    (hc : isSpaceJs c = false) : trimEndL (s ++ [' ']) = s := by
  rw [trimEndL, List.reverse_append]
  simp only [List.reverse_cons, List.reverse_nil, List.nil_append, List.singleton_append]
  rw [List.dropWhile_cons, if_pos (by decide)]
  have h2 := trimEndL_of_last_not_space s c h hc
  rw [trimEndL] at h2
  exact h2

theorem leadingSpaces_cons_not (c : Char) (t : Str) (h : isSpaceJs c = false) :
    leadingSpaces (c :: t) = 0 := by
  simp [leadingSpaces, h]

theorem leadingSpaces_replicate (c : Char) (t : Str) (h : isSpaceJs c = false) :
    ∀ (n : Nat), leadingSpaces (List.replicate n ' ' ++ c :: t) = n := by
  intro n
  induction n with
  | zero => simp [leadingSpaces_cons_not c t h]
  | succ m ih =>
    rw [List.replicate_succ, List.cons_append, leadingSpaces, if_pos (by decide), ih]
    omega

theorem bodyStartHere_cons_false (x : Char) (t : Str) (h1 : isSpaceJs x = false)
    (h2 : x ≠ '\x7b') (h3 : x ≠ ';') : bodyStartHere (x :: t) = false := by
  rw [bodyStartHere]
  simp only [leadingSpaces_cons_not x t h1, List.drop_zero]
  split <;> simp_all

theorem bodyStartSearchGo_spaces (c : Char) (t : Str)
    (h : bodyStartHere (c :: t) = true) :
    ∀ (n i : Nat),
      bodyStartSearchGo (List.replicate n ' ' ++ ')' :: c :: t) i = some (i + n + 1) := by
  intro n
  induction n with
  | zero =>
    intro i
    simp only [List.replicate, List.nil_append]
    rw [bodyStartSearchGo,
      if_neg (by simp [bodyStartHere_cons_false ')' (c :: t) (by decide) (by decide) (by decide)]),
      bodyStartSearchGo, if_pos h]
  | succ m ih =>
    intro i
    rw [List.replicate_succ, List.cons_append, bodyStartSearchGo]
    rw [if_neg ?hfalse]
    case hfalse =>
      rw [bodyStartHere]
      simp only [show leadingSpaces
          ((' ' :: (List.replicate m ' ' ++ ')' :: c :: t))) = m + 1 by
        rw [← List.cons_append, ← List.replicate_succ,
          leadingSpaces_replicate ')' (c :: t) (by decide)]]
      rw [show ((' ' :: (List.replicate m ' ' ++ ')' :: c :: t))).drop (m + 1) =
          ')' :: c :: t by
        rw [← List.cons_append, ← List.replicate_succ]
        have hdl := List.drop_left (List.replicate (m + 1) ' ') (')' :: c :: t)
        simpa using hdl]
      simp
    have := ih (i + 1)
    rw [this]
    congr 1
    omega

theorem bodyStartSearchGo_paren (c : Char) (t : Str)
    (h : bodyStartHere (c :: t) = true) :
    ∀ (n i : Nat),
      bodyStartSearchGo ('(' :: (List.replicate n ' ' ++ ')' :: c :: t)) i =
        some (i + n + 2) := by
  intro n i
  rw [bodyStartSearchGo]
  rw [if_neg ?hfalse]
  case hfalse =>
    cases n with
    | zero =>
      simp only [List.replicate, List.nil_append]
      simp [bodyStartHere_cons_false '(' (')' :: c :: t) (by decide) (by decide) (by decide)]
    | succ m =>
      rw [List.replicate_succ, List.cons_append]
      simp [bodyStartHere_cons_false '(' (' ' :: (List.replicate m ' ' ++ ')' :: c :: t))
        (by decide) (by decide) (by decide)]
  rw [bodyStartSearchGo_spaces c t h n (i + 1)]
  congr 1
  omega

theorem stripWordsGGo_id (words : List Str) :
    ∀ (fuel : Nat) (prev : Option Char) (s : Str),
      containsAnyWordFrom words prev s = false →
      stripWordsGGo words prev s fuel = s := by
  intro fuel
  induction fuel with
  | zero => intro prev s h; rw [stripWordsGGo]
  | succ f ih =>
    intro prev s h
    match s with
    | [] => rw [stripWordsGGo]; omega
    | c :: rest =>
      rw [containsAnyWordFrom] at h
      by_cases hm : (if nonWordOpt prev then
          words.find? (fun w => w.isPrefixOf (c :: rest) ∧
            nonWordOpt (charAt (c :: rest) w.length))
        else none).isSome = true
      · rw [if_pos hm] at h; cases h
      · rw [if_neg hm] at h
        have hnone : (if nonWordOpt prev then
            words.find? (fun w => w.isPrefixOf (c :: rest) ∧
              nonWordOpt (charAt (c :: rest) w.length))
          else none) = none := by
          cases ho : (if nonWordOpt prev then
              words.find? (fun w => w.isPrefixOf (c :: rest) ∧
                nonWordOpt (charAt (c :: rest) w.length))
            else none) with
          | none => rfl
          | some w => rw [ho] at hm; simp at hm
        simp only [stripWordsGGo, hnone]
        rw [ih (some c) rest h]

theorem stripWordOnceGo_id (w : Str) :
    ∀ (s : Str) (prev : Option Char),
      wordOnceScanFrom w prev s = false → stripWordOnceGo w prev s = s := by
  intro s
  induction s with
  | nil => intro prev h; rfl
  | cons c rest ih =>
    intro prev h
    rw [wordOnceScanFrom] at h
    by_cases hc : (nonWordOpt prev ∧ w.isPrefixOf (c :: rest) ∧
        nonWordOpt (charAt (c :: rest) w.length))
    · rw [if_pos hc] at h; cases h
    · rw [if_neg hc] at h
      rw [stripWordOnceGo, if_neg hc, ih (some c) h]

theorem stripOverrideFinalGo_id :
    ∀ (fuel : Nat) (prev : Option Char) (s : Str),
      ovfScanFrom prev s = false →
      stripOverrideFinalGo prev s fuel = s := by
  intro fuel
  induction fuel with
  | zero => intro prev s h; rw [stripOverrideFinalGo]
  | succ f ih =>
    intro prev s h
    match s with
    | [] => rw [stripOverrideFinalGo]; omega
    | c :: rest =>
      rw [ovfScanFrom] at h
      by_cases hm : (([toL "override", toL "final"].find?
          (fun w => w.isPrefixOf ((c :: rest).drop (leadingSpaces (c :: rest))) ∧
            nonWordOpt (charAt ((c :: rest).drop (leadingSpaces (c :: rest))) w.length) ∧
            (leadingSpaces (c :: rest) ≥ 1 ∨ nonWordOpt prev))).isSome) = true
      · rw [if_pos hm] at h; cases h
      · rw [if_neg hm] at h
        have hnone : ([toL "override", toL "final"].find?
            (fun w => w.isPrefixOf ((c :: rest).drop (leadingSpaces (c :: rest))) ∧
              nonWordOpt (charAt ((c :: rest).drop (leadingSpaces (c :: rest))) w.length) ∧
              (leadingSpaces (c :: rest) ≥ 1 ∨ nonWordOpt prev))) = none := by
          cases ho : ([toL "override", toL "final"].find?
              (fun w => w.isPrefixOf ((c :: rest).drop (leadingSpaces (c :: rest))) ∧
                nonWordOpt (charAt ((c :: rest).drop (leadingSpaces (c :: rest))) w.length) ∧
                (leadingSpaces (c :: rest) ≥ 1 ∨ nonWordOpt prev))) with
          | none => rfl
          | some w => rw [ho] at hm; simp at hm
        simp only [stripOverrideFinalGo, hnone]
        rw [ih (some c) rest h]

theorem replaceLineStartSpaces_id (n : Nat) (tgt : Str) (c : Char) (t : Str)
    (hn : ∀ x ∈ c :: t, x ≠ '\n') (hc : c ≠ ' ') (hpos : 1 ≤ n) :
    replaceLineStartSpaces n tgt (c :: t) = c :: t := by
  rw [replaceLineStartSpaces, linesOf, splitOnC_no_sep '\n' (c :: t) hn]
  simp only [List.map]
  rw [if_neg ?hcond]
  case hcond =>
    rintro ⟨h1, h2⟩
    match n, hpos with
    | m + 1, _ =>
      rw [List.take_succ_cons] at h2
      simp only [List.all_cons, Bool.and_eq_true] at h2
      exact hc (by simpa using h2.1)
  rw [joinWithC]

theorem endsWithStr_colons_false (s : Str) (h : ∀ x ∈ s, isWordChar x = true) :
    endsWithStr (toL "::") s = false := by
  rw [endsWithStr]
  by_cases hp : (toL "::").reverse.isPrefixOf s.reverse = true
  · exfalso
    obtain ⟨t, ht⟩ := List.isPrefixOf_iff_prefix.mp hp
    have hmem : ':' ∈ s.reverse := by
      rw [← ht]
      simp [toL]
    have : (':' : Char) ∈ s := List.mem_reverse.mp hmem
    have := h ':' this
    cases this
  · simp only [Bool.not_eq_true] at hp
    exact hp

theorem maskDelimGo_inner ( o k : Char) (hok : o ≠ k) :
    ∀ (b : Str) (t : Str), (∀ x ∈ b, x ≠ o ∧ x ≠ k ∧ x ≠ '\n') →
      maskDelimGo true o k (b ++ k :: t) 1 =
        List.replicate b.length ' ' ++ k :: maskDelimGo true o k t 0 := by
  intro b
  induction b with
  | nil =>
    intro t h
    rw [List.nil_append, maskDelimGo, if_neg (fun he => hok he.symm),
      if_pos rfl, if_pos ⟨le_refl 1, rfl⟩]
    simp
  | cons x b' ih =>
    intro t h
    have hx := h x (List.mem_cons_self x b')
    rw [List.cons_append, maskDelimGo, if_neg hx.1, if_neg hx.2.1,
      if_neg (fun hor => hor.elim (fun h0 => by omega) (fun hn => hx.2.2 hn)),
      ih t (fun y hy => h y (List.mem_cons_of_mem x hy))]
    simp [List.replicate_succ]

theorem maskDelimGo_wrap ( o k : Char) (hok : o ≠ k) :
    ∀ (a : Str) (b t : Str), (∀ x ∈ a, x ≠ o ∧ x ≠ k) →
      (∀ x ∈ b, x ≠ o ∧ x ≠ k ∧ x ≠ '\n') →
      maskDelimGo true o k (a ++ o :: (b ++ k :: t)) 0 =
        a ++ o :: (List.replicate b.length ' ' ++ k :: maskDelimGo true o k t 0) := by
  intro a
  induction a with
  | nil =>
    intro b t ha hb
    rw [List.nil_append, maskDelimGo, if_pos rfl, if_pos ⟨rfl, rfl⟩]
    rw [show (0 : Nat) + 1 = 1 from rfl, maskDelimGo_inner o k hok b t hb]
    simp
  | cons x a' ih =>
    intro b t ha hb
    have hx := ha x (List.mem_cons_self x a')
    rw [List.cons_append, maskDelimGo, if_neg hx.1, if_neg hx.2,
      if_pos (Or.inl rfl),
      ih b t (fun y hy => ha y (List.mem_cons_of_mem x hy)) hb]
    simp

theorem trueStart_zero (s : CSymCore) (h0 : s.rangeStart = 0)
    (hn : isNamespace s = false) : trueStart s = 0 := by
  rw [trueStart]
  dsimp only
  rw [if_neg (by simp [hn]), h0]
  simp [maskCommentsFull, maskCommentsGo, maskAngleBrackets, maskDelimGo, trimEndL]

theorem stripDefaultValuesSpec_id (p : Str)
    (h : ∀ x ∈ p, isWordChar x = true ∨ x = ' ' ∨ x = ',') :
    stripDefaultValuesSpec p = p := by
  have hno : ∀ (c : Char), isWordChar c = false → c ≠ ' ' → c ≠ ',' →
      ∀ x ∈ p, x ≠ c := by
    intro c hc hcs hcc x hx he
    subst he
    rcases h x hx with hw | hs | hs
    · rw [hw] at hc; cases hc
    · exact hcs hs
    · exact hcc hs
  have hmask : maskAngleBrackets (maskBraces (maskParentheses (maskNonSourceText p))) = p := by
    rw [maskNonSourceText_id p (fun x hx =>
      ⟨hno '/' (by decide) (by decide) (by decide) x hx, hno quoteChar (by decide) (by decide) (by decide) x hx,
       hno squoteChar (by decide) (by decide) (by decide) x hx, hno '[' (by decide) (by decide) (by decide) x hx⟩)]
    rw [maskParentheses, maskDelimGo_id true '(' ')' p (fun x hx =>
      ⟨hno '(' (by decide) (by decide) (by decide) x hx, hno ')' (by decide) (by decide) (by decide) x hx⟩)]
    rw [maskBraces, maskDelimGo_id true '\x7b' '\x7d' p (fun x hx =>
      ⟨hno '\x7b' (by decide) (by decide) (by decide) x hx,
       hno '\x7d' (by decide) (by decide) (by decide) x hx⟩)]
    rw [maskAngleBrackets, maskDelimGo_id true '<' '>' p (fun x hx =>
      ⟨hno '<' (by decide) (by decide) (by decide) x hx, hno '>' (by decide) (by decide) (by decide) x hx⟩)]
  rw [stripDefaultValuesSpec]
  rw [hmask]
  rw [specStripGo_id p (splitOnC ',' p) 0 (by
      rw [List.drop_zero, joinWithC_splitOnC])
    (fun q hq => indexOfC_eq_none '=' q (fun x hx =>
      hno '=' (by decide) (by decide) (by decide) x
        (splitOnC_subset ',' p q hq x hx)))]
  rw [joinWithC_splitOnC]

theorem declDoc_mem (ret nm params : Str)
    (hr2 : ∀ x ∈ ret, isWordChar x = true) (hn2 : ∀ x ∈ nm, isWordChar x = true)
    (hp2 : ∀ x ∈ params, isWordChar x = true ∨ x = ' ' ∨ x = ',') :
    ∀ x ∈ declDoc ret nm params,
      isWordChar x = true ∨ x = ' ' ∨ x = ',' ∨ x = '(' ∨ x = ')' ∨ x = ';' := by
  intro x hx
  rw [declDoc] at hx
  simp only [List.mem_append, List.mem_cons, List.not_mem_nil, or_false] at hx
  rcases hx with ((h | h | h) | h | h) | h | h
  · exact Or.inl (hr2 x h)
  · exact Or.inr (Or.inl h)
  · exact Or.inl (hn2 x h)
  · exact Or.inr (Or.inr (Or.inr (Or.inl h)))
  · rcases hp2 x h with hw | hs | hs
    · exact Or.inl hw
    · exact Or.inr (Or.inl hs)
    · exact Or.inr (Or.inr (Or.inl hs))
  · exact Or.inr (Or.inr (Or.inr (Or.inr (Or.inl h))))
  · exact Or.inr (Or.inr (Or.inr (Or.inr (Or.inr h))))

theorem declDoc_no (ret nm params : Str)
    (hr2 : ∀ x ∈ ret, isWordChar x = true) (hn2 : ∀ x ∈ nm, isWordChar x = true)
    (hp2 : ∀ x ∈ params, isWordChar x = true ∨ x = ' ' ∨ x = ',')
    (c : Char) (h1 : isWordChar c = false) (h2 : c ≠ ' ') (h3 : c ≠ ',')
    (h4 : c ≠ '(') (h5 : c ≠ ')') (h6 : c ≠ ';') :
    ∀ x ∈ declDoc ret nm params, x ≠ c := by
  intro x hx he
  subst he
  rcases declDoc_mem ret nm params hr2 hn2 hp2 x hx with hw | h | h | h | h | h
  · rw [hw] at h1; cases h1
  · exact h2 h
  · exact h3 h
  · exact h4 h
  · exact h5 h
  · exact h6 h

theorem parsableText_declCore (ret nm params : Str)
    (hr2 : ∀ x ∈ ret, isWordChar x = true) (hn2 : ∀ x ∈ nm, isWordChar x = true)
    (hp2 : ∀ x ∈ params, isWordChar x = true ∨ x = ' ' ∨ x = ',') :
    parsableText (declCore ret nm params) = declDoc ret nm params := by
  rw [parsableText, textOf]
  simp only [declCore, List.drop_zero, Nat.sub_zero, List.take_length]
  exact maskNonSourceText_id _ (fun x hx =>
    ⟨declDoc_no ret nm params hr2 hn2 hp2 '/' (by decide) (by decide) (by decide)
        (by decide) (by decide) (by decide) x hx,
     declDoc_no ret nm params hr2 hn2 hp2 quoteChar (by decide) (by decide) (by decide)
        (by decide) (by decide) (by decide) x hx,
     declDoc_no ret nm params hr2 hn2 hp2 squoteChar (by decide) (by decide) (by decide)
        (by decide) (by decide) (by decide) x hx,
     declDoc_no ret nm params hr2 hn2 hp2 '[' (by decide) (by decide) (by decide)
        (by decide) (by decide) (by decide) x hx⟩)

theorem parsableLeadingText_declCore (ret nm params : Str)
    (hr2 : ∀ x ∈ ret, isWordChar x = true) (hn2 : ∀ x ∈ nm, isWordChar x = true)
    (hp2 : ∀ x ∈ params, isWordChar x = true ∨ x = ' ' ∨ x = ',') :
    parsableLeadingText (declCore ret nm params) = ret ++ [' '] := by
  rw [parsableLeadingText, parsableText_declCore ret nm params hr2 hn2 hp2]
  simp only [declCore, Nat.sub_zero]
  rw [show declDoc ret nm params =
      (ret ++ [' ']) ++ (nm ++ '(' :: params ++ [')', ';']) by simp [declDoc]]
  have h := List.take_left (ret ++ [' ']) (nm ++ '(' :: params ++ [')', ';'])
  simpa using h

theorem declarationStart_declCore (ret nm params : Str)
    (hr2 : ∀ x ∈ ret, isWordChar x = true) (hn2 : ∀ x ∈ nm, isWordChar x = true)
    (hp2 : ∀ x ∈ params, isWordChar x = true ∨ x = ' ' ∨ x = ',')
    (htpl : (toL "template").isPrefixOf (ret ++ [' ']) = false) :
    declarationStart (declCore ret nm params) = 0 := by
  rw [declarationStart, parsableLeadingText_declCore ret nm params hr2 hn2 hp2,
    if_pos (by simp [htpl])]
  rfl

theorem getLast?_mem_str : ∀ (s : Str) (c : Char), s.getLast? = some c → c ∈ s := by
  intro s
  induction s with
  | nil => intro c h; cases h
  | cons a as ih =>
    intro c h
    cases as with
    | nil =>
      simp [List.getLast?] at h
      subst h
      exact List.mem_cons_self a []
    | cons b bs =>
      rw [List.getLast?_cons_cons] at h
      exact List.mem_cons_of_mem a (ih c h)

theorem delDefHere_no_eq (cs : Str) (h : ∀ x ∈ cs, x ≠ '=') : delDefHere cs = false := by
  rw [delDefHere]
  split
  · rename_i r heq
    exact absurd rfl (h '='
      (List.drop_subset (leadingSpaces cs) cs (heq ▸ List.mem_cons_self '=' r)))
  · rfl

theorem delDefTest_no_eq : ∀ (s : Str), (∀ x ∈ s, x ≠ '=') → delDefTest s = false := by
  intro s
  induction s with
  | nil => intro h; rfl
  | cons a as ih =>
    intro h
    rw [delDefTest, if_neg (by simp [delDefHere_no_eq (a :: as) h]),
      ih (fun x hx => h x (List.mem_cons_of_mem a hx))]

theorem pureZeroHere_no_eq (cs : Str) (h : ∀ x ∈ cs, x ≠ '=') : pureZeroHere cs = false := by
  rw [pureZeroHere]
  split
  · rename_i r heq
    exact absurd rfl (h '='
      (List.drop_subset (leadingSpaces cs) cs (heq ▸ List.mem_cons_self '=' r)))
  · rfl

theorem pureZeroTest_no_eq : ∀ (s : Str), (∀ x ∈ s, x ≠ '=') → pureZeroTest s = false := by
  intro s
  induction s with
  | nil => intro h; rfl
  | cons a as ih =>
    intro h
    rw [pureZeroTest, if_neg (by simp [pureZeroHere_no_eq (a :: as) h]),
      ih (fun x hx => h x (List.mem_cons_of_mem a hx))]

theorem isFunctionDeclaration_declCore (ret nm params : Str)
    (hr2 : ∀ x ∈ ret, isWordChar x = true) (hn2 : ∀ x ∈ nm, isWordChar x = true)
    (hp2 : ∀ x ∈ params, isWordChar x = true ∨ x = ' ' ∨ x = ',') :
    isFunctionDeclaration (declCore ret nm params) = true := by
  have hpt := parsableText_declCore ret nm params hr2 hn2 hp2
  have hnoBrace : lastIndexOfC '\x7d' (declDoc ret nm params) = none :=
    lastIndexOfC_eq_none '\x7d' _ (declDoc_no ret nm params hr2 hn2 hp2 '\x7d'
      (by decide) (by decide) (by decide) (by decide) (by decide) (by decide))
  have hnoEq : ∀ x ∈ declDoc ret nm params, x ≠ '=' :=
    declDoc_no ret nm params hr2 hn2 hp2 '='
      (by decide) (by decide) (by decide) (by decide) (by decide) (by decide)
  rw [isFunctionDeclaration]
  have h1 : isFunction (declCore ret nm params) = true := by rfl
  have h2 : endsWithBodyBrace (parsableText (declCore ret nm params)) = false := by
    rw [hpt, endsWithBodyBrace, hnoBrace]
  have h3 : isDeletedOrDefaulted (declCore ret nm params) = false := by
    rw [isDeletedOrDefaulted, hpt, delDefTest_no_eq _ hnoEq]
  have h4 : isPureVirtual (declCore ret nm params) = false := by
    rw [isPureVirtual, hpt, pureZeroTest_no_eq _ hnoEq]
    simp
  simp [h1, h2, h3, h4]

theorem maskedParsable_declCore (ret nm params : Str)
    (hr2 : ∀ x ∈ ret, isWordChar x = true) (hn2 : ∀ x ∈ nm, isWordChar x = true)
    (hp2 : ∀ x ∈ params, isWordChar x = true ∨ x = ' ' ∨ x = ',') :
    maskParentheses (parsableText (declCore ret nm params)) =
      (ret ++ ' ' :: nm) ++ '(' :: (List.replicate params.length ' ' ++ ')' :: [';']) := by
  rw [parsableText_declCore ret nm params hr2 hn2 hp2,
    show declDoc ret nm params = (ret ++ ' ' :: nm) ++ '(' :: (params ++ ')' :: [';']) by
      simp [declDoc],
    maskParentheses,
    maskDelimGo_wrap '(' ')' (by decide) (ret ++ ' ' :: nm) params [';']
      (by
        intro x hx
        rcases List.mem_append.mp hx with h | h
        · exact ⟨ne_of_word (hr2 x h) (by decide), ne_of_word (hr2 x h) (by decide)⟩
        · rcases List.mem_cons.mp h with h | h
          · subst h; exact ⟨by decide, by decide⟩
          · exact ⟨ne_of_word (hn2 x h) (by decide), ne_of_word (hn2 x h) (by decide)⟩)
      (by
        intro x hx
        rcases hp2 x hx with hw | hs | hs
        · exact ⟨ne_of_word hw (by decide), ne_of_word hw (by decide),
            ne_of_word hw (by decide)⟩
        · subst hs; exact ⟨by decide, by decide, by decide⟩
        · subst hs; exact ⟨by decide, by decide, by decide⟩)]
  rw [show maskDelimGo true '(' ')' [';'] 0 = [';'] by decide]

theorem dropMask_declCore (ret nm params : Str)
    (hr2 : ∀ x ∈ ret, isWordChar x = true) (hn2 : ∀ x ∈ nm, isWordChar x = true)
    (hp2 : ∀ x ∈ params, isWordChar x = true ∨ x = ' ' ∨ x = ',') :
    (maskParentheses (parsableText (declCore ret nm params))).drop
        (ret.length + 1 + nm.length) =
      '(' :: (List.replicate params.length ' ' ++ ')' :: [';']) := by
  rw [maskedParsable_declCore ret nm params hr2 hn2 hp2]
  have hlen : (ret ++ ' ' :: nm).length = ret.length + 1 + nm.length := by
    simp only [List.length_append, List.length_cons]
    omega
  rw [← hlen]
  exact List.drop_left _ _

theorem declarationEnd_declCore (ret nm params : Str)
    (hr2 : ∀ x ∈ ret, isWordChar x = true) (hn2 : ∀ x ∈ nm, isWordChar x = true)
    (hp2 : ∀ x ∈ params, isWordChar x = true ∨ x = ' ' ∨ x = ',') :
    declarationEnd (declCore ret nm params) =
      ret.length + 1 + nm.length + (params.length + 2) := by
  rw [declarationEnd]
  rw [show (declCore ret nm params).selEnd - (declCore ret nm params).rangeStart =
      ret.length + 1 + nm.length from rfl]
  rw [dropMask_declCore ret nm params hr2 hn2 hp2]
  rw [show bodyStartSearch ('(' :: (List.replicate params.length ' ' ++ ')' :: [';'])) =
      some (params.length + 2) by
    rw [bodyStartSearch,
      bodyStartSearchGo_paren ';' [] (by decide) params.length 0]
    simp]
  rw [show isConstructor (declCore ret nm params) = false from rfl]
  simp
  rfl

theorem scopeStringStart_declCore (ret nm params : Str) (hr1 : ret ≠ [])
    (hr2 : ∀ x ∈ ret, isWordChar x = true) (hn2 : ∀ x ∈ nm, isWordChar x = true)
    (hp2 : ∀ x ∈ params, isWordChar x = true ∨ x = ' ' ∨ x = ',') :
    scopeStringStart (declCore ret nm params) = ret.length + 1 := by
  obtain ⟨c, hcl⟩ : ∃ c, ret.getLast? = some c := by
    cases hg : ret.getLast? with
    | none =>
      exfalso
      apply hr1
      cases ret with
      | nil => rfl
      | cons a as => simp [List.getLast?_eq_none_iff] at hg
    | some c => exact ⟨c, rfl⟩
  have hcw : isWordChar c = true := hr2 c (getLast?_mem_str ret c hcl)
  rw [scopeStringStart]
  rw [parsableLeadingText_declCore ret nm params hr2 hn2 hp2]
  rw [trimEndL_concat_space ret c hcl (word_not_space hcw)]
  rw [maskAngleBracketsAll,
    maskDelimGo_id false '<' '>' ret (fun x hx =>
      ⟨ne_of_word (hr2 x hx) (by decide), ne_of_word (hr2 x hx) (by decide)⟩)]
  rw [if_pos (by simp [endsWithStr_colons_false ret hr2])]
  rfl


theorem isTemplate_declCore (ret nm params : Str)
    (hr2 : ∀ x ∈ ret, isWordChar x = true) (hn2 : ∀ x ∈ nm, isWordChar x = true)
    (hp2 : ∀ x ∈ params, isWordChar x = true ∨ x = ' ' ∨ x = ',')
    (htplFull : (toL "template").isPrefixOf (declDoc ret nm params) = false) :
    isTemplate (declCore ret nm params) = false := by
  have htz : trueStart (declCore ret nm params) = 0 := trueStart_zero _ rfl rfl
  have hsnip : parsableTemplateSnippet (declCore ret nm params) = [] := by
    rw [parsableTemplateSnippet, htz]
    rw [show (declCore ret nm params).rangeStart - 0 = 0 from rfl]
    simp
  rw [isTemplate, parsableFullText, hsnip, List.nil_append,
    parsableText_declCore ret nm params hr2 hn2 hp2]
  exact htplFull

theorem cts_declCSym (ret nm params : Str)
    (hr2 : ∀ x ∈ ret, isWordChar x = true) (hn2 : ∀ x ∈ nm, isWordChar x = true)
    (hp2 : ∀ x ∈ params, isWordChar x = true ∨ x = ' ' ∨ x = ',')
    (htplFull : (toL "template").isPrefixOf (declDoc ret nm params) = false) :
    combinedTemplateStatements (declCSym ret nm params) true (toL "\n") false = [] := by
  have hts : templateStatements (declCore ret nm params) true = [] := by
    rw [templateStatements,
      if_pos (by simp [isTemplate_declCore ret nm params hr2 hn2 hp2 htplFull])]
  have hall : allTemplateStatements (declCSym ret nm params) true false = [] := by
    rw [allTemplateStatements]
    rw [show (declCSym ret nm params).ancestorScopes = [] from rfl]
    simp [declCSym, hts]
  rw [combinedTemplateStatements, hall]
  simp

theorem declD_no (ret nm params : Str)
    (hr2 : ∀ x ∈ ret, isWordChar x = true) (hn2 : ∀ x ∈ nm, isWordChar x = true)
    (hp2 : ∀ x ∈ params, isWordChar x = true ∨ x = ' ' ∨ x = ',')
    (c : Char) (h1 : isWordChar c = false) (h2 : c ≠ ' ') (h3 : c ≠ ',')
    (h4 : c ≠ '(') (h5 : c ≠ ')') :
    ∀ x ∈ ret ++ ' ' :: nm ++ '(' :: params ++ [')'], x ≠ c := by
  intro x hx he
  rw [he] at hx
  simp only [List.mem_append, List.mem_cons, List.not_mem_nil, or_false] at hx
  rcases hx with ((h | h | h) | h | h) | h
  · exact (by rw [hr2 c h] at h1; cases h1)
  · exact h2 h
  · exact (by rw [hn2 c h] at h1; cases h1)
  · exact h4 h
  · rcases hp2 c h with hw | hs | hs
    · rw [hw] at h1; cases h1
    · exact h2 hs
    · exact h3 hs
  · exact h5 h

theorem maskedD_declCore (ret nm params : Str)
    (hr2 : ∀ x ∈ ret, isWordChar x = true) (hn2 : ∀ x ∈ nm, isWordChar x = true)
    (hp2 : ∀ x ∈ params, isWordChar x = true ∨ x = ' ' ∨ x = ',') :
    maskParentheses (maskNonSourceText (ret ++ ' ' :: nm ++ '(' :: params ++ [')'])) =
      (ret ++ ' ' :: nm) ++ '(' :: (List.replicate params.length ' ' ++ ')' :: []) := by
  rw [maskNonSourceText_id _ (fun x hx =>
    ⟨declD_no ret nm params hr2 hn2 hp2 '/' (by decide) (by decide) (by decide)
        (by decide) (by decide) x hx,
     declD_no ret nm params hr2 hn2 hp2 quoteChar (by decide) (by decide) (by decide)
        (by decide) (by decide) x hx,
     declD_no ret nm params hr2 hn2 hp2 squoteChar (by decide) (by decide) (by decide)
        (by decide) (by decide) x hx,
     declD_no ret nm params hr2 hn2 hp2 '[' (by decide) (by decide) (by decide)
        (by decide) (by decide) x hx⟩)]
  rw [show ret ++ ' ' :: nm ++ '(' :: params ++ [')'] =
      (ret ++ ' ' :: nm) ++ '(' :: (params ++ ')' :: []) by simp]
  rw [maskParentheses,
    maskDelimGo_wrap '(' ')' (by decide) (ret ++ ' ' :: nm) params []
      (by
        intro x hx
        rcases List.mem_append.mp hx with h | h
        · exact ⟨ne_of_word (hr2 x h) (by decide), ne_of_word (hr2 x h) (by decide)⟩
        · rcases List.mem_cons.mp h with h | h
          · subst h; exact ⟨by decide, by decide⟩
          · exact ⟨ne_of_word (hn2 x h) (by decide), ne_of_word (hn2 x h) (by decide)⟩)
      (by
        intro x hx
        rcases hp2 x hx with hw | hs | hs
        · exact ⟨ne_of_word hw (by decide), ne_of_word hw (by decide),
            ne_of_word hw (by decide)⟩
        · subst hs; exact ⟨by decide, by decide, by decide⟩
        · subst hs; exact ⟨by decide, by decide, by decide⟩)]
  rfl

theorem idx_maskedD (ret nm params : Str)
    (hr2 : ∀ x ∈ ret, isWordChar x = true) (hn2 : ∀ x ∈ nm, isWordChar x = true) :
    indexOfC '(' ((ret ++ ' ' :: nm) ++ '(' :: (List.replicate params.length ' ' ++ ')' :: [])) =
      some (ret.length + 1 + nm.length) := by
  rw [indexOfC_append_head '(' (ret ++ ' ' :: nm) _ (fun x hx => by
    rcases List.mem_append.mp hx with h | h
    · exact ne_of_word (hr2 x h) (by decide)
    · rcases List.mem_cons.mp h with h | h
      · subst h; decide
      · exact ne_of_word (hn2 x h) (by decide))]
  congr 1
  simp only [List.length_append, List.length_cons]
  omega

theorem last_maskedD (ret nm params : Str) :
    lastIndexOfC ')' ((ret ++ ' ' :: nm) ++ '(' :: (List.replicate params.length ' ' ++ ')' :: [])) =
      some (ret.length + 1 + nm.length + 1 + params.length) := by
  rw [show (ret ++ ' ' :: nm) ++ '(' :: (List.replicate params.length ' ' ++ ')' :: []) =
      ((ret ++ ' ' :: nm) ++ '(' :: List.replicate params.length ' ') ++ [')'] by simp]
  rw [lastIndexOfC_concat]
  congr 1
  simp only [List.length_append, List.length_cons, List.length_replicate]
  omega

set_option maxHeartbeats 2000000 in
theorem formatDeclaration_free (ret nm params : Str)
    (hr1 : ret ≠ []) (hr2 : ∀ x ∈ ret, isWordChar x = true)
    (hn1 : nm ≠ []) (hn2 : ∀ x ∈ nm, isWordChar x = true)
    (hp2 : ∀ x ∈ params, isWordChar x = true ∨ x = ' ' ∨ x = ',')
    (htpl : (toL "template").isPrefixOf (ret ++ [' ']) = false)
    (htplFull : (toL "template").isPrefixOf (declDoc ret nm params) = false)
    (hspec : containsAnyWordFrom
      [toL "virtual", toL "static", toL "explicit", toL "friend"] none
      (ret ++ [' ']) = false)
    (hinl : wordOnceScanFrom (toL "inline") none (ret ++ [' ']) = false)
    (hovf : ovfScanFrom none (ret ++ ' ' :: nm ++ '(' :: params ++ [')']) = false) :
    formatDeclaration (declCSym ret nm params) [] 0 false false true =
      ret ++ ' ' :: nm ++ '(' :: params ++ [')'] := by
  have hds := declarationStart_declCore ret nm params hr2 hn2 hp2 htpl
  have hde := declarationEnd_declCore ret nm params hr2 hn2 hp2
  have hdecl : stripSemiEnd ((declDoc ret nm params).take
      (ret.length + 1 + nm.length + (params.length + 2))) =
      ret ++ ' ' :: nm ++ '(' :: params ++ [')'] := by
    rw [show declDoc ret nm params =
        (ret ++ ' ' :: nm ++ '(' :: params ++ [')']) ++ [';'] by simp [declDoc]]
    have hlen : (ret ++ ' ' :: nm ++ '(' :: params ++ [')']).length =
        ret.length + 1 + nm.length + (params.length + 2) := by
      simp only [List.length_append, List.length_cons, List.length_nil]
      omega
    rw [← hlen, List.take_left, stripSemiEnd, if_neg (by
      rw [show ret ++ ' ' :: nm ++ '(' :: params ++ [')'] =
          (ret ++ ' ' :: nm ++ '(' :: params) ++ [')'] by simp,
        List.getLast?_concat]
      simp)]
  have hsub1 : ret.length + 1 + nm.length + 1 + params.length -
      (ret.length + 1 + nm.length + 1) = params.length := by omega
  have hdrop : (ret ++ ' ' :: nm ++ '(' :: params ++ [')']).drop
      (ret.length + 1 + nm.length + 1) = params ++ [')'] := by
    rw [show ret ++ ' ' :: nm ++ '(' :: params ++ [')'] =
        (ret ++ ' ' :: nm ++ ['(']) ++ (params ++ [')']) by simp]
    have hl : (ret ++ ' ' :: nm ++ ['(']).length = ret.length + 1 + nm.length + 1 := by
      simp only [List.length_append, List.length_cons, List.length_nil]
      omega
    rw [← hl]
    exact List.drop_left _ _
  have hntp : ((declDoc ret nm params).drop (ret.length + 1)).take
      (ret.length + 1 + nm.length - (ret.length + 1)) = nm := by
    rw [show ret.length + 1 + nm.length - (ret.length + 1) = nm.length by omega]
    rw [show declDoc ret nm params =
        (ret ++ [' ']) ++ (nm ++ ('(' :: params ++ [')', ';'])) by simp [declDoc]]
    have hl : (ret ++ [' ']).length = ret.length + 1 := by simp
    rw [← hl, List.drop_left]
    exact List.take_left _ _
  have hlt0 : (declDoc ret nm params).take (ret.length + 1) = ret ++ [' '] := by
    rw [show declDoc ret nm params =
        (ret ++ [' ']) ++ (nm ++ ('(' :: params ++ [')', ';'])) by simp [declDoc]]
    have hl : (ret ++ [' ']).length = ret.length + 1 := by simp
    rw [← hl]
    exact List.take_left _ _
  have hloo : lineOfOffset (declDoc ret nm params) 0 = 0 := by simp [lineOfOffset]
  have hlnoNL : ∀ x ∈ declDoc ret nm params, x ≠ '\n' :=
    declDoc_no ret nm params hr2 hn2 hp2 '\n' (by decide) (by decide) (by decide)
      (by decide) (by decide) (by decide)
  have hltext : lineText (declDoc ret nm params) 0 = declDoc ret nm params := by
    rw [lineText, linesOf, splitOnC_no_sep '\n' _ hlnoNL]
    simp
  have hfnw : firstNonWsIndex (declDoc ret nm params) = 0 := by
    rw [firstNonWsIndex]
    obtain ⟨c, ret', hret⟩ := List.exists_cons_of_ne_nil hr1
    rw [show declDoc ret nm params =
        c :: (ret' ++ ' ' :: nm ++ '(' :: params ++ [')', ';']) by
      rw [declDoc, hret]; simp]
    exact leadingSpaces_cons_not _ _
      (word_not_space (hr2 c (by rw [hret]; exact List.mem_cons_self c ret')))
  have hllnoNL : ∀ x ∈ ret ++ [' '], x ≠ '\n' := by
    intro x hx
    rcases List.mem_append.mp hx with h | h
    · exact ne_of_word (hr2 x h) (by decide)
    · simp at h; subst h; decide
  have hll : splitOnC '\n' (ret ++ [' ']) = [ret ++ [' ']] :=
    splitOnC_no_sep _ _ hllnoNL
  have hts : trimStartL (ret ++ [' ']) = ret ++ [' '] := by
    obtain ⟨c, ret', hret⟩ := List.exists_cons_of_ne_nil hr1
    rw [hret, List.cons_append, trimStartL, List.dropWhile_cons,
      if_neg (by simp [word_not_space (hr2 c (by rw [hret]; exact List.mem_cons_self c ret'))])]
  have hlt1 : stripWordsG [toL "virtual", toL "static", toL "explicit", toL "friend"]
      (ret ++ [' ']) = ret ++ [' '] := by
    rw [stripWordsG]
    exact stripWordsGGo_id _ _ none _ hspec
  have hlt2 : stripWordOnce (toL "inline") (ret ++ [' ']) = ret ++ [' '] := by
    rw [stripWordOnce]
    exact stripWordOnceGo_id _ _ none hinl
  have hsi : symbolIndent (declCore ret nm params) = [] := by
    rw [symbolIndent]
    rw [show (declCore ret nm params).doc = declDoc ret nm params from rfl,
      show (declCore ret nm params).rangeStart = 0 from rfl, hloo, hltext, hfnw]
    simp
  have hD0noNL : ∀ x ∈ nm ++ '(' :: params ++ [')'], x ≠ '\n' := by
    intro x hx
    rcases List.mem_append.mp hx with h | h
    · rcases List.mem_append.mp h with h2 | h2
      · exact ne_of_word (hn2 x h2) (by decide)
      · rcases List.mem_cons.mp h2 with h3 | h3
        · subst h3; decide
        · rcases hp2 x h3 with hw | hs | hs
          · exact ne_of_word hw (by decide)
          · subst hs; decide
          · subst hs; decide
    · simp at h; subst h; decide
  have htail : (ret ++ ' ' :: nm ++ '(' :: params ++ [')']).drop
      (ret.length + 1 + nm.length + 1 + params.length + 1) = [] := by
    apply List.drop_eq_nil_of_le
    simp only [List.length_append, List.length_cons, List.length_nil]
    omega
  have hrls : replaceLineStartSpaces (ret ++ [' ']).length
      (List.replicate ((ret ++ [' ']).length) ' ')
      (nm ++ '(' :: params ++ [')']) = nm ++ '(' :: params ++ [')'] := by
    obtain ⟨d, nm', hnm⟩ := List.exists_cons_of_ne_nil hn1
    rw [show nm ++ '(' :: params ++ [')'] =
        d :: (nm' ++ '(' :: params ++ [')']) by rw [hnm]; simp]
    apply replaceLineStartSpaces_id
    · intro x hx
      rw [show d :: (nm' ++ '(' :: params ++ [')']) =
          nm ++ '(' :: params ++ [')'] by rw [hnm]; simp] at hx
      exact hD0noNL x hx
    · exact ne_of_word (hn2 d (by rw [hnm]; exact List.mem_cons_self d nm')) (by decide)
    · simp
  simp only [formatDeclaration]
  rw [show (declCSym ret nm params).core = declCore ret nm params from rfl,
    show (declCore ret nm params).doc = declDoc ret nm params from rfl,
    hds, hde]
  simp only [Nat.sub_zero, List.drop_zero, Nat.zero_add, Nat.add_zero]
  rw [hdecl]
  rw [maskedD_declCore ret nm params hr2 hn2 hp2]
  simp only [idx_maskedD ret nm params hr2 hn2, last_maskedD ret nm params]
  rw [show (declCSym ret nm params).parentCore = (none : Option CSymCore) from rfl]
  simp only [hsub1, hdrop, List.take_left, stripDefaultValuesSpec_id params hp2]
  rw [show (declCore ret nm params).selStart = ret.length + 1 from rfl]
  rw [hntp]
  rw [if_neg (fun hcontra =>
    (hcontra.2.1).elim Bool.false_ne_true Bool.false_ne_true)]
  rw [scopeStringStart_declCore ret nm params hr1 hr2 hn2 hp2]
  simp only [Nat.sub_zero, Nat.sub_self, List.take_zero]
  rw [hlt0]
  rw [show (declCore ret nm params).rangeStart = 0 from rfl, hloo, hltext, hfnw, hll]
  simp only [List.getLast?_singleton, Option.getD_some, List.length_nil,
    List.length_singleton, Nat.add_zero, Nat.zero_add]
  rw [hts, hlt1]
  rw [if_pos (Or.inl (by simp))]
  rw [hlt2, hsi]
  rw [stripLineIndent]
  rw [if_pos (show (List.isEmpty ([] : Str)) = true from rfl)]
  rw [hll]
  simp only [List.getLast?_singleton, Option.getD_some, List.length_singleton]
  rw [htail]
  rw [cts_declCSym ret nm params hr2 hn2 hp2 htplFull]
  rw [if_pos (show (ret ++ [' ']).length ≠ 0 by simp)]
  simp only [if_true, Nat.add_zero]
  rw [hrls]
  simp only [List.nil_append, List.append_nil]
  rw [show (ret ++ [' ']) ++ (nm ++ '(' :: params ++ [')']) =
      ret ++ ' ' :: nm ++ '(' :: params ++ [')'] by simp]
  rw [stripOverrideFinal]
  exact stripOverrideFinalGo_id _ none _ hovf

theorem scopeString_free (ret nm params : Str) :
    scopeString LangServer.clangd (fun _ => none) 0 (declCSym ret nm params) false = [] := by
  rw [scopeString, scopeListOf,
    if_neg (by
      rw [show isClassType (declCSym ret nm params).core = false from rfl,
        show isNamespace (declCSym ret nm params).core = false from rfl]
      simp)]
  rfl

theorem newFunctionDefinition_free (ret nm params : Str)
    (hr1 : ret ≠ []) (hr2 : ∀ x ∈ ret, isWordChar x = true)
    (hn1 : nm ≠ []) (hn2 : ∀ x ∈ nm, isWordChar x = true)
    (hp2 : ∀ x ∈ params, isWordChar x = true ∨ x = ' ' ∨ x = ',')
    (htpl : (toL "template").isPrefixOf (ret ++ [' ']) = false)
    (htplFull : (toL "template").isPrefixOf (declDoc ret nm params) = false)
    (hspec : containsAnyWordFrom
      [toL "virtual", toL "static", toL "explicit", toL "friend"] none
      (ret ++ [' ']) = false)
    (hinl : wordOnceScanFrom (toL "inline") none (ret ++ [' ']) = false)
    (hovf : ovfScanFrom none (ret ++ ' ' :: nm ++ '(' :: params ++ [')']) = false) :
    newFunctionDefinition LangServer.clangd (fun _ => none)
      (declCSym ret nm params) 0 false false =
      ret ++ ' ' :: nm ++ '(' :: params ++ [')'] := by
  rw [newFunctionDefinition,
    if_neg (by
      rw [show (declCSym ret nm params).core = declCore ret nm params from rfl,
        isFunctionDeclaration_declCore ret nm params hr2 hn2 hp2]
      simp),
    scopeString_free ret nm params]
  exact formatDeclaration_free ret nm params hr1 hr2 hn1 hn2 hp2 htpl htplFull
    hspec hinl hovf

theorem defnDoc_explicit (ret nm params : Str)
    (hr1 : ret ≠ []) (hr2 : ∀ x ∈ ret, isWordChar x = true)
    (hn1 : nm ≠ []) (hn2 : ∀ x ∈ nm, isWordChar x = true)
    (hp2 : ∀ x ∈ params, isWordChar x = true ∨ x = ' ' ∨ x = ',')
    (htpl : (toL "template").isPrefixOf (ret ++ [' ']) = false)
    (htplFull : (toL "template").isPrefixOf (declDoc ret nm params) = false)
    (hspec : containsAnyWordFrom
      [toL "virtual", toL "static", toL "explicit", toL "friend"] none
      (ret ++ [' ']) = false)
    (hinl : wordOnceScanFrom (toL "inline") none (ret ++ [' ']) = false)
    (hovf : ovfScanFrom none (ret ++ ' ' :: nm ++ '(' :: params ++ [')']) = false) :
    defnDoc ret nm params =
      (ret ++ ' ' :: nm ++ '(' :: params ++ [')']) ++ [' ', '\x7b', ' ', '\x7d'] := by
  rw [defnDoc, newFunctionDefinition_free ret nm params hr1 hr2 hn1 hn2 hp2 htpl
    htplFull hspec hinl hovf]
  rfl

theorem defnF_no (ret nm params : Str)
    (hr2 : ∀ x ∈ ret, isWordChar x = true) (hn2 : ∀ x ∈ nm, isWordChar x = true)
    (hp2 : ∀ x ∈ params, isWordChar x = true ∨ x = ' ' ∨ x = ',')
    (c : Char) (h1 : isWordChar c = false) (h2 : c ≠ ' ') (h3 : c ≠ ',')
    (h4 : c ≠ '(') (h5 : c ≠ ')') (h6 : c ≠ '\x7b') (h7 : c ≠ '\x7d') :
    ∀ x ∈ (ret ++ ' ' :: nm ++ '(' :: params ++ [')']) ++ [' ', '\x7b', ' ', '\x7d'],
      x ≠ c := by
  intro x hx he
  rw [he] at hx
  rcases List.mem_append.mp hx with h | h
  · exact absurd rfl (declD_no ret nm params hr2 hn2 hp2 c h1 h2 h3 h4 h5 c h)
  · simp only [List.mem_cons, List.not_mem_nil, or_false] at h
    rcases h with h | h | h | h
    · exact h2 h
    · exact h6 h
    · exact h2 h
    · exact h7 h

theorem parsableText_defnCore (ret nm params : Str)
    (hr1 : ret ≠ []) (hr2 : ∀ x ∈ ret, isWordChar x = true)
    (hn1 : nm ≠ []) (hn2 : ∀ x ∈ nm, isWordChar x = true)
    (hp2 : ∀ x ∈ params, isWordChar x = true ∨ x = ' ' ∨ x = ',')
    (htpl : (toL "template").isPrefixOf (ret ++ [' ']) = false)
    (htplFull : (toL "template").isPrefixOf (declDoc ret nm params) = false)
    (hspec : containsAnyWordFrom
      [toL "virtual", toL "static", toL "explicit", toL "friend"] none
      (ret ++ [' ']) = false)
    (hinl : wordOnceScanFrom (toL "inline") none (ret ++ [' ']) = false)
    (hovf : ovfScanFrom none (ret ++ ' ' :: nm ++ '(' :: params ++ [')']) = false) :
    parsableText (defnCore ret nm params) =
      (ret ++ ' ' :: nm ++ '(' :: params ++ [')']) ++ [' ', '\x7b', ' ', '\x7d'] := by
  rw [parsableText, textOf,
    show (defnCore ret nm params).doc = defnDoc ret nm params from rfl,
    show (defnCore ret nm params).rangeStart = 0 from rfl,
    show (defnCore ret nm params).rangeEnd = (defnDoc ret nm params).length from rfl]
  simp only [List.drop_zero, Nat.sub_zero, List.take_length]
  rw [defnDoc_explicit ret nm params hr1 hr2 hn1 hn2 hp2 htpl htplFull hspec hinl hovf]
  exact maskNonSourceText_id _ (fun x hx =>
    ⟨defnF_no ret nm params hr2 hn2 hp2 '/' (by decide) (by decide) (by decide)
        (by decide) (by decide) (by decide) (by decide) x hx,
     defnF_no ret nm params hr2 hn2 hp2 quoteChar (by decide) (by decide) (by decide)
        (by decide) (by decide) (by decide) (by decide) x hx,
     defnF_no ret nm params hr2 hn2 hp2 squoteChar (by decide) (by decide) (by decide)
        (by decide) (by decide) (by decide) (by decide) x hx,
     defnF_no ret nm params hr2 hn2 hp2 '[' (by decide) (by decide) (by decide)
        (by decide) (by decide) (by decide) (by decide) x hx⟩)

theorem isFunctionDefinition_defnCore (ret nm params : Str)
    (hr1 : ret ≠ []) (hr2 : ∀ x ∈ ret, isWordChar x = true)
    (hn1 : nm ≠ []) (hn2 : ∀ x ∈ nm, isWordChar x = true)
    (hp2 : ∀ x ∈ params, isWordChar x = true ∨ x = ' ' ∨ x = ',')
    (htpl : (toL "template").isPrefixOf (ret ++ [' ']) = false)
    (htplFull : (toL "template").isPrefixOf (declDoc ret nm params) = false)
    (hspec : containsAnyWordFrom
      [toL "virtual", toL "static", toL "explicit", toL "friend"] none
      (ret ++ [' ']) = false)
    (hinl : wordOnceScanFrom (toL "inline") none (ret ++ [' ']) = false)
    (hovf : ovfScanFrom none (ret ++ ' ' :: nm ++ '(' :: params ++ [')']) = false) :
    isFunctionDefinition (defnCore ret nm params) = true := by
  have hpt := parsableText_defnCore ret nm params hr1 hr2 hn1 hn2 hp2 htpl htplFull
    hspec hinl hovf
  have hnoEq : ∀ x ∈ (ret ++ ' ' :: nm ++ '(' :: params ++ [')']) ++
      [' ', '\x7b', ' ', '\x7d'], x ≠ '=' :=
    defnF_no ret nm params hr2 hn2 hp2 '=' (by decide) (by decide) (by decide)
      (by decide) (by decide) (by decide) (by decide)
  have hlast : lastIndexOfC '\x7d' ((ret ++ ' ' :: nm ++ '(' :: params ++ [')']) ++
      [' ', '\x7b', ' ', '\x7d']) =
      some ((ret ++ ' ' :: nm ++ '(' :: params ++ [')']) ++ [' ', '\x7b', ' ']).length := by
    rw [show (ret ++ ' ' :: nm ++ '(' :: params ++ [')']) ++ [' ', '\x7b', ' ', '\x7d'] =
        ((ret ++ ' ' :: nm ++ '(' :: params ++ [')']) ++ [' ', '\x7b', ' ']) ++ ['\x7d']
      by simp]
    exact lastIndexOfC_concat '\x7d' _
  have hb : endsWithBodyBrace ((ret ++ ' ' :: nm ++ '(' :: params ++ [')']) ++
      [' ', '\x7b', ' ', '\x7d']) = true := by
    simp only [endsWithBodyBrace, hlast]
    rw [List.drop_eq_nil_of_le (by
      simp only [List.length_append, List.length_cons, List.length_nil]
      omega)]
    decide
  have h1 : isFunction (defnCore ret nm params) = true := rfl
  have h3 : delDefTest ((ret ++ ' ' :: nm ++ '(' :: params ++ [')']) ++
      [' ', '\x7b', ' ', '\x7d']) = false := delDefTest_no_eq _ hnoEq
  have h4 : pureZeroTest ((ret ++ ' ' :: nm ++ '(' :: params ++ [')']) ++
      [' ', '\x7b', ' ', '\x7d']) = false := pureZeroTest_no_eq _ hnoEq
  simp at hb h3 h4
  rw [isFunctionDefinition, hpt, isDeletedOrDefaulted, hpt, isPureVirtual, hpt]
  simp [h1, hb, h3, h4]

theorem declarationEnd_defnCore (ret nm params : Str)
    (hr1 : ret ≠ []) (hr2 : ∀ x ∈ ret, isWordChar x = true)
    (hn1 : nm ≠ []) (hn2 : ∀ x ∈ nm, isWordChar x = true)
    (hp2 : ∀ x ∈ params, isWordChar x = true ∨ x = ' ' ∨ x = ',')
    (htpl : (toL "template").isPrefixOf (ret ++ [' ']) = false)
    (htplFull : (toL "template").isPrefixOf (declDoc ret nm params) = false)
    (hspec : containsAnyWordFrom
      [toL "virtual", toL "static", toL "explicit", toL "friend"] none
      (ret ++ [' ']) = false)
    (hinl : wordOnceScanFrom (toL "inline") none (ret ++ [' ']) = false)
    (hovf : ovfScanFrom none (ret ++ ' ' :: nm ++ '(' :: params ++ [')']) = false) :
    declarationEnd (defnCore ret nm params) =
      ret.length + 1 + nm.length + (params.length + 2) := by
  have hpt := parsableText_defnCore ret nm params hr1 hr2 hn1 hn2 hp2 htpl htplFull
    hspec hinl hovf
  have hmasked : maskParentheses (parsableText (defnCore ret nm params)) =
      (ret ++ ' ' :: nm) ++ '(' ::
        (List.replicate params.length ' ' ++ ')' :: [' ', '\x7b', ' ', '\x7d']) := by
    rw [hpt,
      show (ret ++ ' ' :: nm ++ '(' :: params ++ [')']) ++ [' ', '\x7b', ' ', '\x7d'] =
        (ret ++ ' ' :: nm) ++ '(' :: (params ++ ')' :: [' ', '\x7b', ' ', '\x7d'])
      by simp,
      maskParentheses,
      maskDelimGo_wrap '(' ')' (by decide) (ret ++ ' ' :: nm) params
        [' ', '\x7b', ' ', '\x7d']
        (by
          intro x hx
          rcases List.mem_append.mp hx with h | h
          · exact ⟨ne_of_word (hr2 x h) (by decide), ne_of_word (hr2 x h) (by decide)⟩
          · rcases List.mem_cons.mp h with h | h
            · subst h; exact ⟨by decide, by decide⟩
            · exact ⟨ne_of_word (hn2 x h) (by decide), ne_of_word (hn2 x h) (by decide)⟩)
        (by
          intro x hx
          rcases hp2 x hx with hw | hs | hs
          · exact ⟨ne_of_word hw (by decide), ne_of_word hw (by decide),
              ne_of_word hw (by decide)⟩
          · subst hs; exact ⟨by decide, by decide, by decide⟩
          · subst hs; exact ⟨by decide, by decide, by decide⟩)]
    rw [show maskDelimGo true '(' ')' [' ', '\x7b', ' ', '\x7d'] 0 =
        [' ', '\x7b', ' ', '\x7d'] by decide]
  rw [declarationEnd]
  rw [show (defnCore ret nm params).selEnd - (defnCore ret nm params).rangeStart =
      ret.length + 1 + nm.length from rfl]
  rw [hmasked]
  rw [show ((ret ++ ' ' :: nm) ++ '(' ::
      (List.replicate params.length ' ' ++ ')' :: [' ', '\x7b', ' ', '\x7d'])).drop
        (ret.length + 1 + nm.length) =
      '(' :: (List.replicate params.length ' ' ++ ')' :: [' ', '\x7b', ' ', '\x7d']) by
    have hl : (ret ++ ' ' :: nm).length = ret.length + 1 + nm.length := by
      simp only [List.length_append, List.length_cons]
      omega
    rw [← hl]
    exact List.drop_left _ _]
  rw [show bodyStartSearch ('(' ::
      (List.replicate params.length ' ' ++ ')' :: [' ', '\x7b', ' ', '\x7d'])) =
      some (params.length + 2) by
    rw [bodyStartSearch,
      bodyStartSearchGo_paren ' ' ['\x7b', ' ', '\x7d'] (by decide) params.length 0]
    simp]
  rw [show isConstructor (defnCore ret nm params) = false from rfl]
  simp
  rfl

theorem newFunctionDeclaration_defn (ret nm params : Str)
    (hr1 : ret ≠ []) (hr2 : ∀ x ∈ ret, isWordChar x = true)
    (hn1 : nm ≠ []) (hn2 : ∀ x ∈ nm, isWordChar x = true)
    (hp2 : ∀ x ∈ params, isWordChar x = true ∨ x = ' ' ∨ x = ',')
    (htpl : (toL "template").isPrefixOf (ret ++ [' ']) = false)
    (htplFull : (toL "template").isPrefixOf (declDoc ret nm params) = false)
    (hspec : containsAnyWordFrom
      [toL "virtual", toL "static", toL "explicit", toL "friend"] none
      (ret ++ [' ']) = false)
    (hinl : wordOnceScanFrom (toL "inline") none (ret ++ [' ']) = false)
    (hovf : ovfScanFrom none (ret ++ ' ' :: nm ++ '(' :: params ++ [')']) = false) :
    newFunctionDeclaration (defnCore ret nm params) = declDoc ret nm params := by
  rw [newFunctionDeclaration,
    if_neg (by
      rw [isFunctionDefinition_defnCore ret nm params hr1 hr2 hn1 hn2 hp2 htpl htplFull
        hspec hinl hovf]
      simp)]
  rw [trueStart_zero (defnCore ret nm params) rfl rfl]
  rw [declarationEnd_defnCore ret nm params hr1 hr2 hn1 hn2 hp2 htpl htplFull
    hspec hinl hovf]
  rw [show (defnCore ret nm params).doc = defnDoc ret nm params from rfl]
  simp only [List.drop_zero, Nat.sub_zero]
  rw [defnDoc_explicit ret nm params hr1 hr2 hn1 hn2 hp2 htpl htplFull hspec hinl hovf]
  have hlen : (ret ++ ' ' :: nm ++ '(' :: params ++ [')']).length =
      ret.length + 1 + nm.length + (params.length + 2) := by
    simp only [List.length_append, List.length_cons, List.length_nil]
    omega
  rw [← hlen, List.take_left]
  rw [trimEndL_of_last_not_space _ ')' (by
    rw [show ret ++ ' ' :: nm ++ '(' :: params ++ [')'] =
        (ret ++ ' ' :: nm ++ '(' :: params) ++ [')'] by simp]
    exact List.getLast?_concat _) (by decide)]
  rw [show (ret ++ ' ' :: nm ++ '(' :: params ++ [')']) ++ [';'] =
      declDoc ret nm params by simp [declDoc]]

/-- C7: the round trip is not whitespace-equivalent for every method — the
generated definition carries the scope qualifier `C::`, which
`newFunctionDeclaration` keeps, so the reproduced declaration differs from the
original (counterexample: `void f(int x);` inside `class C`).  Amended: for
every free-function declaration `ret name(params);` whose return type and
name consist of word characters and whose parameter list consists only of
word characters, spaces and commas (so in particular no default values, no
nested brackets), with no specifier keyword
(`virtual`/`static`/`explicit`/`friend`/`inline`), no `template` prefix, and
no `override`/`final` word, converting the declaration to an out-of-line
definition in a different non-header file and converting that definition
back yields exactly the original declaration text — in particular they
agree modulo whitespace. -/
theorem claim_C7 (ret nm params : Str)
    (hr1 : ret ≠ []) (hr2 : ∀ x ∈ ret, isWordChar x = true)
    (hn1 : nm ≠ []) (hn2 : ∀ x ∈ nm, isWordChar x = true)
    (hp2 : ∀ x ∈ params, isWordChar x = true ∨ x = ' ' ∨ x = ',')
    (htpl : (toL "template").isPrefixOf (ret ++ [' ']) = false)
    (htplFull : (toL "template").isPrefixOf (declDoc ret nm params) = false)
    (hspec : containsAnyWordFrom
      [toL "virtual", toL "static", toL "explicit", toL "friend"] none
      (ret ++ [' ']) = false)
    (hinl : wordOnceScanFrom (toL "inline") none (ret ++ [' ']) = false)
    (hovf : ovfScanFrom none (ret ++ ' ' :: nm ++ '(' :: params ++ [')']) = false) :
    newFunctionDefinition LangServer.clangd (fun _ => none)
        (declCSym ret nm params) 0 false false =
      ret ++ ' ' :: nm ++ '(' :: params ++ [')'] ∧
    newFunctionDeclaration (defnCore ret nm params) = declDoc ret nm params ∧
    stripWs (newFunctionDeclaration (defnCore ret nm params)) =
      stripWs (textOf (declCore ret nm params)) := by
  have h1 := newFunctionDefinition_free ret nm params hr1 hr2 hn1 hn2 hp2 htpl
    htplFull hspec hinl hovf
  have h2 := newFunctionDeclaration_defn ret nm params hr1 hr2 hn1 hn2 hp2 htpl
    htplFull hspec hinl hovf
  refine ⟨h1, h2, ?_⟩
  rw [h2, textOf,
    show (declCore ret nm params).doc = declDoc ret nm params from rfl,
    show (declCore ret nm params).rangeStart = 0 from rfl,
    show (declCore ret nm params).rangeEnd = (declDoc ret nm params).length from rfl]
  simp only [List.drop_zero, Nat.sub_zero, List.take_length]

/-- C7 counterexample: for the method `void f(int x);` of `class C`, the
generated out-of-line definition is `void C::f(int x) \x7b \x7d`, and turning
that definition back into a declaration yields `void C::f(int x);` — not
whitespace-equivalent to the original `void f(int x);`. -/
theorem claim_C7_counterexample :
    newFunctionDefinition LangServer.clangd (fun _ => none) msymM 100 false false =
      toL "void C::f(int x)" ∧
    newFunctionDeclaration fsymM = toL "void C::f(int x);" ∧
    stripWs (newFunctionDeclaration fsymM) ≠ stripWs (textOf mcoreM) := by
  refine ⟨by decide, by decide, by decide⟩

/-- C7 witness: the free declaration `void f(int x);` satisfies every
hypothesis of the amended round-trip theorem, and its round trip reproduces
the declaration exactly. -/
theorem claim_C7_witness :
    newFunctionDefinition LangServer.clangd (fun _ => none)
        (declCSym (toL "void") (toL "f") (toL "int x")) 0 false false =
      toL "void" ++ ' ' :: toL "f" ++ '(' :: toL "int x" ++ [')'] ∧
    newFunctionDeclaration (defnCore (toL "void") (toL "f") (toL "int x")) =
      declDoc (toL "void") (toL "f") (toL "int x") ∧
    stripWs (newFunctionDeclaration (defnCore (toL "void") (toL "f") (toL "int x"))) =
      stripWs (textOf (declCore (toL "void") (toL "f") (toL "int x"))) :=
  claim_C7 (toL "void") (toL "f") (toL "int x")
    (by decide) (by decide) (by decide) (by decide) (by decide)
    (by decide) (by decide) (by decide) (by decide) (by decide)
